import Mathlib

/-!
# CriminalMusic: playback queue controller and mood radio generator

A shallow embedding of

* `client/src/contexts/PlayerContext.js` (the `PlayerProvider` state and its operations),
* `server/routes/moods.js` (`GET /:mood/radio`) with `server/config.js` (`MOOD_CATEGORIES`),
* `server/middleware/auth.js` (`verifyTelegramWebAppData`),
* `server/models/Album.js` (`addTrack`, `removeTrack`), and
* the duration formatters of `PlayerContext.js`, `client/src/services/api.js` and
  `server/models/Track.js`.

Conventions of the embedding.

* JavaScript numbers are rationals (`ℚ`); counters and indices are integers. The one
  non-finite value the modelled code can produce, `NaN` (from `0 / 0`), is explicit in `JsNum`.
  The arithmetic of the player and of the mood radio is exact. The duration formatters divide
  as the engine does, rounding the quotient to the nearest double (`jsDivide`), and print
  numbers as `Number::toString` does (`numberToString`).
* `Math.random()` is a parameter `r : ℚ` of the operation that draws it.
* A React handler reads the state of the render it was created in and queues its updates. The
  values a handler reads are a `Render`; its updates act on the `PlayerState` current when it
  runs. A function a component calls belongs to the latest render, so it reads the current
  state. The `onend` callback of an audio resource belongs to the render in which `loadTrack`
  created the resource: it reads the state from before that load (`PlayerState.onendRender`).
* Every controller operation is one transition, from the state current when it starts to the
  state after all its queued updates are applied.
* The Howler audio resource held in `howlRef` is the record `Howl`; its `onplay`, `onpause` and
  `onstop` callbacks run as part of the command that triggers them. `onload`, `onloaderror`,
  `onplayerror`, `onend` and the progress timer are operations of their own.
-/

namespace CriminalMusic

/-! ## Playback queue controller (`PlayerContext.js`) -/

/-- A track as the player sees it: `track.id`, `track.title`, `track.audioFile.url`. -/
structure Track where
  id : Nat
  title : String
  url : String
deriving DecidableEq, Repr

/-- The values of `repeatMode`: `'none'`, `'one'`, `'all'`. -/
inductive RepeatMode where
  | none
  | one
  | all
deriving DecidableEq, Repr

/-- The audio resource created by `new Howl({...})` and kept in `howlRef.current`. -/
structure Howl where
  src : Track
  volume : ℚ
  seekPos : ℚ
  playing : Bool
deriving DecidableEq

/-- Calls that leave the controller: catalog API requests, toasts, haptic feedback, and the
playback starts issued to the audio resource. -/
inductive Effect where
  | apiPlayTrack (id : Nat) (ok : Bool)
  | toastError (msg : String)
  | toastSuccess (msg : String)
  | haptic (kind : String)
  | howlPlay (src : Track)
deriving DecidableEq

/-- The values of one render that the closures `handleTrackEnd`, `playNext`, `play` and
`loadTrack` of that render read: `currentTrack`, `volume`, `isMuted`, `isShuffling`,
`repeatMode`, `playlist`, `currentIndex`. -/
structure Render where
  currentTrack : Option Track
  volume : ℚ
  isMuted : Bool
  isShuffling : Bool
  repeatMode : RepeatMode
  playlist : List Track
  currentIndex : Int
deriving DecidableEq

/-- The `useState` cells and the `howlRef` of `PlayerProvider`. `onendRender` is the render
whose `handleTrackEnd` the `onend` callback of the audio resource in `howlRef` calls: the
render in which `loadTrack` created that resource with `new Howl`. -/
structure PlayerState where
  currentTrack : Option Track
  isPlaying : Bool
  isLoading : Bool
  duration : ℚ
  currentTime : ℚ
  volume : ℚ
  isMuted : Bool
  isShuffling : Bool
  repeatMode : RepeatMode
  playlist : List Track
  currentIndex : Int
  history : List Track
  howl : Option Howl
  onendRender : Render
  effects : List Effect
deriving DecidableEq

/-- The values a closure created in the render of state `s` reads. -/
def PlayerState.render (s : PlayerState) : Render where
  currentTrack := s.currentTrack
  volume := s.volume
  isMuted := s.isMuted
  isShuffling := s.isShuffling
  repeatMode := s.repeatMode
  playlist := s.playlist
  currentIndex := s.currentIndex

/-- The initial values passed to `useState` / `useRef`. -/
def initialState : PlayerState where
  currentTrack := Option.none
  isPlaying := false
  isLoading := false
  duration := 0
  currentTime := 0
  volume := 7 / 10
  isMuted := false
  isShuffling := false
  repeatMode := RepeatMode.none
  playlist := []
  currentIndex := -1
  history := []
  howl := Option.none
  onendRender :=
    { currentTrack := Option.none, volume := 7 / 10, isMuted := false, isShuffling := false,
      repeatMode := RepeatMode.none, playlist := [], currentIndex := -1 }
  effects := []

/-- JavaScript array indexing `xs[i]` for an integer `i`: `undefined` outside the array. -/
def jsIndex {α : Type} (xs : List α) (i : Int) : Option α :=
  if i < 0 then Option.none else xs[i.toNat]?

/-- The index `Math.floor(r * n)` for a draw `r` of `Math.random()`. -/
def randomIndex (r : ℚ) (n : Nat) : Int :=
  Int.floor (r * (n : ℚ))

/-- The array `prev.filter((_, i) => i !== index)`, the positions counted from `i`. -/
def filterIndexNe {α : Type} : List α → Int → Nat → List α
  | [], _, _ => []
  | x :: xs, index, i =>
    if (i : Int) ≠ index then x :: filterIndexNe xs index (i + 1)
    else filterIndexNe xs index (i + 1)

/-- The result of `playlist.findIndex(track => track.id === id)`, `-1` when there is none. -/
def findIndexById (playlist : List Track) (id : Nat) : Int :=
  match playlist.findIdx? (fun t => t.id == id) with
  | some i => (i : Int)
  | Option.none => -1

/-- The call `howlRef.current.play()` guarded by `if (howlRef.current)`, with `onplay`. -/
def howlPlay (s : PlayerState) : PlayerState :=
  match s.howl with
  | some h =>
    { s with
      howl := some { h with playing := true }
      isPlaying := true
      effects := s.effects ++ [Effect.howlPlay h.src, Effect.haptic "light"] }
  | Option.none => s

/-- The call `howlRef.current.stop()` guarded by `if (howlRef.current)`, with `onstop`. -/
def howlStop (s : PlayerState) : PlayerState :=
  match s.howl with
  | some h =>
    { s with
      howl := some { h with playing := false, seekPos := 0 }
      isPlaying := false
      currentTime := 0 }
  | Option.none => s

/-- `loadTrack(track, playlistTracks = [], startIndex = 0)` as the closure of the render `rd`,
run on the state `s`; `apiOk` tells whether the `tracksAPI.playTrack` request succeeds. The
new audio resource takes its volume from `rd`, and its `onend` callback is the
`handleTrackEnd` of `rd`. -/
def loadTrackIn (rd : Render) (track : Track) (playlistTracks : List Track) (startIndex : Int)
    (apiOk : Bool) (s : PlayerState) : PlayerState :=
  { s with
    isLoading := true
    playlist := if playlistTracks.length > 0 then playlistTracks else s.playlist
    currentIndex := if playlistTracks.length > 0 then startIndex else s.currentIndex
    howl := some
      { src := track, volume := if rd.isMuted then 0 else rd.volume, seekPos := 0,
        playing := false }
    onendRender := rd
    currentTrack := some track
    history := track :: s.history.take 49
    effects := s.effects ++ [Effect.apiPlayTrack track.id apiOk] }

/-- `loadTrack(track, playlistTracks = [], startIndex = 0)` called from the current render. -/
def loadTrack (track : Track) (playlistTracks : List Track) (startIndex : Int) (apiOk : Bool)
    (s : PlayerState) : PlayerState :=
  loadTrackIn s.render track playlistTracks startIndex apiOk s

/-- `play(track = null, playlistTracks = [], startIndex = 0)` as the closure of the render
`rd`, run on the state `s`. -/
def playIn (rd : Render) (track : Option Track) (playlistTracks : List Track) (startIndex : Int)
    (apiOk : Bool) (s : PlayerState) : PlayerState :=
  match track with
  | some t =>
    if some t.id ≠ rd.currentTrack.map Track.id then
      howlPlay (loadTrackIn rd t playlistTracks startIndex apiOk s)
    else howlPlay s
  | Option.none => howlPlay s

/-- `play(track = null, playlistTracks = [], startIndex = 0)` called from the current render. -/
def play (track : Option Track) (playlistTracks : List Track) (startIndex : Int) (apiOk : Bool)
    (s : PlayerState) : PlayerState :=
  playIn s.render track playlistTracks startIndex apiOk s

/-- `pause()`, with the `onpause` callback. -/
def pause (s : PlayerState) : PlayerState :=
  match s.howl with
  | some h => { s with howl := some { h with playing := false }, isPlaying := false }
  | Option.none => s

/-- `stop()`. -/
def stop (s : PlayerState) : PlayerState :=
  { howlStop s with currentTime := 0 }

/-- `seek(time)`. -/
def seek (time : ℚ) (s : PlayerState) : PlayerState :=
  match s.howl with
  | some h => { s with howl := some { h with seekPos := time }, currentTime := time }
  | Option.none => s

/-- `setPlayerVolume(newVolume)`. -/
def setPlayerVolume (newVolume : ℚ) (s : PlayerState) : PlayerState :=
  { s with
    volume := newVolume
    howl := s.howl.map fun h => if s.isMuted then h else { h with volume := newVolume } }

/-- `toggleMute()`. -/
def toggleMute (s : PlayerState) : PlayerState :=
  { s with
    isMuted := !s.isMuted
    howl := s.howl.map fun h => { h with volume := if !s.isMuted then 0 else s.volume } }

/-- The index chosen by the `playNext` of the render `rd`, `undefined` being `none`. -/
def nextIndexIn (rd : Render) (r : ℚ) : Option Int :=
  if rd.isShuffling then
    let availableIndices :=
      ((List.range rd.playlist.length).map Int.ofNat).filter fun index => index ≠ rd.currentIndex
    jsIndex availableIndices (randomIndex r availableIndices.length)
  else
    let nextIndex := rd.currentIndex + 1
    if nextIndex ≥ (rd.playlist.length : Int) then
      some (if rd.repeatMode = RepeatMode.all then 0 else rd.currentIndex)
    else some nextIndex

/-- The index chosen by `playNext` called from the current render. -/
def nextIndexOf (r : ℚ) (s : PlayerState) : Option Int :=
  nextIndexIn s.render r

/-- `playNext()` as the closure of the render `rd`, run on the state `s`, with `r` the draw of
`Math.random()`. -/
def playNextIn (rd : Render) (r : ℚ) (apiOk : Bool) (s : PlayerState) : PlayerState :=
  if rd.playlist.length = 0 then s
  else
    match nextIndexIn rd r with
    | some nextIndex =>
      if nextIndex < (rd.playlist.length : Int) ∧ nextIndex ≠ rd.currentIndex then
        playIn rd (jsIndex rd.playlist nextIndex) [] 0 apiOk { s with currentIndex := nextIndex }
      else s
    | Option.none => s

/-- `playNext()` called from the current render. -/
def playNext (r : ℚ) (apiOk : Bool) (s : PlayerState) : PlayerState :=
  playNextIn s.render r apiOk s

/-- The index chosen by `playPrevious` once it has decided to change tracks. -/
def prevIndexOf (r : ℚ) (s : PlayerState) : Int :=
  if s.isShuffling then
    if s.history.length > 1 then
      match s.history[1]? with
      | some prevTrack =>
        let foundIndex := findIndexById s.playlist prevTrack.id
        if foundIndex ≠ -1 then foundIndex else randomIndex r s.playlist.length
      | Option.none => randomIndex r s.playlist.length
    else randomIndex r s.playlist.length
  else
    let prevIndex := s.currentIndex - 1
    if prevIndex < 0 then
      (if s.repeatMode = RepeatMode.all then (s.playlist.length : Int) - 1 else 0)
    else prevIndex

/-- `playPrevious()` called from the current render, with `r` the draw of `Math.random()`. -/
def playPrevious (r : ℚ) (apiOk : Bool) (s : PlayerState) : PlayerState :=
  if s.playlist.length = 0 then s
  else if s.currentTime > 3 then seek 0 s
  else
    let prevIndex := prevIndexOf r s
    if prevIndex ≥ 0 ∧ prevIndex < (s.playlist.length : Int) then
      playIn s.render (jsIndex s.playlist prevIndex) [] 0 apiOk { s with currentIndex := prevIndex }
    else s

/-- `handleTrackEnd()` as the closure of the render `rd`, run on the state `s`: the switch
reads `repeatMode`, `currentIndex` and `playlist` of `rd`, `howlRef` is the current one. -/
def handleTrackEnd (rd : Render) (r : ℚ) (apiOk : Bool) (s : PlayerState) : PlayerState :=
  match rd.repeatMode with
  | RepeatMode.one =>
    match s.howl with
    | some h => howlPlay { s with howl := some { h with seekPos := 0 } }
    | Option.none => s
  | RepeatMode.all => playNextIn rd r apiOk s
  | RepeatMode.none =>
    if rd.currentIndex < (rd.playlist.length : Int) - 1 then playNextIn rd r apiOk s
    else { s with isPlaying := false, currentTime := 0 }

/-- The `onend` event of the audio resource in `howlRef`: the callback given to `new Howl`
calls the `handleTrackEnd` of the render that created the resource. Without a resource there
is no event. -/
def onend (r : ℚ) (apiOk : Bool) (s : PlayerState) : PlayerState :=
  match s.howl with
  | some _ => handleTrackEnd s.onendRender r apiOk s
  | Option.none => s

/-- `toggleShuffle()`. -/
def toggleShuffle (s : PlayerState) : PlayerState :=
  { s with isShuffling := !s.isShuffling, effects := s.effects ++ [Effect.haptic "selection"] }

/-- `cycleRepeat()`: the entry after the current one in `['none', 'one', 'all']`. -/
def cycleRepeat (s : PlayerState) : PlayerState :=
  { s with
    repeatMode :=
      match s.repeatMode with
      | RepeatMode.none => RepeatMode.one
      | RepeatMode.one => RepeatMode.all
      | RepeatMode.all => RepeatMode.none
    effects := s.effects ++ [Effect.haptic "selection"] }

/-- `addToQueue(track)`. -/
def addToQueue (track : Track) (s : PlayerState) : PlayerState :=
  { s with
    playlist := s.playlist ++ [track]
    effects := s.effects ++ [Effect.toastSuccess (track.title ++ " добавлен в очередь")] }

/-- `removeFromQueue(index)`. -/
def removeFromQueue (index : Int) (s : PlayerState) : PlayerState :=
  let newPlaylist := filterIndexNe s.playlist index 0
  if index < s.currentIndex then
    { s with playlist := newPlaylist, currentIndex := s.currentIndex - 1 }
  else if index = s.currentIndex ∧ newPlaylist.length > 0 then
    { stop s with playlist := newPlaylist, currentTrack := Option.none, currentIndex := -1 }
  else { s with playlist := newPlaylist }

/-- `clearQueue()`. -/
def clearQueue (s : PlayerState) : PlayerState :=
  { stop s with playlist := [], currentIndex := -1, currentTrack := Option.none }

/-- The operations of the controller and the events of its audio resource. -/
inductive Op where
  | play (track : Option Track) (playlistTracks : List Track) (startIndex : Int) (apiOk : Bool)
  | pause
  | stop
  | seek (time : ℚ)
  | setPlayerVolume (newVolume : ℚ)
  | toggleMute
  | playNext (r : ℚ) (apiOk : Bool)
  | playPrevious (r : ℚ) (apiOk : Bool)
  | toggleShuffle
  | cycleRepeat
  | addToQueue (track : Track)
  | removeFromQueue (index : Int)
  | clearQueue
  | trackEnd (r : ℚ) (apiOk : Bool)
  | onload (duration : ℚ)
  | onloaderror
  | onplayerror
  | progress (pos : ℚ)

/-- One operation applied to a state. -/
def step (s : PlayerState) : Op → PlayerState
  | Op.play track playlistTracks startIndex apiOk => play track playlistTracks startIndex apiOk s
  | Op.pause => pause s
  | Op.stop => stop s
  | Op.seek time => seek time s
  | Op.setPlayerVolume v => setPlayerVolume v s
  | Op.toggleMute => toggleMute s
  | Op.playNext r apiOk => playNext r apiOk s
  | Op.playPrevious r apiOk => playPrevious r apiOk s
  | Op.toggleShuffle => toggleShuffle s
  | Op.cycleRepeat => cycleRepeat s
  | Op.addToQueue track => addToQueue track s
  | Op.removeFromQueue index => removeFromQueue index s
  | Op.clearQueue => clearQueue s
  | Op.trackEnd r apiOk => onend r apiOk s
  | Op.onload d => { s with isLoading := false, duration := d }
  | Op.onloaderror =>
    { s with
      isLoading := false
      effects := s.effects ++ [Effect.toastError "Ошибка загрузки трека"] }
  | Op.onplayerror =>
    { s with effects := s.effects ++ [Effect.toastError "Ошибка воспроизведения"] }
  | Op.progress pos => if s.isPlaying ∧ s.howl.isSome then { s with currentTime := pos } else s

/-- A sequence of operations applied from left to right. -/
def run (s : PlayerState) (ops : List Op) : PlayerState :=
  ops.foldl step s

/-- The operations a run may hold when it is applied in state `s`: a start index given together
with a playlist is an index of that playlist; a removed position is not negative and is not the
current entry of a one-entry queue; the `onend` event of the audio resource is not among
them. -/
def Op.inRange (s : PlayerState) : Op → Prop
  | Op.play _ playlistTracks startIndex _ =>
    playlistTracks = [] ∨ (0 ≤ startIndex ∧ startIndex < (playlistTracks.length : Int))
  | Op.removeFromQueue index => 0 ≤ index ∧ ¬ (index = s.currentIndex ∧ s.playlist.length = 1)
  | Op.trackEnd _ _ => False
  | _ => True

/-- Every operation of the sequence is in range when it is applied. -/
def runInRange : PlayerState → List Op → Prop
  | _, [] => True
  | s, op :: ops => op.inRange s ∧ runInRange (step s op) ops

/-- The cursor invariant of the specification: `-1` exactly on the empty playlist, and a valid
index otherwise. -/
def CursorInv (s : PlayerState) : Prop :=
  (s.currentIndex = -1 ↔ s.playlist = []) ∧
    (s.playlist ≠ [] → 0 ≤ s.currentIndex ∧ s.currentIndex < (s.playlist.length : Int))

/-- The cursor bound the controller maintains: `-1` or a valid index of the playlist. -/
def CursorBound (s : PlayerState) : Prop :=
  -1 ≤ s.currentIndex ∧ s.currentIndex < (s.playlist.length : Int)

/-- The states the controller can be in: those reached from the initial state by a sequence
of operations and audio events. -/
def Reachable (s : PlayerState) : Prop :=
  ∃ ops : List Op, run initialState ops = s

/-- The audio resource in `howlRef` was created for the current track, if there is one. -/
def HowlInv (s : PlayerState) : Prop :=
  ∀ t, s.currentTrack = some t → s.howl.map Howl.src = some t

/-- Between `s` and `s'` the controller has started playback of the track `t`, tracks being
told apart by their identifier as in `play`: it has called `play()` on an audio resource
created for a track with the identifier of `t`, that resource is playing, `isPlaying` is set
and the current track has the identifier of `t`. -/
def StartsPlaying (s s' : PlayerState) (t : Track) : Prop :=
  s'.isPlaying = true ∧ s'.currentTrack.map Track.id = some t.id ∧
    (∃ h, s'.howl = some h ∧ h.playing = true ∧ h.src.id = t.id) ∧
    ∃ src pre, src.id = t.id ∧
      s'.effects = s.effects ++ pre ++ [Effect.howlPlay src, Effect.haptic "light"]

/-! ## Mood radio generator (`server/routes/moods.js`, `server/config.js`) -/

/-- A JavaScript number in the radio statistics: a finite value, or `NaN`. -/
inductive JsNum where
  | num (q : ℚ)
  | nan
deriving DecidableEq

/-- The fields of a catalog `Track` document that the radio route reads: `stats.plays`,
`stats.likes`, `audioFile.duration` and `criminalMetadata.intensity` (the last two may be
missing). -/
structure CatalogTrack where
  id : Nat
  plays : ℚ
  likes : ℚ
  duration : Option ℚ
  intensity : Option ℚ
deriving DecidableEq

/-- An entry of `MOOD_CATEGORIES`. -/
structure MoodConfig where
  icon : String
  name : String
  tags : List String
deriving DecidableEq

/-- The table `config.MOOD_CATEGORIES`, in the order of its keys. -/
def MOOD_CATEGORIES : List (String × MoodConfig) :=
  [("AGGRESSION", { icon := "🔫", name := "Агрессия", tags := ["rage", "anger", "fight", "hardcore"] }),
   ("MELANCHOLY", { icon := "🌧️", name := "Меланхолия", tags := ["sad", "rain", "lonely", "blues"] }),
   ("LOVE", { icon := "❤️‍🔥", name := "Любовь", tags := ["love", "romance", "passion", "heart"] }),
   ("MYSTERY", { icon := "🎭", name := "Тайна", tags := ["mystery", "dark", "secret", "underground"] }),
   ("ENERGY", { icon := "🏃", name := "Энергия", tags := ["energy", "run", "fast", "adrenaline"] })]

/-- The property read `config.MOOD_CATEGORIES[key]`, `undefined` being `none`. The properties
inherited from `Object.prototype` are left out: each of their names has a lower-case letter,
which no result of `toUpperCase` has. -/
def lookupMood (key : String) : Option MoodConfig :=
  MOOD_CATEGORIES.lookup key

/-- The query string of a radio request. `limit` is `none` when the parameter is absent and
`some L` when it is the decimal numeral of `L`; `shuffle` is the raw parameter, if any. -/
structure RadioQuery where
  limit : Option Nat
  shuffle : Option String
deriving DecidableEq

/-- The value of `limit` after `const { limit = 50 } = req.query`, as a number. -/
def RadioQuery.limitValue (q : RadioQuery) : Nat :=
  q.limit.getD 50

/-- The test `shuffle === 'true'` after `const { shuffle = true } = req.query`: the default
is the boolean `true`, which is not strictly equal to the string `'true'`. -/
def RadioQuery.shuffleIsTrue (q : RadioQuery) : Bool :=
  match q.shuffle with
  | some v => v == "true"
  | Option.none => false

/-- The popularity score `stats.plays * 0.7 + stats.likes * 0.3`. -/
def score (t : CatalogTrack) : ℚ :=
  t.plays * (7 / 10) + t.likes * (3 / 10)

/-- The order of `tracks.sort((a, b) => scoreB - scoreA)`: `a` may stand before `b`. -/
def scoreGe (a b : CatalogTrack) : Bool :=
  decide (score b ≤ score a)

/-- The value of `x || d` for a number `x` that may be missing. -/
def jsOr (x : Option ℚ) (d : ℚ) : ℚ :=
  match x with
  | some v => if v = 0 then d else v
  | Option.none => d

/-- The rounding `Math.round(x)`: to the nearest integer, halves upwards. -/
def mathRound (x : ℚ) : Int :=
  Int.floor (x + 1 / 2)

/-- The ordering step of the radio route followed by `tracks.slice(0, parseInt(limit))`.
`shuffleSort` is the engine's `tracks.sort(() => 0.5 - Math.random())` for the draws of this
request. -/
def radioTracks (shuffleSort : List CatalogTrack → List CatalogTrack)
    (tracks : List CatalogTrack) (q : RadioQuery) : List CatalogTrack :=
  let ordered :=
    if q.shuffleIsTrue ∧ tracks.length > q.limitValue then shuffleSort tracks
    else tracks.mergeSort scoreGe
  ordered.take q.limitValue

/-- The reduction computing `totalDuration`. -/
def totalDuration (tracks : List CatalogTrack) : ℚ :=
  tracks.foldl (fun sum track => sum + jsOr track.duration 0) 0

/-- The reduction computing `averageIntensity`, divided by `tracks.length`; the division
`0 / 0` on the empty list gives `NaN`. -/
def averageIntensity (tracks : List CatalogTrack) : JsNum :=
  if tracks.length = 0 then JsNum.nan
  else JsNum.num
    (tracks.foldl (fun sum track => sum + jsOr track.intensity 5) 0 / (tracks.length : ℚ))

/-- The expression `Math.round(averageIntensity * 10) / 10`. -/
def roundToTenth : JsNum → JsNum
  | JsNum.num x => JsNum.num ((mathRound (x * 10) : ℚ) / 10)
  | JsNum.nan => JsNum.nan

/-- The object `stats` of the radio response. -/
structure RadioStats where
  totalTracks : Nat
  totalDuration : ℚ
  averageIntensity : JsNum
deriving DecidableEq

/-- The object `mood` of the radio response. -/
structure RadioMood where
  id : String
  name : String
  icon : String
  tags : List String
deriving DecidableEq

/-- The object `playlist` of the radio response; `generatedAt` is the time of the request. -/
structure RadioPlaylist where
  id : String
  name : String
  description : String
  mood : RadioMood
  tracks : List CatalogTrack
  stats : RadioStats
  generatedAt : Nat
deriving DecidableEq

/-- The responses of the radio route: `res.status(400).json(...)` with its `code`, or the
success body. -/
inductive RadioResponse where
  | badRequest (status : Nat) (code : String)
  | success (playlist : RadioPlaylist)
deriving DecidableEq

/-- The handler of `GET /:mood/radio`. `toUpperCase` is `String.prototype.toUpperCase`, `find`
the result of the catalog query `Track.find` as a function of the tag set, `now` the clock.
The result pairs the response with the tag sets of the catalog queries issued. -/
def radio (toUpperCase : String → String) (find : List String → List CatalogTrack)
    (shuffleSort : List CatalogTrack → List CatalogTrack) (now : Nat)
    (mood : String) (q : RadioQuery) : RadioResponse × List (List String) :=
  match lookupMood (toUpperCase mood) with
  | Option.none => (RadioResponse.badRequest 400 "UNKNOWN_MOOD", [])
  | some moodConfig =>
    let tracks := radioTracks shuffleSort (find moodConfig.tags) q
    (RadioResponse.success
      { id := mood ++ "_radio_" ++ toString now
        name := moodConfig.name ++ " Радио"
        description :=
          "Плейлист в настроении \"" ++ moodConfig.name ++ "\" - музыка для тёмных улиц"
        mood := { id := mood, name := moodConfig.name, icon := moodConfig.icon,
                  tags := moodConfig.tags }
        tracks := tracks
        stats :=
          { totalTracks := tracks.length
            totalDuration := totalDuration tracks
            averageIntensity := roundToTenth (averageIntensity tracks) }
        generatedAt := now },
      [moodConfig.tags])

/-- The list `out` is the top `min n L` of the `n` candidates by score: it has `min n L`
entries, is non-increasing in score, and some list `rest` of omitted candidates, none of
which scores higher than a returned one, makes it up to a rearrangement of the candidates. -/
def IsTopByScore (out candidates : List CatalogTrack) (L : Nat) : Prop :=
  out.length = min candidates.length L ∧
    out.Pairwise (fun a b => score b ≤ score a) ∧
    ∃ rest, (out ++ rest).Perm candidates ∧ ∀ a ∈ out, ∀ b ∈ rest, score b ≤ score a

/-- A sample catalog track with the given identifier, play count and like count. -/
def sampleCatalogTrack (id : Nat) (plays likes : ℚ) : CatalogTrack :=
  { id := id, plays := plays, likes := likes, duration := some 180, intensity := some 7 }

/-! ## Telegram WebApp data (`server/middleware/auth.js`) -/

/-- `verifyTelegramWebAppData(initData)`. The argument is given by the entries of
`new URLSearchParams(initData)`. `calculatedHash` maps the entries left after
`delete('hash')` to the hexadecimal HMAC computed from them with the bot token; `jsonParse`
is `JSON.parse`, `none` when it throws; `parseInt` is the builtin applied to the result of
`get('auth_date')`, `none` when it returns `NaN`; `currentTime` is
`Math.floor(Date.now() / 1000)`. The result `none` is `null`. -/
def verifyTelegramWebAppData {α : Type} (calculatedHash : List (String × String) → String)
    (jsonParse : String → Option α) (parseInt : Option String → Option Int)
    (currentTime : Int) (initData : List (String × String)) : Option α :=
  let hash := initData.lookup "hash"
  let urlParams := initData.filter fun p => p.1 != "hash"
  if some (calculatedHash urlParams) ≠ hash then Option.none
  else
    match urlParams.lookup "user" with
    | Option.none => Option.none
    | some userParam =>
      if userParam = "" then Option.none
      else
        match jsonParse userParam with
        | Option.none => Option.none
        | some userData =>
          match parseInt (urlParams.lookup "auth_date") with
          | some authDate => if currentTime - authDate > 3600 then Option.none else some userData
          | Option.none => some userData

/-! ## Album track list (`server/models/Album.js`) -/

/-- The fields `tracks` and `totalTracks` of an album document. -/
structure Album where
  tracks : List Nat
  totalTracks : Int
deriving DecidableEq, Repr

/-- The method `addTrack(trackId)`, up to `this.save()`. -/
def Album.addTrack (a : Album) (trackId : Nat) : Album :=
  if ¬ a.tracks.contains trackId then
    { tracks := a.tracks ++ [trackId], totalTracks := a.totalTracks + 1 }
  else a

/-- The method `removeTrack(trackId)`, up to `this.save()`; `tracks.pull(trackId)` removes
every entry equal to `trackId`. -/
def Album.removeTrack (a : Album) (trackId : Nat) : Album :=
  { tracks := a.tracks.filter fun t => t != trackId
    totalTracks := max 0 (a.totalTracks - 1) }

/-! ## Duration formatters (`PlayerContext.js`, `services/api.js`, `models/Track.js`) -/

/-- The test `!x` for a number that may be `undefined` (`none`). -/
def jsFalsy : Option JsNum → Bool
  | Option.none => true
  | some JsNum.nan => true
  | some (JsNum.num q) => decide (q = 0)

/-- The test `isNaN(x)` for a number that may be `undefined` (`none`). -/
def jsIsNaN : Option JsNum → Bool
  | Option.none => true
  | some JsNum.nan => true
  | some (JsNum.num _) => false

/-- The remainder `a % b` of two finite numbers, `b` not zero: the quotient is truncated
towards zero. The remainder of two doubles is a double, so the result is exact. -/
def jsRemainder (a b : ℚ) : ℚ :=
  a - b * ((if 0 ≤ a / b then Int.floor (a / b) else Int.ceil (a / b) : Int) : ℚ)

/-- The call `str.padStart(2, '0')`. -/
def padStart2 (str : String) : String :=
  String.mk (List.replicate (2 - str.length) '0') ++ str

/-- The position of the leading binary digit of `n`, found by halving at most `fuel` times. -/
def log2Fuel : Nat → Nat → Nat
  | 0, _ => 0
  | fuel + 1, n => if n < 2 then 0 else log2Fuel fuel (n / 2) + 1

/-- The position of the leading binary digit of `n`: the floor of its binary logarithm for
`n ≥ 1`. -/
def floorLog2 (n : Nat) : Nat :=
  log2Fuel n n

/-- The floor of the binary logarithm of the quotient `p / q`, for `p, q ≥ 1`. -/
def floorLog2Quot (p q : Nat) : Int :=
  let l : Int := (floorLog2 p : Int) - (floorLog2 q : Int)
  if q * 2 ^ l.toNat ≤ p * 2 ^ (-l).toNat then l else l - 1

/-- The quotient `a / b` rounded to the nearest integer, a tie going to the even one. -/
def divRoundHalfEven (a b : Nat) : Nat :=
  if 2 * (a % b) < b then a / b
  else if b < 2 * (a % b) then a / b + 1
  else if a / b % 2 = 0 then a / b else a / b + 1

/-- The IEEE 754 double nearest to the positive rational `p / q` (ties to even): a significand
of 53 binary digits at the binary exponent of the quotient, the exponent not going below that
of the subnormal numbers. Overflow to `Infinity` is not modelled. -/
def roundPosToDouble (p q : Nat) : ℚ :=
  let e : Int := max (floorLog2Quot p q - 52) (-1074)
  (divRoundHalfEven (p * 2 ^ (-e).toNat) (q * 2 ^ e.toNat) : ℚ) * (2 : ℚ) ^ e

/-- The IEEE 754 double nearest to the rational `x`, ties to even. -/
def roundToDouble (x : ℚ) : ℚ :=
  if x.num = 0 then 0
  else if 0 < x.num then roundPosToDouble x.num.natAbs x.den
  else - roundPosToDouble x.num.natAbs x.den

/-- The quotient `a / b` of two numbers as the engine computes it (`Number::divide`): the double
nearest to the exact quotient. -/
def jsDivide (a b : ℚ) : ℚ :=
  roundToDouble (a / b)

/-- The search of `Number::toString` for the decimal with the fewest significant digits that
converts back to the integer-valued double `v`: from the power `10 ^ j` downwards, the two
multiples of the power next to `v` are tried, and of two that convert back the closer is
taken. -/
def shortestFrom (v : Nat) : Nat → Nat
  | 0 => v
  | j + 1 =>
    if v < 10 ^ (j + 1) then shortestFrom v j
    else
      let lo := v / 10 ^ (j + 1) * 10 ^ (j + 1)
      let hi := lo + 10 ^ (j + 1)
      let okLo : Bool := decide (roundToDouble (lo : ℚ) = (v : ℚ))
      let okHi : Bool := decide (roundToDouble (hi : ℚ) = (v : ℚ))
      if okLo && okHi then (if v - lo ≤ hi - v then lo else hi)
      else if okLo then lo
      else if okHi then hi
      else shortestFrom v j

/-- The integer whose decimal digits `Number::toString` prints for the integer-valued double
`v ≥ 0`. -/
def shortestRoundTrip (v : Nat) : Nat :=
  shortestFrom v (toString v).length

/-- The exponent notation of `Number::toString`, used from `10 ^ 21` on: the digits up to the
last non-zero one, a point after the first digit, and the decimal exponent. -/
def exponentForm (w : Nat) : String :=
  let digits := (toString w).data
  let mantissa := (digits.reverse.dropWhile (· == '0')).reverse
  match mantissa with
  | [] => "0"
  | [d] => String.mk [d] ++ "e+" ++ toString (digits.length - 1)
  | d :: rest => String.mk (d :: '.' :: rest) ++ "e+" ++ toString (digits.length - 1)

/-- `Number::toString` for an integer-valued double `v ≥ 0`. -/
def naturalToString (v : Nat) : String :=
  if shortestRoundTrip v < 10 ^ 21 then toString (shortestRoundTrip v)
  else exponentForm (shortestRoundTrip v)

/-- `Number::toString` for an integer-valued double, as in a template literal and in
`toString()`. -/
def numberToString (v : Int) : String :=
  if v < 0 then "-" ++ naturalToString v.natAbs else naturalToString v.natAbs

/-- `formatTime(seconds)` of the player, `seconds` being a double. Without its guard the
template yields `NaN:NaN` for `undefined` and `NaN`. -/
def formatTime (seconds : Option JsNum) : String :=
  if jsFalsy seconds || jsIsNaN seconds then "0:00"
  else
    match seconds with
    | some (JsNum.num x) =>
      let mins := Int.floor (jsDivide x 60)
      let secs := Int.floor (jsRemainder x 60)
      numberToString mins ++ ":" ++ padStart2 (numberToString secs)
    | _ => "NaN:NaN"

/-- `formatDuration(seconds)` of the API helpers. -/
def formatDuration (seconds : Option JsNum) : String :=
  if jsFalsy seconds then "0:00"
  else
    match seconds with
    | some (JsNum.num x) =>
      let mins := Int.floor (jsDivide x 60)
      let secs := Int.floor (jsRemainder x 60)
      numberToString mins ++ ":" ++ padStart2 (numberToString secs)
    | _ => "NaN:NaN"

/-- The virtual `formattedDuration` of the `Track` model, as a function of
`audioFile.duration`. -/
def formattedDuration (duration : Option JsNum) : String :=
  if jsFalsy duration then "0:00"
  else
    match duration with
    | some (JsNum.num x) =>
      let minutes := Int.floor (jsDivide x 60)
      let seconds := Int.floor (jsRemainder x 60)
      numberToString minutes ++ ":" ++ padStart2 (numberToString seconds)
    | _ => "NaN:NaN"

/-- A `parseInt` for sample requests: the value of a string of decimal digits, `NaN` for a
missing parameter and for a string with another character. -/
def decimalParseInt : Option String → Option Int
  | some v =>
    if v.data ≠ [] ∧ v.data.all Char.isDigit then
      some ((v.data.foldl (fun n c => 10 * n + (c.toNat - 48)) 0 : Nat) : Int)
    else Option.none
  | Option.none => Option.none

/-! ## Sample data -/

/-- Upper-casing of the letters `a` to `z`, which is what `toUpperCase` does on ASCII
strings. -/
def asciiUpperCase (s : String) : String :=
  String.mk (s.data.map Char.toUpper)

/-- Ten sample candidates with identifiers `0` to `9`, track `i` having `i` plays and `9 - i`
likes. -/
def sampleCandidates : List CatalogTrack :=
  (List.range 10).map fun i => sampleCatalogTrack i (i : ℚ) ((9 - i : Nat) : ℚ)

/-- Two sample candidates, of intensity `7` and `4`. -/
def sampleIntensityPair : List CatalogTrack :=
  [{ id := 1, plays := 5, likes := 2, duration := some 200, intensity := some 7 },
   { id := 2, plays := 9, likes := 1, duration := Option.none, intensity := some 4 }]

/-- The entry `MOOD_CATEGORIES.ENERGY`. -/
def energyConfig : MoodConfig :=
  { icon := "🏃", name := "Энергия", tags := ["energy", "run", "fast", "adrenaline"] }

/-- A sample track with the given identifier. -/
def sampleTrack (n : Nat) : Track :=
  { id := n, title := "track", url := "track.mp3" }

/-- The operation `play(track)` without a playlist argument, the play-count request
succeeding. -/
def playOp (track : Track) : Op :=
  Op.play (some track) [] 0 true

/-- The state after `play(t, [t], 0)` on the initial state for the sample track `t` with
identifier `1`: a queue of one track, which is current. -/
def singleTrackState : PlayerState :=
  play (some (sampleTrack 1)) [sampleTrack 1] 0 true initialState

/-- A sample run: `play(t2, [t1, t2], 1)`, `removeFromQueue(0)`, `playNext()`,
`addToQueue(t3)`. -/
def sampleRun : List Op :=
  [Op.play (some (sampleTrack 2)) [sampleTrack 1, sampleTrack 2] 1 true,
    Op.removeFromQueue 0, Op.playNext 0 true, Op.addToQueue (sampleTrack 3)]

/-- The sample tracks with identifiers `0` to `50`, in this order. -/
def sampleTracks51 : List Track :=
  (List.range 51).map sampleTrack

/-- The run `play(t3, [t1, t2, t3], 2)`, `cycleRepeat()` twice, `toggleShuffle()`. -/
def lastOfThreeRun : List Op :=
  [Op.play (some (sampleTrack 3)) [sampleTrack 1, sampleTrack 2, sampleTrack 3] 2 true,
    Op.cycleRepeat, Op.cycleRepeat, Op.toggleShuffle]

/-- Three tracks in the queue, the cursor on the last one, repeat mode `all`, shuffle on. -/
def lastOfThreeShuffled : PlayerState :=
  run initialState lastOfThreeRun

/-- The run `play(t1, [t1], 0)`, `cycleRepeat()` twice. -/
def singleTrackRepeatAllRun : List Op :=
  [Op.play (some (sampleTrack 1)) [sampleTrack 1] 0 true, Op.cycleRepeat, Op.cycleRepeat]

/-- One track in the queue, which is current and playing, repeat mode `all`, shuffle off. -/
def singleTrackRepeatAll : PlayerState :=
  run initialState singleTrackRepeatAllRun

/-- The run `play(t1)` without a playlist, followed by a progress tick at 4 seconds. -/
def noQueueFourSecondsRun : List Op :=
  [Op.play (some (sampleTrack 1)) [] 0 true, Op.progress 4]

/-- A track is loaded and playing with 4 seconds elapsed, the queue being empty. -/
def noQueueFourSeconds : PlayerState :=
  run initialState noQueueFourSecondsRun

/-- The run `play(t2, [t1, t2], 1)`, `cycleRepeat()` twice. -/
def lastOfTwoRepeatAllRun : List Op :=
  [Op.play (some (sampleTrack 2)) [sampleTrack 1, sampleTrack 2] 1 true,
    Op.cycleRepeat, Op.cycleRepeat]

/-- Two tracks in the queue, the cursor on the last one, repeat mode `all`, shuffle off. -/
def lastOfTwoRepeatAll : PlayerState :=
  run initialState lastOfTwoRepeatAllRun

/-- The run `play(t1, [t1, t2, t3], 0)`. -/
def firstOfThreeRun : List Op :=
  [Op.play (some (sampleTrack 1)) [sampleTrack 1, sampleTrack 2, sampleTrack 3] 0 true]

/-- Three tracks in the queue, the cursor on the first one, repeat mode `none`, shuffle
off. -/
def firstOfThree : PlayerState :=
  run initialState firstOfThreeRun

/-- The run `play(t1, [t1, t2, t3], 0)` followed by a progress tick at 4 seconds. -/
def firstOfThreeFourSecondsRun : List Op :=
  [Op.play (some (sampleTrack 1)) [sampleTrack 1, sampleTrack 2, sampleTrack 3] 0 true,
    Op.progress 4]

/-- Three tracks in the queue, the first one playing with 4 seconds elapsed. -/
def firstOfThreeFourSeconds : PlayerState :=
  run initialState firstOfThreeFourSecondsRun

/-- The run `play(t1, [t1, t2, t3], 0)`, `playNext()`, `toggleShuffle()`. -/
def shuffledAfterNextRun : List Op :=
  [Op.play (some (sampleTrack 1)) [sampleTrack 1, sampleTrack 2, sampleTrack 3] 0 true,
    Op.playNext 0 true, Op.toggleShuffle]

/-- Three tracks in the queue, the second one playing after the first, shuffle on: the
history is `[t2, t1]`. -/
def shuffledAfterNext : PlayerState :=
  run initialState shuffledAfterNextRun

/-- The cursor identifies the current track: when the cursor is not `-1` and a current track
is set, the playlist has an entry at the cursor and it has the identifier of the current
track. -/
def CursorTrackInv (s : PlayerState) : Prop :=
  s.currentIndex ≠ -1 → ∀ t, s.currentTrack = some t →
    ∃ p, jsIndex s.playlist s.currentIndex = some p ∧ p.id = t.id

/-- The calls that keep the cursor on the current track. A `play(track, ...)` does so when it
loads nothing (the track has the identifier of the current track), when it passes a playlist
whose entry at the start index has the identifier of the track, or when it passes no playlist
while the cursor is `-1` or the entry at the cursor has the identifier of the track. A
`removeFromQueue(index)` does so when the index is not negative and it does not remove the
current entry of a one-entry queue. The `onend` event of the audio resource is not among these
calls. -/
def Op.keepsCursor (s : PlayerState) : Op → Prop
  | Op.play (some t) playlistTracks startIndex _ =>
    some t.id = s.currentTrack.map Track.id ∨
      (playlistTracks ≠ [] ∧ ∃ p, jsIndex playlistTracks startIndex = some p ∧ p.id = t.id) ∨
      (playlistTracks = [] ∧
        (s.currentIndex = -1 ∨ ∃ p, jsIndex s.playlist s.currentIndex = some p ∧ p.id = t.id))
  | Op.removeFromQueue index =>
    0 ≤ index ∧ ¬ (index = s.currentIndex ∧ s.playlist.length = 1)
  | Op.trackEnd _ _ => False
  | _ => True

/-- Every operation of the sequence keeps the cursor on the current track when it is
applied. -/
def runKeepsCursor : PlayerState → List Op → Prop
  | _, [] => True
  | s, op :: ops => op.keepsCursor s ∧ runKeepsCursor (step s op) ops

/-- The array `modes` of `cycleRepeat`. -/
def repeatModes : List RepeatMode :=
  [RepeatMode.none, RepeatMode.one, RepeatMode.all]

/-- The expression `modes[(modes.indexOf(repeatMode) + 1) % modes.length]` of `cycleRepeat`,
`indexOf` being `-1` for a value outside the array. The index is always inside the array, so
the default of the lookup is never used. -/
def nextRepeatMode (m : RepeatMode) : RepeatMode :=
  let currentModeIndex : Int :=
    match repeatModes.findIdx? (fun x => x == m) with
    | some i => (i : Int)
    | Option.none => -1
  (jsIndex repeatModes ((currentModeIndex + 1) % (repeatModes.length : Int))).getD
    RepeatMode.none

/-- The run `play(t1, [t1, t2, t3], 0)` followed by the `onload` event with a duration of 180
seconds. -/
def loadedRun : List Op :=
  [Op.play (some (sampleTrack 1)) [sampleTrack 1, sampleTrack 2, sampleTrack 3] 0 true,
    Op.onload 180]

/-- Three tracks in the queue, the first one loaded with a duration of 180 seconds. -/
def loadedState : PlayerState :=
  run initialState loadedRun

/-- The run `play(t1)` followed by the `onloaderror` event. -/
def failedLoadRun : List Op :=
  [Op.play (some (sampleTrack 1)) [] 0 true, Op.onloaderror]

/-- The state after the load of `t1` has failed. -/
def failedLoadState : PlayerState :=
  run initialState failedLoadRun

/-- The run `play(t1, [t1, t2], 0)`, `play(t3)`: a track is played without a playlist while
a queue is loaded. -/
def playOutsideQueueRun : List Op :=
  [Op.play (some (sampleTrack 1)) [sampleTrack 1, sampleTrack 2] 0 true,
    Op.play (some (sampleTrack 3)) [] 0 true]

/-- The run `play(t3, [t1, t2], 1)`: the start index points at another track. -/
def playOtherIndexRun : List Op :=
  [Op.play (some (sampleTrack 3)) [sampleTrack 1, sampleTrack 2] 1 true]

/-- The run `play(t2, [t1, t2, t3], 1)`, `removeFromQueue(0)`, `playNext()`,
`addToQueue(t4)`, `playPrevious()`. -/
def consistentRun : List Op :=
  [Op.play (some (sampleTrack 2)) [sampleTrack 1, sampleTrack 2, sampleTrack 3] 1 true,
    Op.removeFromQueue 0, Op.playNext 0 true, Op.addToQueue (sampleTrack 4),
    Op.playPrevious 0 true]

/-- The run `play(t1, [t1, t2], 0)`, `playNext()`, with the `onload` events of the two audio
resources and a progress tick at 200 seconds: the audio resource of `t2` is created by the
`playNext` of the render in which `t1` was current at cursor `0`. -/
def secondOfTwoRun : List Op :=
  [Op.play (some (sampleTrack 1)) [sampleTrack 1, sampleTrack 2] 0 true, Op.onload 180,
    Op.playNext 0 true, Op.onload 200, Op.progress 200]

/-- Two tracks in the queue, the cursor on the last one after `playNext()`, repeat mode
`none`, shuffle off. -/
def secondOfTwo : PlayerState :=
  run initialState secondOfTwoRun

/-- The run `play(t1, [t1, t2], 0)`, `playNext()`, `removeFromQueue(0)`, followed by the
`onend` event of the audio resource. -/
def removalThenEndRun : List Op :=
  [Op.play (some (sampleTrack 1)) [sampleTrack 1, sampleTrack 2] 0 true, Op.playNext 0 true,
    Op.removeFromQueue 0, Op.trackEnd 0 true]

/-- The run `play(t1, [t1, t2, t3], 0)`, `playNext()`, `removeFromQueue(0)`, followed by the
`onend` event of the audio resource. -/
def removalThenEndOfThreeRun : List Op :=
  [Op.play (some (sampleTrack 1)) [sampleTrack 1, sampleTrack 2, sampleTrack 3] 0 true,
    Op.playNext 0 true, Op.removeFromQueue 0, Op.trackEnd 0 true]

/-- The run `play(t1, [t1, t2, t3], 0)`, `playNext()`, `setPlayerVolume(0.3)`, followed by the
`onend` event of the audio resource. -/
def volumeThenEndRun : List Op :=
  [Op.play (some (sampleTrack 1)) [sampleTrack 1, sampleTrack 2, sampleTrack 3] 0 true,
    Op.playNext 0 true, Op.setPlayerVolume (3 / 10), Op.trackEnd 0 true]

/-- The state after `volumeThenEndRun`. -/
def volumeThenEnd : PlayerState :=
  run initialState volumeThenEndRun

/-- The `user` parameter of the sample requests, a JSON object with the field `id`. -/
def sampleUserParam : String :=
  "\x7b\"id\":1\x7d"

/-- An album with the single track `1` and a consistent counter. -/
def sampleAlbum : Album :=
  { tracks := [1], totalTracks := 1 }

/-! ## Lemmas on the controller -/

section PlayerLemmas

theorem filterIndexNe_of_lt {α : Type} (l : List α) (index : Int) (i : Nat)
    (h : index < (i : Int)) : filterIndexNe l index i = l := by
  induction l generalizing i with
  | nil => simp [filterIndexNe]
  | cons x xs ih =>
    have hne : ¬ ((i : Int) = index) := by omega
    have h2 : index < ((i + 1 : Nat) : Int) := by push_cast; omega
    simp only [filterIndexNe, ne_eq, hne, not_false_eq_true, if_true, ih (i + 1) h2]

theorem filterIndexNe_add {α : Type} (l : List α) (k i : Nat) :
    filterIndexNe l ((k : Int) + (i : Int)) i = l.eraseIdx k := by
  induction l generalizing k i with
  | nil => simp [filterIndexNe]
  | cons x xs ih =>
    cases k with
    | zero =>
      have h2 : ((0 : Nat) : Int) + (i : Int) < ((i + 1 : Nat) : Int) := by push_cast; omega
      simp only [filterIndexNe, ne_eq, Int.ofNat_zero, zero_add, not_true_eq_false, if_false,
        List.eraseIdx_cons_zero]
      simpa using filterIndexNe_of_lt xs _ (i + 1) h2
    | succ k =>
      have h := ih k (i + 1)
      have e : ((k + 1 : Nat) : Int) + (i : Int) = (k : Int) + ((i + 1 : Nat) : Int) := by
        push_cast; ring
      have hne : ¬ ((i : Int) = ((k + 1 : Nat) : Int) + (i : Int)) := by omega
      simp only [filterIndexNe, ne_eq, hne, not_false_eq_true, if_true, List.eraseIdx_cons_succ]
      rw [e, h]

theorem filterIndexNe_nat {α : Type} (l : List α) (k : Nat) :
    filterIndexNe l (k : Int) 0 = l.eraseIdx k := by
  simpa using filterIndexNe_add l k 0

theorem filterIndexNe_length_le {α : Type} (l : List α) (index : Int) (i : Nat) :
    (filterIndexNe l index i).length ≤ l.length := by
  induction l generalizing i with
  | nil => simp [filterIndexNe]
  | cons x xs ih =>
    simp only [filterIndexNe]
    split
    · simpa using ih (i + 1)
    · exact Nat.le_succ_of_le (ih (i + 1))

@[simp] theorem howlPlay_playlist (s : PlayerState) : (howlPlay s).playlist = s.playlist := by
  unfold howlPlay; split <;> rfl

@[simp] theorem howlPlay_currentIndex (s : PlayerState) :
    (howlPlay s).currentIndex = s.currentIndex := by
  unfold howlPlay; split <;> rfl

@[simp] theorem howlPlay_currentTrack (s : PlayerState) :
    (howlPlay s).currentTrack = s.currentTrack := by
  unfold howlPlay; split <;> rfl

@[simp] theorem howlPlay_history (s : PlayerState) : (howlPlay s).history = s.history := by
  unfold howlPlay; split <;> rfl

@[simp] theorem howlStop_playlist (s : PlayerState) : (howlStop s).playlist = s.playlist := by
  unfold howlStop; split <;> rfl

@[simp] theorem howlStop_currentIndex (s : PlayerState) :
    (howlStop s).currentIndex = s.currentIndex := by
  unfold howlStop; split <;> rfl

@[simp] theorem howlStop_currentTrack (s : PlayerState) :
    (howlStop s).currentTrack = s.currentTrack := by
  unfold howlStop; split <;> rfl

@[simp] theorem howlStop_history (s : PlayerState) : (howlStop s).history = s.history := by
  unfold howlStop; split <;> rfl

/-- A `play` call without a playlist argument keeps the queue and the cursor. -/
theorem playIn_nil_queue (rd : Render) (track : Option Track) (i : Int) (apiOk : Bool)
    (s : PlayerState) :
    (playIn rd track [] i apiOk s).playlist = s.playlist ∧
      (playIn rd track [] i apiOk s).currentIndex = s.currentIndex := by
  unfold playIn
  split
  · split <;> simp [loadTrackIn]
  · simp

/-- A `play` call either keeps the queue and the cursor or installs the given non-empty
playlist with the given start index. -/
theorem playIn_queue (rd : Render) (track : Option Track) (pl : List Track) (i : Int)
    (apiOk : Bool) (s : PlayerState) :
    ((playIn rd track pl i apiOk s).playlist = s.playlist ∧
        (playIn rd track pl i apiOk s).currentIndex = s.currentIndex) ∨
      (pl ≠ [] ∧ (playIn rd track pl i apiOk s).playlist = pl ∧
        (playIn rd track pl i apiOk s).currentIndex = i) := by
  unfold playIn
  split
  · split
    · by_cases hpl : pl = []
      · left; subst hpl; simp [loadTrackIn]
      · right
        have hlen : pl.length > 0 := List.length_pos.mpr hpl
        simp [loadTrackIn, hlen, hpl]
    · left; simp
  · left; simp

/-- The history after a `play` call: unchanged, or the loaded track in front of the first 49
earlier entries. -/
theorem playIn_history (rd : Render) (track : Option Track) (pl : List Track) (i : Int)
    (apiOk : Bool) (s : PlayerState) :
    (playIn rd track pl i apiOk s).history = s.history ∨
      ∃ t, (playIn rd track pl i apiOk s).history = t :: s.history.take 49 := by
  unfold playIn
  split
  · rename_i t
    split
    · right; exact ⟨t, by simp [loadTrackIn]⟩
    · left; simp
  · left; simp

/-- A `play` call sets the render of the `onend` callback to its own render when it loads, and
keeps it otherwise. -/
theorem playIn_onendRender (rd : Render) (track : Option Track) (pl : List Track) (i : Int)
    (apiOk : Bool) (s : PlayerState) :
    (playIn rd track pl i apiOk s).onendRender = s.onendRender ∨
      (playIn rd track pl i apiOk s).onendRender = rd := by
  unfold playIn howlPlay
  split
  · split
    · right; simp [loadTrackIn]
    · left; split <;> rfl
  · left; split <;> rfl

theorem mem_of_jsIndex {α : Type} (xs : List α) (i : Int) (a : α)
    (h : jsIndex xs i = some a) : a ∈ xs := by
  unfold jsIndex at h
  split at h
  · cases h
  · exact List.getElem?_mem h

/-- The index chosen by `playNext` is at least `-1` when the cursor is. -/
theorem nextIndexIn_ge (r : ℚ) (rd : Render) (ni : Int) (hc : -1 ≤ rd.currentIndex)
    (h : nextIndexIn rd r = some ni) : -1 ≤ ni := by
  unfold nextIndexIn at h
  split at h
  · have hm := mem_of_jsIndex _ _ _ h
    simp only [List.mem_filter, List.mem_map, List.mem_range] at hm
    obtain ⟨⟨j, _, hj⟩, _⟩ := hm
    subst hj
    have : (0 : Int) ≤ Int.ofNat j := Int.ofNat_nonneg j
    omega
  · simp only at h
    split at h
    · split at h <;> · cases h; omega
    · cases h; omega

theorem playNextIn_cursorBound (rd : Render) (r : ℚ) (apiOk : Bool) (s : PlayerState)
    (hb : CursorBound s) (hrd : -1 ≤ rd.currentIndex)
    (hlen : rd.playlist.length ≤ s.playlist.length) :
    CursorBound (playNextIn rd r apiOk s) := by
  unfold playNextIn
  split
  · exact hb
  · split
    · rename_i ni hni
      split
      · rename_i hg
        have hq := playIn_nil_queue rd (jsIndex rd.playlist ni) 0 apiOk
          { s with currentIndex := ni }
        have hge := nextIndexIn_ge r rd ni hrd hni
        have hq1 : (playIn rd (jsIndex rd.playlist ni) [] 0 apiOk
            { s with currentIndex := ni }).playlist = s.playlist := hq.1
        have hq2 : (playIn rd (jsIndex rd.playlist ni) [] 0 apiOk
            { s with currentIndex := ni }).currentIndex = ni := hq.2
        unfold CursorBound
        rw [hq1, hq2]
        have := hg.1
        exact ⟨hge, by omega⟩
      · exact hb
    · exact hb

theorem playNext_cursorBound (r : ℚ) (apiOk : Bool) (s : PlayerState) (hb : CursorBound s) :
    CursorBound (playNext r apiOk s) :=
  playNextIn_cursorBound s.render r apiOk s hb hb.1 (Nat.le_refl _)

theorem playPrevious_cursorBound (r : ℚ) (apiOk : Bool) (s : PlayerState)
    (hb : CursorBound s) : CursorBound (playPrevious r apiOk s) := by
  unfold playPrevious
  split
  · exact hb
  · split
    · unfold seek
      split <;> exact hb
    · simp only
      split
      · rename_i hg
        have hq := playIn_nil_queue s.render (jsIndex s.playlist (prevIndexOf r s)) 0 apiOk
          { s with currentIndex := prevIndexOf r s }
        have hq1 : (playIn s.render (jsIndex s.playlist (prevIndexOf r s)) [] 0 apiOk
            { s with currentIndex := prevIndexOf r s }).playlist = s.playlist := hq.1
        have hq2 : (playIn s.render (jsIndex s.playlist (prevIndexOf r s)) [] 0 apiOk
            { s with currentIndex := prevIndexOf r s }).currentIndex = prevIndexOf r s := hq.2
        unfold CursorBound
        rw [hq1, hq2]
        exact ⟨by have := hg.1; omega, hg.2⟩
      · exact hb

theorem removeFromQueue_cursorBound (index : Int) (s : PlayerState) (hb : CursorBound s)
    (h0 : 0 ≤ index) (hone : ¬ (index = s.currentIndex ∧ s.playlist.length = 1)) :
    CursorBound (removeFromQueue index s) := by
  obtain ⟨k, rfl⟩ := Int.eq_ofNat_of_zero_le h0
  obtain ⟨hlo, hhi⟩ := hb
  by_cases hk : k < s.playlist.length
  · have hlen : (filterIndexNe s.playlist (k : Int) 0).length = s.playlist.length - 1 := by
      rw [filterIndexNe_nat, List.length_eraseIdx, if_pos hk]
    unfold removeFromQueue CursorBound
    simp only
    split
    · simp only [hlen]
      constructor
      · omega
      · omega
    · split
      · rename_i hg
        simp only [hlen]
        have := hg.2
        rw [hlen] at this
        constructor
        · omega
        · omega
      · rename_i hlt hg
        simp only [hlen]
        refine ⟨hlo, ?_⟩
        by_cases hc : s.currentIndex = (k : Int)
        · have hz : ¬ (filterIndexNe s.playlist (k : Int) 0).length > 0 :=
            fun h => hg ⟨hc.symm, h⟩
          rw [hlen] at hz
          exact absurd ⟨hc.symm, by omega⟩ hone
        · omega
  · have hsame : filterIndexNe s.playlist (k : Int) 0 = s.playlist := by
      rw [filterIndexNe_nat, List.eraseIdx_of_length_le (by omega)]
    have hnlt : ¬ ((k : Int) < s.currentIndex) := by omega
    have hng : ¬ ((k : Int) = s.currentIndex ∧ s.playlist.length > 0) := by
      rintro ⟨h1, h2⟩
      omega
    unfold removeFromQueue
    simp only [hsame, if_neg hnlt, if_neg hng]
    exact ⟨hlo, hhi⟩

/-- Every operation in range keeps the cursor bound. -/
theorem step_cursorBound (s : PlayerState) (op : Op) (hb : CursorBound s)
    (hr : op.inRange s) : CursorBound (step s op) := by
  cases op with
  | play track pl i apiOk =>
    rcases playIn_queue s.render track pl i apiOk s with ⟨h1, h2⟩ | ⟨hne, h1, h2⟩
    · have e1 : (step s (Op.play track pl i apiOk)).playlist = s.playlist := h1
      have e2 : (step s (Op.play track pl i apiOk)).currentIndex = s.currentIndex := h2
      unfold CursorBound; rw [e1, e2]; exact hb
    · have e1 : (step s (Op.play track pl i apiOk)).playlist = pl := h1
      have e2 : (step s (Op.play track pl i apiOk)).currentIndex = i := h2
      unfold CursorBound; rw [e1, e2]
      rcases hr with hr | hr
      · exact absurd hr hne
      · exact ⟨by omega, hr.2⟩
  | pause => simp only [step, pause]; split <;> exact hb
  | stop => exact ⟨by simpa [step, stop] using hb.1, by simpa [step, stop] using hb.2⟩
  | seek t => simp only [step, seek]; split <;> exact hb
  | setPlayerVolume v => exact hb
  | toggleMute => exact hb
  | playNext r apiOk => exact playNext_cursorBound r apiOk s hb
  | playPrevious r apiOk => exact playPrevious_cursorBound r apiOk s hb
  | toggleShuffle => exact hb
  | cycleRepeat => exact hb
  | addToQueue t =>
    obtain ⟨hlo, hhi⟩ := hb
    refine ⟨hlo, ?_⟩
    simp only [step, addToQueue, List.length_append, List.length_singleton]
    push_cast; omega
  | removeFromQueue index => exact removeFromQueue_cursorBound index s hb hr.1 hr.2
  | clearQueue => exact ⟨by simp [step, clearQueue], by simp [step, clearQueue]⟩
  | trackEnd r apiOk => exact absurd hr id
  | onload d => exact hb
  | onloaderror => exact hb
  | onplayerror => exact hb
  | progress pos => simp only [step]; split <;> exact hb

/-- Every run of operations in range keeps the cursor bound. -/
theorem run_cursorBound (ops : List Op) (s : PlayerState) (hb : CursorBound s)
    (hr : runInRange s ops) : CursorBound (run s ops) := by
  induction ops generalizing s with
  | nil => exact hb
  | cons op ops ih => exact ih (step s op) (step_cursorBound s op hb hr.1) hr.2

theorem take_append_cons_take {α : Type} (a : List α) (t : α) (h : List α) :
    (a ++ t :: h.take 49).take 50 = (a ++ t :: h).take 50 := by
  rw [List.take_append_eq_append_take, List.take_append_eq_append_take]
  congr 1
  cases hm : 50 - a.length with
  | zero => rfl
  | succ m =>
    have : min m 49 = m := by omega
    simp [List.take_take, this]

/-- Loading tracks through `play`, each with an identifier different from the current track
and from each other, puts them in front of the history in reverse order. -/
theorem run_play_history (pl : Track → List Track) (idx : Track → Int) (ok : Track → Bool)
    (ts : List Track) (s : PlayerState) (hlen : s.history.length ≤ 50)
    (hcur : ∀ t ∈ ts, some t.id ≠ s.currentTrack.map Track.id)
    (hd : ts.Pairwise fun a b => a.id ≠ b.id) :
    (run s (ts.map fun t => Op.play (some t) (pl t) (idx t) (ok t))).history =
      (ts.reverse ++ s.history).take 50 := by
  induction ts generalizing s with
  | nil => simpa [run] using (List.take_of_length_le hlen).symm
  | cons t rest ih =>
    have h1 : some t.id ≠ s.currentTrack.map Track.id := hcur t (List.mem_cons_self _ _)
    have hstep : step s (Op.play (some t) (pl t) (idx t) (ok t)) =
        howlPlay (loadTrack t (pl t) (idx t) (ok t) s) := by
      have h2 : some t.id ≠ s.render.currentTrack.map Track.id := h1
      simp only [step, play, playIn, loadTrack, h2, ne_eq, not_false_eq_true, if_true]
    have hhist : (step s (Op.play (some t) (pl t) (idx t) (ok t))).history =
        t :: s.history.take 49 := by
      rw [hstep]; simp [loadTrack, loadTrackIn]
    have hct : (step s (Op.play (some t) (pl t) (idx t) (ok t))).currentTrack = some t := by
      rw [hstep]; simp [loadTrack, loadTrackIn]
    have hlen2 : (step s (Op.play (some t) (pl t) (idx t) (ok t))).history.length ≤ 50 := by
      rw [hhist]; simp only [List.length_cons, List.length_take]; omega
    rw [List.pairwise_cons] at hd
    have hcur2 : ∀ u ∈ rest, some u.id ≠
        (step s (Op.play (some t) (pl t) (idx t) (ok t))).currentTrack.map Track.id := by
      intro u hu
      rw [hct]
      simp only [Option.map_some', ne_eq, Option.some.injEq]
      exact fun h => hd.1 u hu h.symm
    have hrun : run s ((t :: rest).map fun t => Op.play (some t) (pl t) (idx t) (ok t)) =
        run (step s (Op.play (some t) (pl t) (idx t) (ok t)))
          (rest.map fun t => Op.play (some t) (pl t) (idx t) (ok t)) := rfl
    rw [hrun, ih _ hlen2 hcur2 hd.2, hhist, List.reverse_cons, List.append_assoc,
      List.singleton_append]
    exact take_append_cons_take _ _ _

/-- Every operation keeps the history within 50 entries. -/
theorem step_history_le (s : PlayerState) (op : Op) (h : s.history.length ≤ 50) :
    (step s op).history.length ≤ 50 := by
  have hplay : ∀ rd tr pl i ok (s0 : PlayerState), s0.history = s.history →
      (playIn rd tr pl i ok s0).history.length ≤ 50 := by
    intro rd tr pl i ok s0 h0
    rcases playIn_history rd tr pl i ok s0 with e | ⟨t, e⟩
    · rw [e, h0]; exact h
    · rw [e]; simp only [List.length_cons, List.length_take]; omega
  have hnext : ∀ rd r ok, (playNextIn rd r ok s).history.length ≤ 50 := by
    intro rd r ok
    unfold playNextIn
    split
    · exact h
    · split
      · split
        · exact hplay _ _ _ _ _ _ rfl
        · exact h
      · exact h
  cases op with
  | play track pl i apiOk => exact hplay s.render track pl i apiOk s rfl
  | pause => simp only [step, pause]; split <;> exact h
  | stop => simpa [step, stop] using h
  | seek t => simp only [step, seek]; split <;> exact h
  | setPlayerVolume v => exact h
  | toggleMute => exact h
  | playNext r apiOk => exact hnext s.render r apiOk
  | playPrevious r apiOk =>
    simp only [step, playPrevious]
    split
    · exact h
    · split
      · unfold seek; split <;> exact h
      · split
        · exact hplay _ _ _ _ _ _ rfl
        · exact h
  | toggleShuffle => exact h
  | cycleRepeat => exact h
  | addToQueue t => exact h
  | removeFromQueue index =>
    simp only [step, removeFromQueue]
    split
    · exact h
    · split
      · simpa [stop] using h
      · exact h
  | clearQueue => simpa [step, clearQueue, stop] using h
  | trackEnd r apiOk =>
    simp only [step, onend]
    split
    · unfold handleTrackEnd
      split
      · split
        · rw [howlPlay_history]; exact h
        · exact h
      · exact hnext _ r apiOk
      · split
        · exact hnext _ r apiOk
        · exact h
    · exact h
  | onload d => exact h
  | onloaderror => exact h
  | onplayerror => exact h
  | progress pos => simp only [step]; split <;> exact h

theorem run_history_le (ops : List Op) (s : PlayerState) (h : s.history.length ≤ 50) :
    (run s ops).history.length ≤ 50 := by
  induction ops generalizing s with
  | nil => exact h
  | cons op ops ih => exact ih (step s op) (step_history_le s op h)

theorem removeFromQueue_of_lt (index : Int) (s : PlayerState) (h : index < s.currentIndex) :
    removeFromQueue index s =
      { s with
        playlist := filterIndexNe s.playlist index 0
        currentIndex := s.currentIndex - 1 } := by
  unfold removeFromQueue
  simp only [if_pos h]

theorem removeFromQueue_of_gt (index : Int) (s : PlayerState) (h : s.currentIndex < index) :
    removeFromQueue index s = { s with playlist := filterIndexNe s.playlist index 0 } := by
  have h1 : ¬ (index < s.currentIndex) := by omega
  have h2 : ¬ (index = s.currentIndex ∧ (filterIndexNe s.playlist index 0).length > 0) := by
    intro h3; omega
  unfold removeFromQueue
  simp only [if_neg h1, if_neg h2]

theorem removeFromQueue_of_eq (index : Int) (s : PlayerState) (h : index = s.currentIndex)
    (hpos : (filterIndexNe s.playlist index 0).length > 0) :
    removeFromQueue index s =
      { stop s with
        playlist := filterIndexNe s.playlist index 0
        currentTrack := Option.none
        currentIndex := -1 } := by
  have h1 : ¬ (index < s.currentIndex) := by omega
  unfold removeFromQueue
  simp only [if_neg h1, if_pos (And.intro h hpos)]

/-- On a playlist of at least 2 entries, `removeFromQueue` at the cursor deletes the entry
there, clears the current track, resets the elapsed time and sets the cursor to `-1`. -/
theorem removeFromQueue_current_of_two (s : PlayerState) (c : Nat)
    (hc : s.currentIndex = (c : Int)) (hv : c < s.playlist.length)
    (hlen : 2 ≤ s.playlist.length) :
    (removeFromQueue (c : Int) s).playlist = s.playlist.eraseIdx c ∧
      (removeFromQueue (c : Int) s).currentTrack = Option.none ∧
      (removeFromQueue (c : Int) s).currentTime = 0 ∧
      (removeFromQueue (c : Int) s).currentIndex = -1 := by
  have hpos : (filterIndexNe s.playlist (c : Int) 0).length > 0 := by
    rw [filterIndexNe_nat, List.length_eraseIdx, if_pos hv]; omega
  rw [removeFromQueue_of_eq (c : Int) s hc.symm hpos]
  exact ⟨filterIndexNe_nat _ _, rfl, rfl, rfl⟩

/-! ### The audio resource and the current track -/

theorem howlPlay_howlInv (s : PlayerState) (h : HowlInv s) : HowlInv (howlPlay s) := by
  unfold howlPlay
  split
  · rename_i hw hs
    intro t ht
    have := h t ht
    rw [hs] at this
    simpa using this
  · exact h

theorem loadTrackIn_howlInv (rd : Render) (t : Track) (pl : List Track) (i : Int) (ok : Bool)
    (s : PlayerState) : HowlInv (loadTrackIn rd t pl i ok s) := by
  intro u hu
  simp only [loadTrackIn, Option.some.injEq] at hu
  simp [loadTrackIn, hu]

theorem playIn_howlInv (rd : Render) (track : Option Track) (pl : List Track) (i : Int)
    (ok : Bool) (s : PlayerState) (h : HowlInv s) : HowlInv (playIn rd track pl i ok s) := by
  unfold playIn
  split
  · split
    · exact howlPlay_howlInv _ (loadTrackIn_howlInv _ _ _ _ _ _)
    · exact howlPlay_howlInv _ h
  · exact howlPlay_howlInv _ h

theorem seek_howlInv (time : ℚ) (s : PlayerState) (h : HowlInv s) : HowlInv (seek time s) := by
  unfold seek
  split
  · rename_i hw hs
    intro t ht
    have := h t ht
    rw [hs] at this
    simpa using this
  · exact h

theorem setIndex_howlInv (s : PlayerState) (j : Int) (h : HowlInv s) :
    HowlInv { s with currentIndex := j } := h

theorem playNextIn_howlInv (rd : Render) (r : ℚ) (ok : Bool) (s : PlayerState)
    (h : HowlInv s) : HowlInv (playNextIn rd r ok s) := by
  unfold playNextIn
  split
  · exact h
  · split
    · split
      · exact playIn_howlInv _ _ _ _ _ _ (setIndex_howlInv s _ h)
      · exact h
    · exact h

theorem playNext_howlInv (r : ℚ) (ok : Bool) (s : PlayerState) (h : HowlInv s) :
    HowlInv (playNext r ok s) :=
  playNextIn_howlInv s.render r ok s h

theorem playPrevious_howlInv (r : ℚ) (ok : Bool) (s : PlayerState) (h : HowlInv s) :
    HowlInv (playPrevious r ok s) := by
  unfold playPrevious
  split
  · exact h
  · split
    · exact seek_howlInv 0 s h
    · simp only
      split
      · exact playIn_howlInv _ _ _ _ _ _ (setIndex_howlInv s _ h)
      · exact h

/-- Every operation keeps the audio resource with the current track. -/
theorem step_howlInv (s : PlayerState) (op : Op) (h : HowlInv s) : HowlInv (step s op) := by
  cases op with
  | play track pl i apiOk => exact playIn_howlInv s.render track pl i apiOk s h
  | pause =>
    simp only [step, pause]
    split
    · rename_i hw hs
      intro t ht
      have := h t ht
      rw [hs] at this
      simpa using this
    · exact h
  | stop =>
    intro t ht
    have := h t (by simpa [step, stop] using ht)
    simp only [step, stop, howlStop]
    split
    · rename_i hw hs
      rw [hs] at this
      simpa using this
    · exact this
  | seek time => exact seek_howlInv time s h
  | setPlayerVolume v =>
    intro t ht
    have := h t ht
    simp only [step, setPlayerVolume, Option.map_map]
    cases hs : s.howl with
    | none => rw [hs] at this; simp at this
    | some hw =>
      rw [hs] at this
      by_cases hm : s.isMuted = true
      · simpa [hm] using this
      · simpa [hm] using this
  | toggleMute =>
    intro t ht
    have := h t ht
    simp only [step, toggleMute, Option.map_map]
    cases hs : s.howl with
    | none => rw [hs] at this; simp at this
    | some hw =>
      rw [hs] at this
      simpa using this
  | playNext r apiOk => exact playNext_howlInv r apiOk s h
  | playPrevious r apiOk => exact playPrevious_howlInv r apiOk s h
  | toggleShuffle => exact h
  | cycleRepeat => exact h
  | addToQueue t => exact h
  | removeFromQueue index =>
    simp only [step, removeFromQueue]
    split
    · exact h
    · split
      · intro t ht
        cases ht
      · exact h
  | clearQueue =>
    intro t ht
    cases ht
  | trackEnd r apiOk =>
    simp only [step, onend]
    split
    · unfold handleTrackEnd
      split
      · split
        · rename_i hw hs
          apply howlPlay_howlInv
          intro t ht
          have := h t ht
          rw [hs] at this
          simpa using this
        · exact h
      · exact playNextIn_howlInv _ r apiOk s h
      · split
        · exact playNextIn_howlInv _ r apiOk s h
        · exact h
    · exact h
  | onload d => exact h
  | onloaderror => exact h
  | onplayerror => exact h
  | progress pos => simp only [step]; split <;> exact h

theorem run_howlInv (ops : List Op) (s : PlayerState) (h : HowlInv s) :
    HowlInv (run s ops) := by
  induction ops generalizing s with
  | nil => exact h
  | cons op ops ih => exact ih (step s op) (step_howlInv s op h)

/-- In every reachable state the audio resource belongs to the current track. -/
theorem reachable_howlInv (s : PlayerState) (h : Reachable s) : HowlInv s := by
  obtain ⟨ops, rfl⟩ := h
  exact run_howlInv ops initialState (by intro t ht; cases ht)

/-! ### Starting playback of a queue entry -/

theorem jsIndex_nat {α : Type} (xs : List α) (j : Nat) : jsIndex xs (j : Int) = xs[j]? := by
  have h : ¬ ((j : Int) < 0) := by omega
  simp [jsIndex, h]

/-- The call `play(t)` loads `t` and starts its playback when the render of the call holds a
current track with another identifier, or none. -/
theorem playIn_load_startsPlaying (rd : Render) (s s0 : PlayerState) (t : Track) (ok : Bool)
    (hid : some t.id ≠ rd.currentTrack.map Track.id) (heff : s0.effects = s.effects) :
    StartsPlaying s (playIn rd (some t) [] 0 ok s0) t := by
  unfold playIn
  simp only [if_pos hid]
  refine ⟨?_, ?_, ?_, t, [Effect.apiPlayTrack t.id ok], rfl, ?_⟩
  · simp [howlPlay, loadTrackIn]
  · simp [howlPlay, loadTrackIn]
  · simp [howlPlay, loadTrackIn]
  · simp [howlPlay, loadTrackIn, heff]

/-- The call `play(t)` from a render that holds the current track starts playback of `t` when
the audio resource belongs to the current track. -/
theorem playIn_startsPlaying (rd : Render) (s s0 : PlayerState) (t : Track) (ok : Bool)
    (hinv : HowlInv s0) (hrd : rd.currentTrack = s0.currentTrack)
    (heff : s0.effects = s.effects) : StartsPlaying s (playIn rd (some t) [] 0 ok s0) t := by
  by_cases hid : some t.id ≠ rd.currentTrack.map Track.id
  · exact playIn_load_startsPlaying rd s s0 t ok hid heff
  · unfold playIn
    simp only [if_neg hid]
    have hid2 : s0.currentTrack.map Track.id = some t.id := by
      rw [← hrd]
      by_contra hne
      exact hid (fun h => hne h.symm)
    obtain ⟨ct, hct, hctid⟩ := Option.map_eq_some'.mp hid2
    obtain ⟨hw, hhw, hsrc⟩ := Option.map_eq_some'.mp (hinv ct hct)
    have hsrcid : hw.src.id = t.id := by rw [hsrc, hctid]
    refine ⟨?_, ?_, ?_, hw.src, [], hsrcid, ?_⟩
    · simp [howlPlay, hhw]
    · simp [howlPlay, hhw, hct, hctid]
    · simp [howlPlay, hhw, hsrcid]
    · simp [howlPlay, hhw, heff]

/-- Moving the cursor to a valid position `j` and calling `play` on the entry there, from the
current render, keeps the playlist, leaves the cursor at `j` and starts playback of that
entry. -/
theorem playAt_spec (s : PlayerState) (ok : Bool) (j : Nat) (t : Track) (hinv : HowlInv s)
    (ht : s.playlist[j]? = some t) :
    (playIn s.render (jsIndex s.playlist (j : Int)) [] 0 ok
        { s with currentIndex := (j : Int) }).currentIndex = (j : Int) ∧
      (playIn s.render (jsIndex s.playlist (j : Int)) [] 0 ok
        { s with currentIndex := (j : Int) }).playlist = s.playlist ∧
      StartsPlaying s
        (playIn s.render (jsIndex s.playlist (j : Int)) [] 0 ok
          { s with currentIndex := (j : Int) }) t := by
  have hq := playIn_nil_queue s.render (jsIndex s.playlist (j : Int)) 0 ok
    { s with currentIndex := (j : Int) }
  refine ⟨hq.2, hq.1, ?_⟩
  rw [jsIndex_nat, ht]
  exact playIn_startsPlaying s.render s _ t ok (setIndex_howlInv s _ hinv) rfl rfl

/-! ### Random draws -/

theorem randomIndex_nonneg (r : ℚ) (n : Nat) (h0 : 0 ≤ r) : 0 ≤ randomIndex r n := by
  unfold randomIndex
  apply Int.floor_nonneg.mpr
  exact mul_nonneg h0 (Nat.cast_nonneg n)

theorem randomIndex_lt (r : ℚ) (n : Nat) (h1 : r < 1) (hn : 0 < n) :
    randomIndex r n < (n : Int) := by
  unfold randomIndex
  apply Int.floor_lt.mpr
  have hn2 : (0 : ℚ) < (n : ℚ) := by exact_mod_cast hn
  have : r * (n : ℚ) < 1 * (n : ℚ) := mul_lt_mul_of_pos_right h1 hn2
  simpa using this

/-- The draw `k / n` selects position `k` among `n`. -/
theorem randomIndex_div (k n : Nat) (hk : k < n) :
    0 ≤ ((k : ℚ) / (n : ℚ)) ∧ ((k : ℚ) / (n : ℚ)) < 1 ∧
      randomIndex ((k : ℚ) / (n : ℚ)) n = (k : Int) := by
  have hn2 : (0 : ℚ) < (n : ℚ) := by exact_mod_cast (Nat.lt_of_le_of_lt (Nat.zero_le k) hk)
  have hk2 : (k : ℚ) < (n : ℚ) := by exact_mod_cast hk
  refine ⟨div_nonneg (Nat.cast_nonneg k) (le_of_lt hn2), (div_lt_one hn2).mpr hk2, ?_⟩
  unfold randomIndex
  rw [div_mul_cancel₀ _ (ne_of_gt hn2)]
  exact_mod_cast Int.floor_natCast k

/-! ### The index chosen by `playNext` -/

theorem playNext_of_next (r : ℚ) (ok : Bool) (s : PlayerState) (j : Int)
    (hn : s.playlist.length ≠ 0) (hnext : nextIndexOf r s = some j)
    (hj : j < (s.playlist.length : Int)) (hne : j ≠ s.currentIndex) :
    playNext r ok s =
      playIn s.render (jsIndex s.playlist j) [] 0 ok { s with currentIndex := j } := by
  have hn2 : s.render.playlist.length ≠ 0 := hn
  have hnext2 : nextIndexIn s.render r = some j := hnext
  have hg : j < (s.render.playlist.length : Int) ∧ j ≠ s.render.currentIndex := ⟨hj, hne⟩
  unfold playNext playNextIn
  rw [if_neg hn2, hnext2]
  simp only [if_pos hg]
  rfl

theorem playNext_of_same (r : ℚ) (ok : Bool) (s : PlayerState)
    (hnext : nextIndexOf r s = some s.currentIndex) : playNext r ok s = s := by
  have hnext2 : nextIndexIn s.render r = some s.render.currentIndex := hnext
  unfold playNext playNextIn
  split
  · rfl
  · rw [hnext2]
    simp

theorem playNext_of_none (r : ℚ) (ok : Bool) (s : PlayerState)
    (hnext : nextIndexOf r s = Option.none) : playNext r ok s = s := by
  have hnext2 : nextIndexIn s.render r = Option.none := hnext
  unfold playNext playNextIn
  split
  · rfl
  · rw [hnext2]

/-- The index of sequential `playNext`. -/
theorem nextIndexOf_sequential (r : ℚ) (s : PlayerState) (hsh : s.isShuffling = false) :
    nextIndexOf r s =
      if s.currentIndex + 1 ≥ (s.playlist.length : Int) then
        some (if s.repeatMode = RepeatMode.all then 0 else s.currentIndex)
      else some (s.currentIndex + 1) := by
  simp [nextIndexOf, nextIndexIn, PlayerState.render, hsh]

/-- The indices other than the cursor, as `playNext` lists them when shuffling. -/
theorem mem_availableIndices (s : PlayerState) (x : Int) :
    x ∈ ((List.range s.playlist.length).map Int.ofNat).filter
        (fun index => index ≠ s.currentIndex) ↔
      ∃ j : Nat, j < s.playlist.length ∧ x = (j : Int) ∧ x ≠ s.currentIndex := by
  simp only [List.mem_filter, List.mem_map, List.mem_range, ne_eq, decide_not,
    Bool.not_eq_true', decide_eq_false_iff_not]
  constructor
  · rintro ⟨⟨j, hj, rfl⟩, hne⟩
    exact ⟨j, hj, rfl, hne⟩
  · rintro ⟨j, hj, rfl, hne⟩
    exact ⟨⟨j, hj, rfl⟩, hne⟩

/-- A shuffled `playNext` with a draw in `[0, 1)` chooses an index other than the cursor as
soon as there is one. -/
theorem nextIndexOf_shuffle (r : ℚ) (s : PlayerState) (hsh : s.isShuffling = true)
    (h0 : 0 ≤ r) (h1 : r < 1)
    (hex : ∃ j : Nat, j < s.playlist.length ∧ (j : Int) ≠ s.currentIndex) :
    ∃ j : Nat, j < s.playlist.length ∧ (j : Int) ≠ s.currentIndex ∧
      nextIndexOf r s = some (j : Int) := by
  obtain ⟨avail, hav⟩ : ∃ avail, avail = ((List.range s.playlist.length).map Int.ofNat).filter
      (fun index => index ≠ s.currentIndex) := ⟨_, rfl⟩
  have hnext : nextIndexOf r s = jsIndex avail (randomIndex r avail.length) := by
    simp only [nextIndexOf, nextIndexIn, PlayerState.render, hsh, if_true, hav]
  have hiff : ∀ x, x ∈ avail ↔
      ∃ j : Nat, j < s.playlist.length ∧ x = (j : Int) ∧ x ≠ s.currentIndex := by
    intro x; rw [hav]; exact mem_availableIndices s x
  obtain ⟨j0, hj0, hne0⟩ := hex
  have hpos : 0 < avail.length := List.length_pos_of_mem ((hiff _).mpr ⟨j0, hj0, rfl, hne0⟩)
  have hk0 := randomIndex_nonneg r avail.length h0
  have hk1 := randomIndex_lt r avail.length h1 hpos
  obtain ⟨k, hk⟩ := Int.eq_ofNat_of_zero_le hk0
  rw [hk] at hk1
  have hklt : k < avail.length := by exact_mod_cast hk1
  have hget := List.getElem?_eq_getElem hklt
  obtain ⟨j, hj, hje, hjne⟩ := (hiff _).mp (List.getElem?_mem hget)
  refine ⟨j, hj, by rw [← hje]; exact hjne, ?_⟩
  rw [hnext, hk, jsIndex_nat, hget, hje]

/-- Every index other than the cursor is chosen by a shuffled `playNext` for some draw. -/
theorem nextIndexOf_shuffle_onto (s : PlayerState) (hsh : s.isShuffling = true) (j : Nat)
    (hj : j < s.playlist.length) (hne : (j : Int) ≠ s.currentIndex) :
    ∃ r : ℚ, 0 ≤ r ∧ r < 1 ∧ nextIndexOf r s = some (j : Int) := by
  obtain ⟨avail, hav⟩ : ∃ avail, avail = ((List.range s.playlist.length).map Int.ofNat).filter
      (fun index => index ≠ s.currentIndex) := ⟨_, rfl⟩
  have hnext : ∀ r, nextIndexOf r s = jsIndex avail (randomIndex r avail.length) := by
    intro r
    simp only [nextIndexOf, nextIndexIn, PlayerState.render, hsh, if_true, hav]
  have hmem : (j : Int) ∈ avail := by
    rw [hav]; exact (mem_availableIndices s (j : Int)).mpr ⟨j, hj, rfl, hne⟩
  obtain ⟨k, hk, hget⟩ := List.getElem_of_mem hmem
  obtain ⟨hr0, hr1, hri⟩ := randomIndex_div k avail.length hk
  refine ⟨_, hr0, hr1, ?_⟩
  rw [hnext, hri, jsIndex_nat, List.getElem?_eq_getElem hk, hget]

/-- On a one-track queue with the cursor on it, `playNext` changes nothing, whatever the
shuffle setting, the repeat mode and the draw. -/
theorem playNext_single (r : ℚ) (ok : Bool) (s : PlayerState)
    (hlen : s.playlist.length = 1) (hc : s.currentIndex = 0) :
    playNext r ok s = s ∧
      (s.isShuffling = true → nextIndexOf r s = Option.none) := by
  by_cases hsh : s.isShuffling = true
  · have hnone : nextIndexOf r s = Option.none := by
      simp [nextIndexOf, nextIndexIn, PlayerState.render, hsh, hlen, hc, jsIndex, List.range,
        List.range.loop]
    exact ⟨playNext_of_none r ok s hnone, fun _ => hnone⟩
  · have hsh2 : s.isShuffling = false := by simpa using hsh
    refine ⟨?_, fun h => absurd h hsh⟩
    by_cases hall : s.repeatMode = RepeatMode.all
    · unfold playNext playNextIn
      simp [nextIndexIn, PlayerState.render, hsh2, hlen, hc, hall]
    · apply playNext_of_same
      simp [nextIndexOf, nextIndexIn, PlayerState.render, hsh2, hlen, hc, hall]

/-- Sequential `playNext` below the last position moves to the next entry and plays it. -/
theorem playNext_advance (r : ℚ) (ok : Bool) (s : PlayerState) (c : Nat) (hinv : HowlInv s)
    (hsh : s.isShuffling = false) (hc : s.currentIndex = (c : Int))
    (hlt : c + 1 < s.playlist.length) :
    ∃ t, s.playlist[c + 1]? = some t ∧ (playNext r ok s).currentIndex = (c : Int) + 1 ∧
      (playNext r ok s).playlist = s.playlist ∧ StartsPlaying s (playNext r ok s) t := by
  have hnext : nextIndexOf r s = some (((c + 1 : Nat) : Int)) := by
    rw [nextIndexOf_sequential r s hsh]
    have : ¬ (s.currentIndex + 1 ≥ (s.playlist.length : Int)) := by omega
    rw [if_neg this, hc]
    push_cast
    rfl
  have hp := playNext_of_next r ok s _ (by omega) hnext (by exact_mod_cast hlt)
    (by rw [hc]; push_cast; omega)
  have hspec := playAt_spec s ok (c + 1) _ hinv (List.getElem?_eq_getElem hlt)
  rw [← hp] at hspec
  exact ⟨_, List.getElem?_eq_getElem hlt, by simpa using hspec.1, hspec.2.1, hspec.2.2⟩

/-- Sequential `playNext` on the last position with repeat mode `all` moves to the first
entry and plays it, when the queue has at least two entries. -/
theorem playNext_wrap (r : ℚ) (ok : Bool) (s : PlayerState) (hinv : HowlInv s)
    (hsh : s.isShuffling = false) (hall : s.repeatMode = RepeatMode.all)
    (hc : s.currentIndex = (s.playlist.length : Int) - 1) (hlen : 2 ≤ s.playlist.length) :
    ∃ t, s.playlist[0]? = some t ∧ (playNext r ok s).currentIndex = 0 ∧
      (playNext r ok s).playlist = s.playlist ∧ StartsPlaying s (playNext r ok s) t := by
  have hnext : nextIndexOf r s = some (((0 : Nat) : Int)) := by
    rw [nextIndexOf_sequential r s hsh]
    have : s.currentIndex + 1 ≥ (s.playlist.length : Int) := by omega
    rw [if_pos this, if_pos hall]
    rfl
  have h0 : 0 < s.playlist.length := by omega
  have hp := playNext_of_next r ok s _ (by omega) hnext (by exact_mod_cast h0)
    (by rw [hc]; push_cast; omega)
  have hspec := playAt_spec s ok 0 _ hinv (List.getElem?_eq_getElem h0)
  rw [← hp] at hspec
  exact ⟨_, List.getElem?_eq_getElem h0, by simpa using hspec.1, hspec.2.1, hspec.2.2⟩

/-! ### The index chosen by `playPrevious` -/

theorem playPrevious_of_prev (r : ℚ) (ok : Bool) (s : PlayerState) (j : Nat)
    (hn : s.playlist.length ≠ 0) (ht : s.currentTime ≤ 3) (hprev : prevIndexOf r s = (j : Int))
    (hj : j < s.playlist.length) :
    playPrevious r ok s
      = playIn s.render (jsIndex s.playlist (j : Int)) [] 0 ok
          { s with currentIndex := (j : Int) } := by
  have ht2 : ¬ (s.currentTime > 3) := not_lt.mpr ht
  have hg : (j : Int) ≥ 0 ∧ (j : Int) < (s.playlist.length : Int) :=
    ⟨by omega, by exact_mod_cast hj⟩
  unfold playPrevious
  rw [if_neg hn, if_neg ht2]
  simp only [hprev, if_pos hg]

/-- Stepping back to a valid position `j` keeps the playlist, sets the cursor to `j` and
starts playback of the entry there. -/
theorem playPrevious_to (r : ℚ) (ok : Bool) (s : PlayerState) (j : Nat) (hinv : HowlInv s)
    (ht : s.currentTime ≤ 3) (hprev : prevIndexOf r s = (j : Int))
    (hj : j < s.playlist.length) :
    ∃ t, s.playlist[j]? = some t ∧ (playPrevious r ok s).currentIndex = (j : Int) ∧
      (playPrevious r ok s).playlist = s.playlist ∧ StartsPlaying s (playPrevious r ok s) t := by
  have hp := playPrevious_of_prev r ok s j (by omega) ht hprev hj
  have hspec := playAt_spec s ok j _ hinv (List.getElem?_eq_getElem hj)
  rw [← hp] at hspec
  exact ⟨_, List.getElem?_eq_getElem hj, hspec.1, hspec.2.1, hspec.2.2⟩

/-- The index of sequential `playPrevious`. -/
theorem prevIndexOf_sequential (r : ℚ) (s : PlayerState) (hsh : s.isShuffling = false) :
    prevIndexOf r s =
      if s.currentIndex - 1 < 0 then
        (if s.repeatMode = RepeatMode.all then (s.playlist.length : Int) - 1 else 0)
      else s.currentIndex - 1 := by
  simp [prevIndexOf, hsh]

/-- The search `findIndex` returns the first position holding the identifier. -/
theorem findIndexById_first (playlist : List Track) (id : Nat) (i : Nat) (p : Track)
    (hget : playlist[i]? = some p) (hp : p.id = id)
    (hfirst : ∀ j, j < i → ∀ q, playlist[j]? = some q → q.id ≠ id) :
    findIndexById playlist id = (i : Int) := by
  obtain ⟨hi, hpi⟩ := List.getElem?_eq_some.mp hget
  have hfind : playlist.findIdx? (fun t => t.id == id) = some i := by
    rw [List.findIdx?_eq_some_iff_getElem]
    refine ⟨hi, by simp [hpi, hp], ?_⟩
    intro j hji
    have hj : j < playlist.length := Nat.lt_trans hji hi
    have := hfirst j hji _ (List.getElem?_eq_getElem hj)
    simpa using this
  simp [findIndexById, hfind]

/-- The search `findIndex` returns `-1` when no entry holds the identifier. -/
theorem findIndexById_none (playlist : List Track) (id : Nat)
    (h : ∀ p ∈ playlist, p.id ≠ id) : findIndexById playlist id = -1 := by
  have hfind : playlist.findIdx? (fun t => t.id == id) = Option.none := by
    rw [List.findIdx?_eq_none_iff]
    intro x hx
    simpa using h x hx
  simp [findIndexById, hfind]

/-- Shuffled `playPrevious` with the second history entry still in the playlist. -/
theorem prevIndexOf_history (r : ℚ) (s : PlayerState) (hsh : s.isShuffling = true)
    (h1 : Track) (hh : s.history[1]? = some h1) (i : Nat) (p : Track)
    (hget : s.playlist[i]? = some p) (hp : p.id = h1.id)
    (hfirst : ∀ j, j < i → ∀ q, s.playlist[j]? = some q → q.id ≠ h1.id) :
    prevIndexOf r s = (i : Int) := by
  obtain ⟨hlen, _⟩ := List.getElem?_eq_some.mp hh
  have hf := findIndexById_first s.playlist h1.id i p hget hp hfirst
  have hne : ¬ ((i : Int) = -1) := by omega
  simp [prevIndexOf, hsh, hlen, hh, hf, hne]

/-- Shuffled `playPrevious` without a usable second history entry. -/
theorem prevIndexOf_random (r : ℚ) (s : PlayerState) (hsh : s.isShuffling = true)
    (hno : s.history[1]? = Option.none ∨
      ∃ h1, s.history[1]? = some h1 ∧ ∀ p ∈ s.playlist, p.id ≠ h1.id) :
    prevIndexOf r s = randomIndex r s.playlist.length := by
  rcases hno with hnone | ⟨h1, hh, hall⟩
  · have hlen : ¬ (s.history.length > 1) := by
      intro hl
      rw [List.getElem?_eq_getElem hl] at hnone
      cases hnone
    simp [prevIndexOf, hsh, hlen]
  · obtain ⟨hlen, _⟩ := List.getElem?_eq_some.mp hh
    have hf := findIndexById_none s.playlist h1.id hall
    simp [prevIndexOf, hsh, hlen, hh, hf]

/-! ### The mute flag and the output gain -/

/-- With an audio resource loaded whose output gain is the stored volume `v`, and not muted,
`toggleMute` sets the output gain to `0`, keeps `v` and sets the muted flag; a second
`toggleMute` restores the output gain to `v` and clears the muted flag, and the state after the
two calls is the state before them. -/
theorem toggleMute_round_trip (s : PlayerState) (hw : Howl) (hl : s.howl = some hw)
    (hm : s.isMuted = false) (hg : hw.volume = s.volume) :
    (toggleMute s).howl.map Howl.volume = some 0 ∧
      (toggleMute s).volume = s.volume ∧
      (toggleMute s).isMuted = true ∧
      (toggleMute (toggleMute s)).howl.map Howl.volume = some s.volume ∧
      (toggleMute (toggleMute s)).isMuted = false ∧
      toggleMute (toggleMute s) = s := by
  have e1 : toggleMute s = { s with isMuted := true, howl := some { hw with volume := 0 } } := by
    simp [toggleMute, hl, hm]
  have e2 : toggleMute (toggleMute s) = s := by
    rw [e1]
    cases s
    simp only [toggleMute] at *
    subst hl hm
    cases hw
    simp at hg ⊢
    exact hg.symm
  refine ⟨?_, ?_, ?_, ?_, ?_, e2⟩
  · rw [e1]; rfl
  · rw [e1]
  · rw [e1]
  · rw [e2, hl]; simp [hg]
  · rw [e2]; exact hm

/-! ### The track-end handler of a render -/

/-- The handler of a render with repeat mode `none` whose cursor is not below its last
position stops: it clears `isPlaying` and the elapsed time and nothing else. -/
theorem handleTrackEnd_none_last (rd : Render) (r : ℚ) (ok : Bool) (s : PlayerState)
    (hrep : rd.repeatMode = RepeatMode.none)
    (hc : ¬ (rd.currentIndex < (rd.playlist.length : Int) - 1)) :
    handleTrackEnd rd r ok s = { s with isPlaying := false, currentTime := 0 } := by
  unfold handleTrackEnd
  rw [hrep]
  simp only [if_neg hc]

/-- The handler of a render with an empty playlist and repeat mode `all` does nothing. -/
theorem handleTrackEnd_all_empty (rd : Render) (r : ℚ) (ok : Bool) (s : PlayerState)
    (hrep : rd.repeatMode = RepeatMode.all) (hpl : rd.playlist = []) :
    handleTrackEnd rd r ok s = s := by
  unfold handleTrackEnd playNextIn
  rw [hrep]
  simp [hpl]

/-- The handler of a render with repeat mode `all`, shuffle off and the cursor `0` on a
one-track playlist does nothing: `playNext` wraps to index `0`, which is the cursor. -/
theorem handleTrackEnd_all_single (rd : Render) (r : ℚ) (ok : Bool) (s : PlayerState)
    (hrep : rd.repeatMode = RepeatMode.all) (hsh : rd.isShuffling = false)
    (hlen : rd.playlist.length = 1) (hc : rd.currentIndex = 0) :
    handleTrackEnd rd r ok s = s := by
  unfold handleTrackEnd playNextIn
  rw [hrep]
  simp [nextIndexIn, hsh, hlen, hc, hrep]

/-! ### The cursor and the current track -/

/-- After `play(p)` from a render that holds the current track, the current track has the
identifier of `p`. -/
theorem playIn_currentTrack_id (rd : Render) (p : Track) (pl : List Track) (i : Int)
    (ok : Bool) (s : PlayerState) (hrd : rd.currentTrack = s.currentTrack) :
    (playIn rd (some p) pl i ok s).currentTrack.map Track.id = some p.id := by
  unfold playIn
  simp only
  split
  · simp [loadTrackIn]
  · rename_i hid
    rw [howlPlay_currentTrack, ← hrd]
    by_contra hne
    exact hid (fun h => hne h.symm)

theorem cursorTrack_of_eq (s s' : PlayerState) (h1 : s'.playlist = s.playlist)
    (h2 : s'.currentIndex = s.currentIndex) (h3 : s'.currentTrack = s.currentTrack)
    (hJ : -1 ≤ s.currentIndex ∧ CursorTrackInv s) :
    -1 ≤ s'.currentIndex ∧ CursorTrackInv s' := by
  refine ⟨by rw [h2]; exact hJ.1, ?_⟩
  intro hne t ht
  rw [h2] at hne
  rw [h3] at ht
  rw [h1, h2]
  exact hJ.2 hne t ht

/-- Moving the cursor to a valid position and calling `play` on the entry there, from the
current render, leaves the cursor on the current track. -/
theorem moveTo_cursorTrack (s : PlayerState) (j : Int) (ok : Bool) (h0 : 0 ≤ j)
    (hj : j < (s.playlist.length : Int)) :
    -1 ≤ (playIn s.render (jsIndex s.playlist j) [] 0 ok
        { s with currentIndex := j }).currentIndex ∧
      CursorTrackInv (playIn s.render (jsIndex s.playlist j) [] 0 ok
        { s with currentIndex := j }) := by
  obtain ⟨k, rfl⟩ := Int.eq_ofNat_of_zero_le h0
  have hk : k < s.playlist.length := by exact_mod_cast hj
  have hget : jsIndex s.playlist (k : Int) = some (s.playlist.get ⟨k, hk⟩) := by
    rw [jsIndex_nat, List.getElem?_eq_getElem hk]
    rfl
  have hq := playIn_nil_queue s.render (jsIndex s.playlist (k : Int)) 0 ok
    { s with currentIndex := (k : Int) }
  have hq1 : (playIn s.render (jsIndex s.playlist (k : Int)) [] 0 ok
      { s with currentIndex := (k : Int) }).playlist = s.playlist := hq.1
  have hq2 : (playIn s.render (jsIndex s.playlist (k : Int)) [] 0 ok
      { s with currentIndex := (k : Int) }).currentIndex = (k : Int) := hq.2
  refine ⟨by rw [hq2]; omega, ?_⟩
  intro _ t ht
  rw [hq1, hq2]
  refine ⟨_, hget, ?_⟩
  have hid := playIn_currentTrack_id s.render (s.playlist.get ⟨k, hk⟩) [] 0 ok
    { s with currentIndex := (k : Int) } rfl
  rw [← hget, ht] at hid
  simpa using hid.symm

theorem nextIndexIn_nonneg (r : ℚ) (rd : Render) (ni : Int) (hc : -1 ≤ rd.currentIndex)
    (h : nextIndexIn rd r = some ni) (hne : ni ≠ rd.currentIndex) : 0 ≤ ni := by
  unfold nextIndexIn at h
  split at h
  · have hm := mem_of_jsIndex _ _ _ h
    simp only [List.mem_filter, List.mem_map, List.mem_range] at hm
    obtain ⟨⟨j, _, hj⟩, _⟩ := hm
    subst hj
    exact Int.ofNat_nonneg j
  · simp only at h
    split at h
    · split at h
      · cases h; omega
      · cases h; exact absurd rfl hne
    · cases h; omega

theorem playNext_cursorTrack (r : ℚ) (ok : Bool) (s : PlayerState)
    (hJ : -1 ≤ s.currentIndex ∧ CursorTrackInv s) :
    -1 ≤ (playNext r ok s).currentIndex ∧ CursorTrackInv (playNext r ok s) := by
  unfold playNext playNextIn
  split
  · exact hJ
  · split
    · rename_i ni hni
      split
      · rename_i hg
        exact moveTo_cursorTrack s ni ok (nextIndexIn_nonneg r s.render ni hJ.1 hni hg.2) hg.1
      · exact hJ
    · exact hJ

theorem seek_fields (time : ℚ) (s : PlayerState) :
    (seek time s).playlist = s.playlist ∧ (seek time s).currentIndex = s.currentIndex ∧
      (seek time s).currentTrack = s.currentTrack := by
  unfold seek
  split <;> exact ⟨rfl, rfl, rfl⟩

theorem playPrevious_cursorTrack (r : ℚ) (ok : Bool) (s : PlayerState)
    (hJ : -1 ≤ s.currentIndex ∧ CursorTrackInv s) :
    -1 ≤ (playPrevious r ok s).currentIndex ∧ CursorTrackInv (playPrevious r ok s) := by
  unfold playPrevious
  split
  · exact hJ
  · split
    · have hf := seek_fields 0 s
      exact cursorTrack_of_eq s _ hf.1 hf.2.1 hf.2.2 hJ
    · simp only
      split
      · rename_i hg
        exact moveTo_cursorTrack s _ ok hg.1 hg.2
      · exact hJ

theorem jsIndex_some_lt {α : Type} (xs : List α) (i : Int) (a : α)
    (h : jsIndex xs i = some a) : 0 ≤ i ∧ i < (xs.length : Int) := by
  unfold jsIndex at h
  split at h
  · cases h
  · rename_i hneg
    obtain ⟨hlt, _⟩ := List.getElem?_eq_some.mp h
    omega

theorem removeFromQueue_cursorTrack (index : Int) (s : PlayerState)
    (hJ : -1 ≤ s.currentIndex ∧ CursorTrackInv s) (h0 : 0 ≤ index)
    (hk : ¬ (index = s.currentIndex ∧ s.playlist.length = 1)) :
    -1 ≤ (removeFromQueue index s).currentIndex ∧ CursorTrackInv (removeFromQueue index s) := by
  obtain ⟨k, rfl⟩ := Int.eq_ofNat_of_zero_le h0
  rcases lt_trichotomy (k : Int) s.currentIndex with hlt | heq | hgt
  · rw [removeFromQueue_of_lt (k : Int) s hlt]
    refine ⟨by simp only; omega, ?_⟩
    intro _ t ht
    obtain ⟨p, hp, hid⟩ := hJ.2 (by omega) t ht
    obtain ⟨hc0, hclt⟩ := jsIndex_some_lt _ _ _ hp
    obtain ⟨c, hc⟩ := Int.eq_ofNat_of_zero_le hc0
    refine ⟨p, ?_, hid⟩
    simp only [filterIndexNe_nat]
    rw [hc] at hp hlt
    rw [jsIndex_nat] at hp
    have hkc : k < c := by exact_mod_cast hlt
    have e : s.currentIndex - 1 = ((c - 1 : Nat) : Int) := by omega
    rw [e, jsIndex_nat, List.getElem?_eraseIdx, if_neg (by omega)]
    have : c - 1 + 1 = c := by omega
    rw [this]
    exact hp
  · by_cases hpos : (filterIndexNe s.playlist (k : Int) 0).length > 0
    · rw [removeFromQueue_of_eq (k : Int) s heq hpos]
      refine ⟨by simp, ?_⟩
      intro hne
      exact absurd rfl hne
    · have hnlt : ¬ ((k : Int) < s.currentIndex) := by omega
      have hng : ¬ ((k : Int) = s.currentIndex ∧
          (filterIndexNe s.playlist (k : Int) 0).length > 0) := fun h => hpos h.2
      have e : removeFromQueue (k : Int) s
          = { s with playlist := filterIndexNe s.playlist (k : Int) 0 } := by
        unfold removeFromQueue
        simp only [if_neg hnlt, if_neg hng]
      rw [e]
      refine ⟨hJ.1, ?_⟩
      intro hne t ht
      exfalso
      obtain ⟨p, hp, _⟩ := hJ.2 hne t ht
      obtain ⟨_, hclt⟩ := jsIndex_some_lt _ _ _ hp
      have hklt : k < s.playlist.length := by omega
      have hlen : (filterIndexNe s.playlist (k : Int) 0).length = s.playlist.length - 1 := by
        rw [filterIndexNe_nat, List.length_eraseIdx, if_pos hklt]
      apply hk
      refine ⟨heq, ?_⟩
      omega
  · rw [removeFromQueue_of_gt (k : Int) s hgt]
    refine ⟨hJ.1, ?_⟩
    intro hne t ht
    obtain ⟨p, hp, hid⟩ := hJ.2 hne t ht
    obtain ⟨hc0, _⟩ := jsIndex_some_lt _ _ _ hp
    obtain ⟨c, hc⟩ := Int.eq_ofNat_of_zero_le hc0
    refine ⟨p, ?_, hid⟩
    simp only [filterIndexNe_nat]
    rw [hc] at hp hgt ⊢
    rw [jsIndex_nat] at hp ⊢
    have hck : c < k := by exact_mod_cast hgt
    rw [List.getElem?_eraseIdx, if_pos hck]
    exact hp

theorem stop_fields (s : PlayerState) :
    (stop s).playlist = s.playlist ∧ (stop s).currentIndex = s.currentIndex ∧
      (stop s).currentTrack = s.currentTrack := by
  unfold stop howlStop
  split <;> exact ⟨rfl, rfl, rfl⟩

theorem play_cursorTrack (track : Option Track) (pl : List Track) (i : Int) (ok : Bool)
    (s : PlayerState) (hJ : -1 ≤ s.currentIndex ∧ CursorTrackInv s)
    (hk : (Op.play track pl i ok).keepsCursor s) :
    -1 ≤ (play track pl i ok s).currentIndex ∧ CursorTrackInv (play track pl i ok s) := by
  cases track with
  | none =>
    exact cursorTrack_of_eq s _ (howlPlay_playlist s) (howlPlay_currentIndex s)
      (howlPlay_currentTrack s) hJ
  | some t =>
    by_cases hid : some t.id ≠ s.currentTrack.map Track.id
    · have hid2 : some t.id ≠ s.render.currentTrack.map Track.id := hid
      have e : play (some t) pl i ok s = howlPlay (loadTrack t pl i ok s) := by
        simp only [play, playIn, loadTrack, hid2, ne_eq, not_false_eq_true, if_true]
      rw [e]
      unfold loadTrack
      simp only [Op.keepsCursor] at hk
      rcases hk with hsame | ⟨hne, p, hp, hpid⟩ | ⟨hnil, hcur⟩
      · exact absurd hsame hid
      · have hlen : pl.length > 0 := List.length_pos.mpr hne
        obtain ⟨hi0, _⟩ := jsIndex_some_lt _ _ _ hp
        refine ⟨by simp [loadTrackIn, hlen]; omega, ?_⟩
        intro _ u hu
        simp only [howlPlay_currentTrack, loadTrackIn, Option.some.injEq] at hu
        subst hu
        refine ⟨p, ?_, hpid⟩
        simpa [loadTrackIn, hlen] using hp
      · subst hnil
        refine ⟨by simpa [loadTrackIn] using hJ.1, ?_⟩
        intro hne u hu
        simp only [howlPlay_currentTrack, loadTrackIn, Option.some.injEq] at hu
        subst hu
        have hne2 : s.currentIndex ≠ -1 := by simpa [loadTrackIn] using hne
        rcases hcur with hm | ⟨p, hp, hpid⟩
        · exact absurd hm hne2
        · exact ⟨p, by simpa [loadTrackIn] using hp, hpid⟩
    · have hid2 : ¬ (some t.id ≠ s.render.currentTrack.map Track.id) := hid
      have e : play (some t) pl i ok s = howlPlay s := by
        simp only [play, playIn, hid2, if_false]
      rw [e]
      exact cursorTrack_of_eq s _ (howlPlay_playlist s) (howlPlay_currentIndex s)
        (howlPlay_currentTrack s) hJ

/-- Every operation that keeps the cursor on the current track preserves the invariant. -/
theorem step_cursorTrack (s : PlayerState) (op : Op)
    (hJ : -1 ≤ s.currentIndex ∧ CursorTrackInv s) (hk : op.keepsCursor s) :
    -1 ≤ (step s op).currentIndex ∧ CursorTrackInv (step s op) := by
  cases op with
  | play track pl i apiOk => exact play_cursorTrack track pl i apiOk s hJ hk
  | pause =>
    apply cursorTrack_of_eq s _ _ _ _ hJ <;> · simp only [step, pause]; split <;> rfl
  | stop =>
    have hf := stop_fields s
    exact cursorTrack_of_eq s _ hf.1 hf.2.1 hf.2.2 hJ
  | seek time =>
    have hf := seek_fields time s
    exact cursorTrack_of_eq s _ hf.1 hf.2.1 hf.2.2 hJ
  | setPlayerVolume v => exact hJ
  | toggleMute => exact hJ
  | playNext r apiOk => exact playNext_cursorTrack r apiOk s hJ
  | playPrevious r apiOk => exact playPrevious_cursorTrack r apiOk s hJ
  | toggleShuffle => exact hJ
  | cycleRepeat => exact hJ
  | addToQueue t =>
    refine ⟨hJ.1, ?_⟩
    intro hne u hu
    obtain ⟨p, hp, hpid⟩ := hJ.2 hne u hu
    refine ⟨p, ?_, hpid⟩
    obtain ⟨hc0, hclt⟩ := jsIndex_some_lt _ _ _ hp
    obtain ⟨c, hc⟩ := Int.eq_ofNat_of_zero_le hc0
    have hclt2 : c < s.playlist.length := by omega
    simp only [step, addToQueue]
    rw [hc] at hp ⊢
    rw [jsIndex_nat] at hp ⊢
    rw [List.getElem?_append_left hclt2]
    exact hp
  | removeFromQueue index => exact removeFromQueue_cursorTrack index s hJ hk.1 hk.2
  | clearQueue =>
    refine ⟨by simp [step, clearQueue], ?_⟩
    intro hne
    exact absurd rfl hne
  | trackEnd r apiOk => exact absurd hk id
  | onload d => exact hJ
  | onloaderror => exact hJ
  | onplayerror => exact hJ
  | progress pos => simp only [step]; split <;> exact hJ

theorem run_cursorTrack (ops : List Op) (s : PlayerState)
    (hJ : -1 ≤ s.currentIndex ∧ CursorTrackInv s) (hk : runKeepsCursor s ops) :
    -1 ≤ (run s ops).currentIndex ∧ CursorTrackInv (run s ops) := by
  induction ops generalizing s with
  | nil => exact hJ
  | cons op ops ih => exact ih (step s op) (step_cursorTrack s op hJ hk.1) hk.2

end PlayerLemmas

/-! ## The playback queue controller: cursor, removal, history -/

section PlayerClaims

/-- C1, as stated, fails: the cursor invariant of the specification (`-1` exactly on the empty
playlist, a valid index otherwise) is broken from the initial state by `addToQueue(t)`, which
leaves the cursor at `-1` on a one-track playlist; by `play(t, [t], 0)` followed by
`removeFromQueue(0)`, which leaves the cursor at `0` on the empty playlist; by
`play(t, [t], 5)`, which sets the cursor to `5` on a one-track playlist; by
`removeFromQueue(-2)`, which sets the cursor to `-2`; and by `play(t1, [t1, t2], 0)`,
`playNext()`, `removeFromQueue(0)` followed by the end of the track, which leaves the cursor
at `1` on the one-track playlist `[t2]`. -/
theorem C1_cursor_invariant_counterexample :
    ((run initialState [Op.addToQueue (sampleTrack 1)]).currentIndex = -1 ∧
        (run initialState [Op.addToQueue (sampleTrack 1)]).playlist = [sampleTrack 1] ∧
        ¬ CursorInv (run initialState [Op.addToQueue (sampleTrack 1)])) ∧
      ((run initialState
          [Op.play (some (sampleTrack 1)) [sampleTrack 1] 0 true,
            Op.removeFromQueue 0]).currentIndex = 0 ∧
        (run initialState
          [Op.play (some (sampleTrack 1)) [sampleTrack 1] 0 true,
            Op.removeFromQueue 0]).playlist = [] ∧
        ¬ CursorInv (run initialState
          [Op.play (some (sampleTrack 1)) [sampleTrack 1] 0 true, Op.removeFromQueue 0])) ∧
      ((run initialState
          [Op.play (some (sampleTrack 1)) [sampleTrack 1] 5 true]).currentIndex = 5 ∧
        (run initialState
          [Op.play (some (sampleTrack 1)) [sampleTrack 1] 5 true]).playlist = [sampleTrack 1] ∧
        ¬ CursorInv (run initialState
          [Op.play (some (sampleTrack 1)) [sampleTrack 1] 5 true])) ∧
      ((run initialState [Op.removeFromQueue (-2)]).currentIndex = -2 ∧
        (run initialState [Op.removeFromQueue (-2)]).playlist = [] ∧
        ¬ CursorInv (run initialState [Op.removeFromQueue (-2)])) ∧
      ((run initialState removalThenEndRun).currentIndex = 1 ∧
        (run initialState removalThenEndRun).playlist = [sampleTrack 2] ∧
        ¬ CursorInv (run initialState removalThenEndRun)) := by
  have e1 : (run initialState [Op.addToQueue (sampleTrack 1)]).currentIndex = -1 := rfl
  have p1 : (run initialState [Op.addToQueue (sampleTrack 1)]).playlist = [sampleTrack 1] := rfl
  have e2 : (run initialState [Op.play (some (sampleTrack 1)) [sampleTrack 1] 0 true,
      Op.removeFromQueue 0]).currentIndex = 0 := rfl
  have p2 : (run initialState [Op.play (some (sampleTrack 1)) [sampleTrack 1] 0 true,
      Op.removeFromQueue 0]).playlist = [] := rfl
  have e3 : (run initialState
      [Op.play (some (sampleTrack 1)) [sampleTrack 1] 5 true]).currentIndex = 5 := rfl
  have p3 : (run initialState
      [Op.play (some (sampleTrack 1)) [sampleTrack 1] 5 true]).playlist = [sampleTrack 1] := rfl
  have e4 : (run initialState [Op.removeFromQueue (-2)]).currentIndex = -2 := rfl
  have p4 : (run initialState [Op.removeFromQueue (-2)]).playlist = [] := rfl
  have e5 : (run initialState removalThenEndRun).currentIndex = 1 := rfl
  have p5 : (run initialState removalThenEndRun).playlist = [sampleTrack 2] := rfl
  refine ⟨⟨e1, p1, ?_⟩, ⟨e2, p2, ?_⟩, ⟨e3, p3, ?_⟩, ⟨e4, p4, ?_⟩, ⟨e5, p5, ?_⟩⟩
  · unfold CursorInv; rw [e1, p1]; simp
  · unfold CursorInv; rw [e2, p2]; simp
  · unfold CursorInv; rw [e3, p3]; simp
  · unfold CursorInv; rw [e4, p4]; simp
  · unfold CursorInv; rw [e5, p5]; simp

/-- C1, amended: from the initial state, after every sequence of controller operations other
than the track-end event, in which a start index given with a playlist is an index of it and
a removed position is not negative and is not the current entry of a one-entry queue, the
cursor is `-1` or a valid index of the playlist: `-1 ≤ currentIndex < playlist.length`. -/
theorem C1_cursor_bound (ops : List Op) (h : runInRange initialState ops) :
    -1 ≤ (run initialState ops).currentIndex ∧
      (run initialState ops).currentIndex < ((run initialState ops).playlist.length : Int) :=
  run_cursorBound ops initialState ⟨by simp [initialState], by simp [initialState]⟩ h

/-- C1, amended, at the run `play(t2, [t1, t2], 1)`, `removeFromQueue(0)`, `playNext()`,
`addToQueue(t3)`. -/
theorem C1_cursor_bound_witness :
    runInRange initialState sampleRun ∧
      (-1 ≤ (run initialState sampleRun).currentIndex ∧
        (run initialState sampleRun).currentIndex <
          ((run initialState sampleRun).playlist.length : Int)) :=
  ⟨⟨Or.inr ⟨by decide, by decide⟩, ⟨by decide, by decide⟩, trivial, trivial, trivial⟩,
    C1_cursor_bound sampleRun
      ⟨Or.inr ⟨by decide, by decide⟩, ⟨by decide, by decide⟩, trivial, trivial, trivial⟩⟩

/-- C2, the code at the one-track queue whose track is current (cursor `0`, after
`play(t1, [t1], 0)`): `removeFromQueue(0)` empties the playlist but keeps the current track,
the audio resource and the `isPlaying` flag, and leaves the cursor at `0`, where the claim has
the current track cleared and the cursor at `-1`. -/
theorem C2_only_track_not_cleared :
    singleTrackState.playlist = [sampleTrack 1] ∧ singleTrackState.currentIndex = 0 ∧
      singleTrackState.currentTrack = some (sampleTrack 1) ∧
      (removeFromQueue 0 singleTrackState).playlist = [] ∧
      (removeFromQueue 0 singleTrackState).currentTrack = some (sampleTrack 1) ∧
      (removeFromQueue 0 singleTrackState).currentTrack ≠ Option.none ∧
      (removeFromQueue 0 singleTrackState).currentIndex = 0 ∧
      (removeFromQueue 0 singleTrackState).currentIndex ≠ -1 ∧
      (removeFromQueue 0 singleTrackState).isPlaying = true ∧
      (removeFromQueue 0 singleTrackState).howl = singleTrackState.howl := by
  have e1 : (removeFromQueue 0 singleTrackState).currentTrack = some (sampleTrack 1) := rfl
  have e2 : (removeFromQueue 0 singleTrackState).currentIndex = 0 := rfl
  refine ⟨rfl, rfl, rfl, rfl, e1, ?_, e2, ?_, rfl, rfl⟩
  · rw [e1]; simp
  · rw [e2]; decide

/-- C3: for every state with a valid cursor `c` and every index `i` different from `c` (in
particular every valid one), `removeFromQueue(i)` yields the playlist with element `i` deleted, leaves the current
track unchanged, and moves the cursor to `c - 1` when `i < c` and keeps it at `c` when
`i > c`, so that the entry at the new cursor is the entry that was at `c`. -/
theorem C3_removeFromQueue_other (s : PlayerState) (c i : Nat)
    (hc : s.currentIndex = (c : Int)) (hcv : c < s.playlist.length) (hne : i ≠ c) :
    (removeFromQueue (i : Int) s).playlist = s.playlist.eraseIdx i ∧
      (removeFromQueue (i : Int) s).currentTrack = s.currentTrack ∧
      (removeFromQueue (i : Int) s).currentIndex = (if i < c then (c : Int) - 1 else (c : Int)) ∧
      jsIndex (removeFromQueue (i : Int) s).playlist (removeFromQueue (i : Int) s).currentIndex
        = some (s.playlist.get ⟨c, hcv⟩) := by
  have hget : s.playlist[c]? = some (s.playlist.get ⟨c, hcv⟩) := by
    simp [List.getElem?_eq_getElem hcv]
  by_cases hic : i < c
  · rw [removeFromQueue_of_lt (i : Int) s (by omega)]
    have hnn : ¬ ((c : Int) - 1 < 0) := by omega
    have htn : ((c : Int) - 1).toNat = c - 1 := by omega
    have hlt : ¬ (c - 1 < i) := by omega
    have hc1 : c - 1 + 1 = c := by omega
    refine ⟨filterIndexNe_nat _ _, rfl, ?_, ?_⟩
    · simp only [if_pos hic, hc]
    · simp only [hc, filterIndexNe_nat, jsIndex, if_neg hnn, htn, List.getElem?_eraseIdx,
        if_neg hlt, hc1, hget]
  · rw [removeFromQueue_of_gt (i : Int) s (by omega)]
    have hnn : ¬ ((c : Int) < 0) := by omega
    have hlt : c < i := by omega
    refine ⟨filterIndexNe_nat _ _, rfl, ?_, ?_⟩
    · simp only [if_neg hic, hc]
    · simp only [hc, filterIndexNe_nat, jsIndex, if_neg hnn, Int.toNat_ofNat,
        List.getElem?_eraseIdx, if_pos hlt, hget]

/-- C3 on the queue `[t1, t2]` with cursor `1`, removing position `0`: the cursor becomes `0`
and the playlist is `[t2]`. -/
theorem C3_removeFromQueue_other_witness :
    (play (some (sampleTrack 2)) [sampleTrack 1, sampleTrack 2] 1 true
        initialState).currentIndex = ((1 : Nat) : Int) ∧
      (removeFromQueue ((0 : Nat) : Int)
        (play (some (sampleTrack 2)) [sampleTrack 1, sampleTrack 2] 1 true
          initialState)).currentIndex = (if 0 < 1 then ((1 : Nat) : Int) - 1 else ((1 : Nat) : Int)) :=
  ⟨rfl, (C3_removeFromQueue_other
    (play (some (sampleTrack 2)) [sampleTrack 1, sampleTrack 2] 1 true initialState) 1 0
    rfl (by decide) (by decide)).2.2.1⟩

/-- C4: every load of a track `t` turns the history `h` into `t` followed by the first 49
entries of `h`; the history of every reachable state has at most 50 entries; and after
playing tracks with pairwise distinct identifiers one after the other from the initial state,
the history is the last `min n 50` of them in reverse order, so that for 51 tracks it has
exactly 50 entries, starts with the last track and no longer holds the first. -/
theorem C4_history_cap :
    (∀ (s : PlayerState) (t : Track) (pl : List Track) (i : Int) (ok : Bool),
        (loadTrack t pl i ok s).history = t :: s.history.take 49) ∧
      (∀ ops : List Op, (run initialState ops).history.length ≤ 50) ∧
      (∀ (pl : Track → List Track) (idx : Track → Int) (ok : Track → Bool) (ts : List Track),
        ts.Pairwise (fun a b => a.id ≠ b.id) →
        (run initialState (ts.map fun t => Op.play (some t) (pl t) (idx t) (ok t))).history
            = ts.reverse.take 50 ∧
          (run initialState
            (ts.map fun t => Op.play (some t) (pl t) (idx t) (ok t))).history.length
            = min ts.length 50 ∧
          (ts.length = 51 →
            (run initialState
              (ts.map fun t => Op.play (some t) (pl t) (idx t) (ok t))).history.head?
              = ts.getLast? ∧
            ∀ t1, ts.head? = some t1 → t1 ∉ (run initialState
              (ts.map fun t => Op.play (some t) (pl t) (idx t) (ok t))).history)) := by
  refine ⟨fun s t pl i ok => rfl, fun ops => run_history_le ops initialState (by simp [initialState]),
    ?_⟩
  intro pl idx ok ts hd
  have hh := run_play_history pl idx ok ts initialState (by simp [initialState])
    (by intro t _; simp [initialState]) hd
  have hh2 : (run initialState (ts.map fun t => Op.play (some t) (pl t) (idx t) (ok t))).history
      = ts.reverse.take 50 := by
    rw [hh]; simp [initialState]
  refine ⟨hh2, by rw [hh2]; simp [Nat.min_comm], ?_⟩
  intro h51
  rw [hh2]
  constructor
  · cases hr : ts.reverse with
    | nil => simp at hr; simp [hr]
    | cons x xs => 
      have : ts = (x :: xs).reverse := by rw [← hr, List.reverse_reverse]
      subst this
      simp
  · intro t1 ht1
    cases ts with
    | nil => simp at ht1
    | cons x rest =>
      simp only [List.head?_cons, Option.some.injEq] at ht1
      subst ht1
      have hl : rest.length = 50 := by simpa using h51
      have e : (x :: rest).reverse.take 50 = rest.reverse := by
        rw [List.reverse_cons, List.take_append_eq_append_take]
        simp [hl]
      rw [e, List.mem_reverse]
      intro hmem
      exact (List.pairwise_cons.mp hd).1 x hmem rfl

/-- C4 at the 51 sample tracks with identifiers `0` to `50`: the history is the reverse of the
last 50. -/
theorem C4_history_cap_witness :
    sampleTracks51.Pairwise (fun a b => a.id ≠ b.id) ∧
      (run initialState (sampleTracks51.map fun t => Op.play (some t) [] 0 true)).history
        = sampleTracks51.reverse.take 50 :=
  ⟨by decide,
    (C4_history_cap.2.2 (fun _ => []) (fun _ => 0) (fun _ => true) sampleTracks51
      (by decide)).1⟩

end PlayerClaims

/-! ## Lemmas on the mood radio generator -/

section RadioLemmas

theorem scoreGe_trans (a b c : CatalogTrack) (h1 : scoreGe a b = true)
    (h2 : scoreGe b c = true) : scoreGe a c = true := by
  simp only [scoreGe, decide_eq_true_eq] at *
  exact le_trans h2 h1

theorem scoreGe_total (a b : CatalogTrack) : (scoreGe a b || scoreGe b a) = true := by
  simp only [scoreGe, Bool.or_eq_true, decide_eq_true_eq]
  exact le_total _ _

/-- The ranked branch returns a list that is non-increasing in score. -/
theorem mergeSort_scoreGe_sorted (l : List CatalogTrack) :
    (l.mergeSort scoreGe).Pairwise fun a b => score b ≤ score a := by
  have h := List.sorted_mergeSort scoreGe_trans scoreGe_total l
  exact h.imp (fun hab => by simpa [scoreGe] using hab)

theorem foldl_add_eq_sum {α : Type} (f : α → ℚ) (l : List α) (a : ℚ) :
    l.foldl (fun sum t => sum + f t) a = a + (l.map f).sum := by
  induction l generalizing a with
  | nil => simp
  | cons x xs ih => simp [ih, add_assoc]

theorem totalDuration_eq_sum (tracks : List CatalogTrack) :
    totalDuration tracks = (tracks.map fun t => t.duration.getD 0).sum := by
  unfold totalDuration
  rw [foldl_add_eq_sum, zero_add]
  congr 1
  apply List.map_congr_left
  intro t _
  cases hd : t.duration with
  | none => simp [jsOr]
  | some v =>
    by_cases hv : v = 0
    · simp [jsOr, hv]
    · simp [jsOr, hv]

/-- The response for a known mood. -/
theorem radio_of_lookup (toUpperCase : String → String)
    (find : List String → List CatalogTrack)
    (shuffleSort : List CatalogTrack → List CatalogTrack) (now : Nat) (mood : String)
    (q : RadioQuery) (cfg : MoodConfig) (hm : lookupMood (toUpperCase mood) = some cfg) :
    radio toUpperCase find shuffleSort now mood q =
      (RadioResponse.success
        { id := mood ++ "_radio_" ++ toString now
          name := cfg.name ++ " Радио"
          description := "Плейлист в настроении \"" ++ cfg.name ++ "\" - музыка для тёмных улиц"
          mood := { id := mood, name := cfg.name, icon := cfg.icon, tags := cfg.tags }
          tracks := radioTracks shuffleSort (find cfg.tags) q
          stats :=
            { totalTracks := (radioTracks shuffleSort (find cfg.tags) q).length
              totalDuration := totalDuration (radioTracks shuffleSort (find cfg.tags) q)
              averageIntensity :=
                roundToTenth (averageIntensity (radioTracks shuffleSort (find cfg.tags) q)) }
          generatedAt := now },
        [cfg.tags]) := by
  simp only [radio, hm]

/-- The response for an unknown mood. -/
theorem radio_of_lookup_none (toUpperCase : String → String)
    (find : List String → List CatalogTrack)
    (shuffleSort : List CatalogTrack → List CatalogTrack) (now : Nat) (mood : String)
    (q : RadioQuery) (hm : lookupMood (toUpperCase mood) = Option.none) :
    radio toUpperCase find shuffleSort now mood q =
      (RadioResponse.badRequest 400 "UNKNOWN_MOOD", []) := by
  simp only [radio, hm]

/-- The ranked branch is taken when the `shuffle` parameter is not the string `true`. -/
theorem radioTracks_ranked (shuffleSort : List CatalogTrack → List CatalogTrack)
    (tracks : List CatalogTrack) (q : RadioQuery) (h : q.shuffleIsTrue = false) :
    radioTracks shuffleSort tracks q = (tracks.mergeSort scoreGe).take q.limitValue := by
  simp [radioTracks, h]

/-- With a shuffle that permutes, the returned list is a rearrangement of a sub-list of the
candidates, under either branch. -/
theorem radioTracks_subperm (shuffleSort : List CatalogTrack → List CatalogTrack)
    (hperm : ∀ l, (shuffleSort l).Perm l) (tracks : List CatalogTrack) (q : RadioQuery) :
    (radioTracks shuffleSort tracks q).Subperm tracks := by
  unfold radioTracks
  simp only
  split
  · exact (List.take_sublist _ _).subperm.trans (hperm tracks).subperm
  · exact (List.take_sublist _ _).subperm.trans (List.mergeSort_perm tracks scoreGe).subperm

theorem radioTracks_length (shuffleSort : List CatalogTrack → List CatalogTrack)
    (hperm : ∀ l, (shuffleSort l).Perm l) (tracks : List CatalogTrack) (q : RadioQuery) :
    (radioTracks shuffleSort tracks q).length = min tracks.length q.limitValue := by
  unfold radioTracks
  simp only
  split
  · rw [List.length_take, (hperm tracks).length_eq, Nat.min_comm]
  · rw [List.length_take, List.length_mergeSort, Nat.min_comm]

theorem take_mergeSort_isTop (candidates : List CatalogTrack) (L : Nat) :
    IsTopByScore ((candidates.mergeSort scoreGe).take L) candidates L := by
  have hs := mergeSort_scoreGe_sorted candidates
  refine ⟨by rw [List.length_take, List.length_mergeSort, Nat.min_comm],
    hs.sublist (List.take_sublist _ _), (candidates.mergeSort scoreGe).drop L, ?_, ?_⟩
  · rw [List.take_append_drop]
    exact List.mergeSort_perm candidates scoreGe
  · rw [← List.take_append_drop L (candidates.mergeSort scoreGe), List.pairwise_append] at hs
    exact hs.2.2

theorem lookupMood_eq_none_iff (k : String) :
    lookupMood k = Option.none ↔
      k ∉ ["AGGRESSION", "MELANCHOLY", "LOVE", "MYSTERY", "ENERGY"] := by
  unfold lookupMood
  rw [List.lookup_eq_none_iff]
  simp [MOOD_CATEGORIES]

theorem lookupMood_of_mem (key : String) (cfg : MoodConfig)
    (h : (key, cfg) ∈ MOOD_CATEGORIES) : lookupMood key = some cfg := by
  simp only [MOOD_CATEGORIES, List.mem_cons, Prod.mk.injEq, List.mem_singleton,
    List.not_mem_nil, or_false] at h
  rcases h with ⟨rfl, rfl⟩ | ⟨rfl, rfl⟩ | ⟨rfl, rfl⟩ | ⟨rfl, rfl⟩ | ⟨rfl, rfl⟩ <;> rfl

theorem sum_intensity_bounds (l : List CatalogTrack)
    (h : ∀ t ∈ l, ∃ k : Nat, 1 ≤ k ∧ k ≤ 10 ∧ t.intensity = some (k : ℚ)) :
    (l.length : ℚ) ≤ (l.map fun t => t.intensity.getD 0).sum ∧
      (l.map fun t => t.intensity.getD 0).sum ≤ 10 * (l.length : ℚ) := by
  induction l with
  | nil => simp
  | cons x xs ih =>
    obtain ⟨k, hk1, hk2, hk⟩ := h x (List.mem_cons_self _ _)
    have ih2 := ih (fun t ht => h t (List.mem_cons_of_mem _ ht))
    have h1 : (1 : ℚ) ≤ (k : ℚ) := by exact_mod_cast hk1
    have h2 : (k : ℚ) ≤ 10 := by exact_mod_cast hk2
    simp only [List.map_cons, List.sum_cons, List.length_cons, hk, Option.getD_some]
    push_cast
    constructor <;> linarith [ih2.1, ih2.2]

theorem averageIntensity_of_valid (l : List CatalogTrack) (hne : l ≠ [])
    (h : ∀ t ∈ l, ∃ k : Nat, 1 ≤ k ∧ k ≤ 10 ∧ t.intensity = some (k : ℚ)) :
    averageIntensity l =
      JsNum.num ((l.map fun t => t.intensity.getD 0).sum / (l.length : ℚ)) := by
  have hlen : l.length ≠ 0 := fun h0 => hne (List.length_eq_zero.mp h0)
  unfold averageIntensity
  rw [if_neg hlen, foldl_add_eq_sum, zero_add]
  congr 3
  apply List.map_congr_left
  intro t ht
  obtain ⟨k, hk1, _, hk⟩ := h t ht
  have hk0 : (k : ℚ) ≠ 0 := by
    have : (1 : ℚ) ≤ (k : ℚ) := by exact_mod_cast hk1
    linarith
  simp [jsOr, hk, hk0]

/-- Rounding ten times a mean of values between 1 and 10 to an integer and dividing by ten
gives a value between 1 and 10. -/
theorem round_mean_bounds (S n : ℚ) (hn : 0 < n) (h1 : n ≤ S) (h2 : S ≤ 10 * n) :
    (1 : ℚ) ≤ ((mathRound (S / n * 10) : Int) : ℚ) / 10 ∧
      ((mathRound (S / n * 10) : Int) : ℚ) / 10 ≤ 10 := by
  have hx1 : (10 : ℚ) ≤ S / n * 10 := by
    have : (1 : ℚ) ≤ S / n := by rw [le_div_iff₀ hn]; linarith
    linarith
  have hx2 : S / n * 10 ≤ 100 := by
    have : S / n ≤ 10 := by rw [div_le_iff₀ hn]; linarith
    linarith
  have hf1 : (10 : Int) ≤ mathRound (S / n * 10) := by
    unfold mathRound
    apply Int.le_floor.mpr
    push_cast
    linarith
  have hf2 : mathRound (S / n * 10) < 101 := by
    unfold mathRound
    apply Int.floor_lt.mpr
    push_cast
    linarith
  have hf3 : mathRound (S / n * 10) ≤ 100 := by omega
  have c1 : (10 : ℚ) ≤ ((mathRound (S / n * 10) : Int) : ℚ) := by exact_mod_cast hf1
  have c2 : ((mathRound (S / n * 10) : Int) : ℚ) ≤ 100 := by exact_mod_cast hf3
  constructor
  · rw [le_div_iff₀ (by norm_num)]; linarith
  · rw [div_le_iff₀ (by norm_num)]; linarith

end RadioLemmas

/-! ## The mood radio generator: ranking, resolution, statistics -/

section RadioClaims

/-- C5: with `shuffle=false`, for every candidate list returned by the catalog query of a
known mood and every limit `L`, the returned tracks are the first `L` (all, when there are
fewer) of the candidates sorted by score `0.7 * plays + 0.3 * likes`: the output has
`min n L` tracks, is non-increasing in score, and no omitted candidate has a higher score
than a returned one. -/
theorem C5_ranked_top (toUpperCase : String → String) (find : List String → List CatalogTrack)
    (shuffleSort : List CatalogTrack → List CatalogTrack) (now : Nat) (mood : String)
    (L : Nat) (cfg : MoodConfig) (hm : lookupMood (toUpperCase mood) = some cfg) :
    ∃ pl, (radio toUpperCase find shuffleSort now mood
        { limit := some L, shuffle := some "false" }).1 = RadioResponse.success pl ∧
      pl.tracks = ((find cfg.tags).mergeSort scoreGe).take L ∧
      IsTopByScore pl.tracks (find cfg.tags) L := by
  rw [radio_of_lookup toUpperCase find shuffleSort now mood _ cfg hm]
  refine ⟨_, rfl, ?_, ?_⟩
  · exact radioTracks_ranked shuffleSort _ _ rfl
  · simp only [radioTracks_ranked shuffleSort (find cfg.tags)
      { limit := some L, shuffle := some "false" } rfl]
    exact take_mergeSort_isTop (find cfg.tags) L

/-- C5 at the request `energy`, `limit=3`, `shuffle=false` with ten candidates: the three
returned tracks are the top three by score. -/
theorem C5_ranked_top_witness :
    lookupMood (asciiUpperCase "energy") = some energyConfig ∧
      ∃ pl, (radio asciiUpperCase (fun _ => sampleCandidates) List.reverse 0 "energy"
          { limit := some 3, shuffle := some "false" }).1 = RadioResponse.success pl ∧
        pl.tracks = (((fun _ => sampleCandidates) energyConfig.tags).mergeSort scoreGe).take 3 ∧
        IsTopByScore pl.tracks ((fun _ => sampleCandidates) energyConfig.tags) 3 :=
  ⟨by decide,
    C5_ranked_top asciiUpperCase (fun _ => sampleCandidates) List.reverse 0 "energy" 3
      energyConfig (by decide)⟩

/-- C6, the code at a known mood without matching tracks: the request `energy` on a catalog
query returning no track is answered with a success body whose track list is empty, whose
`totalTracks` and `totalDuration` are `0`, and whose `averageIntensity` is `NaN`, not `0`. -/
theorem C6_empty_result_average_nan :
    ∃ pl, (radio asciiUpperCase (fun _ => []) List.reverse 0 "energy"
        { limit := Option.none, shuffle := Option.none }).1 = RadioResponse.success pl ∧
      pl.tracks = [] ∧ pl.stats.totalTracks = 0 ∧ pl.stats.totalDuration = 0 ∧
      pl.stats.averageIntensity = JsNum.nan ∧ pl.stats.averageIntensity ≠ JsNum.num 0 := by
  rw [radio_of_lookup asciiUpperCase (fun _ => []) List.reverse 0 "energy" _ energyConfig
    (by decide)]
  refine ⟨_, rfl, ?_, ?_, ?_, ?_, ?_⟩ <;>
    simp [radioTracks, RadioQuery.shuffleIsTrue, totalDuration, averageIntensity, roundToTenth]

/-- C7: the radio route answers with status 400 and code `UNKNOWN_MOOD` exactly when the
upper-cased identifier is none of the five mood keys, and then issues no catalog query;
otherwise it queries the catalog once, with the tag set configured for that key, and answers
with that mood; two identifiers with the same upper-casing are resolved alike. -/
theorem C7_mood_resolution (toUpperCase : String → String)
    (find : List String → List CatalogTrack)
    (shuffleSort : List CatalogTrack → List CatalogTrack) (now : Nat) (mood : String)
    (q : RadioQuery) :
    ((radio toUpperCase find shuffleSort now mood q).1
          = RadioResponse.badRequest 400 "UNKNOWN_MOOD" ↔
        toUpperCase mood ∉ ["AGGRESSION", "MELANCHOLY", "LOVE", "MYSTERY", "ENERGY"]) ∧
      (toUpperCase mood ∉ ["AGGRESSION", "MELANCHOLY", "LOVE", "MYSTERY", "ENERGY"] →
        (radio toUpperCase find shuffleSort now mood q).2 = []) ∧
      (∀ key cfg, (key, cfg) ∈ MOOD_CATEGORIES → toUpperCase mood = key →
        (radio toUpperCase find shuffleSort now mood q).2 = [cfg.tags] ∧
        ∃ pl, (radio toUpperCase find shuffleSort now mood q).1 = RadioResponse.success pl ∧
          pl.mood.tags = cfg.tags ∧ pl.mood.name = cfg.name ∧ pl.mood.icon = cfg.icon ∧
          pl.tracks = radioTracks shuffleSort (find cfg.tags) q) ∧
      (∀ mood2, toUpperCase mood2 = toUpperCase mood →
        (radio toUpperCase find shuffleSort now mood2 q).2
          = (radio toUpperCase find shuffleSort now mood q).2 ∧
        ((radio toUpperCase find shuffleSort now mood2 q).1
            = RadioResponse.badRequest 400 "UNKNOWN_MOOD" ↔
          (radio toUpperCase find shuffleSort now mood q).1
            = RadioResponse.badRequest 400 "UNKNOWN_MOOD") ∧
        ∀ pl pl2,
          (radio toUpperCase find shuffleSort now mood q).1 = RadioResponse.success pl →
          (radio toUpperCase find shuffleSort now mood2 q).1 = RadioResponse.success pl2 →
          pl2.mood.tags = pl.mood.tags ∧ pl2.mood.name = pl.mood.name ∧
            pl2.tracks = pl.tracks ∧ pl2.stats = pl.stats) := by
  refine ⟨?_, ?_, ?_, ?_⟩
  · rw [← lookupMood_eq_none_iff]
    cases hl : lookupMood (toUpperCase mood) with
    | none => simp [radio_of_lookup_none toUpperCase find shuffleSort now mood q hl]
    | some cfg => simp [radio_of_lookup toUpperCase find shuffleSort now mood q cfg hl]
  · intro h
    rw [← lookupMood_eq_none_iff] at h
    rw [radio_of_lookup_none toUpperCase find shuffleSort now mood q h]
  · intro key cfg hmem hkey
    have hl : lookupMood (toUpperCase mood) = some cfg := by
      rw [hkey]; exact lookupMood_of_mem key cfg hmem
    rw [radio_of_lookup toUpperCase find shuffleSort now mood q cfg hl]
    exact ⟨rfl, _, rfl, rfl, rfl, rfl, rfl⟩
  · intro mood2 h2
    cases hl : lookupMood (toUpperCase mood) with
    | none =>
      have hl2 : lookupMood (toUpperCase mood2) = Option.none := by rw [h2]; exact hl
      rw [radio_of_lookup_none toUpperCase find shuffleSort now mood q hl,
        radio_of_lookup_none toUpperCase find shuffleSort now mood2 q hl2]
      refine ⟨rfl, Iff.rfl, ?_⟩
      intro pl pl2 h
      cases h
    | some cfg =>
      have hl2 : lookupMood (toUpperCase mood2) = some cfg := by rw [h2]; exact hl
      rw [radio_of_lookup toUpperCase find shuffleSort now mood q cfg hl,
        radio_of_lookup toUpperCase find shuffleSort now mood2 q cfg hl2]
      refine ⟨rfl, by simp, ?_⟩
      intro pl pl2 h h'
      simp only [RadioResponse.success.injEq] at h h'
      subst h
      subst h'
      exact ⟨rfl, rfl, rfl, rfl⟩

/-- C7 at the identifiers `energy` and `EnErGy` and at `unknown_mood_xyz`: the first two are
resolved to the `ENERGY` tag set, the third is refused without a catalog query. -/
theorem C7_mood_resolution_witness :
    (asciiUpperCase "unknown_mood_xyz"
        ∉ ["AGGRESSION", "MELANCHOLY", "LOVE", "MYSTERY", "ENERGY"] ∧
      (radio asciiUpperCase (fun _ => sampleCandidates) List.reverse 0 "unknown_mood_xyz"
        { limit := Option.none, shuffle := Option.none }).2 = []) ∧
      (asciiUpperCase "EnErGy" = asciiUpperCase "energy" ∧
        (radio asciiUpperCase (fun _ => sampleCandidates) List.reverse 0 "EnErGy"
          { limit := Option.none, shuffle := Option.none }).2
          = (radio asciiUpperCase (fun _ => sampleCandidates) List.reverse 0 "energy"
            { limit := Option.none, shuffle := Option.none }).2) :=
  ⟨⟨by decide,
      (C7_mood_resolution asciiUpperCase (fun _ => sampleCandidates) List.reverse 0
        "unknown_mood_xyz" { limit := Option.none, shuffle := Option.none }).2.1 (by decide)⟩,
    ⟨by decide,
      ((C7_mood_resolution asciiUpperCase (fun _ => sampleCandidates) List.reverse 0
        "energy" { limit := Option.none, shuffle := Option.none }).2.2.2 "EnErGy"
          (by decide)).1⟩⟩

/-- C8: for every candidate list of a known mood and every limit, under either ordering
branch (the shuffle being a rearrangement), the returned list has exactly `min n L` tracks
and is a rearrangement of a sub-list of the candidates, so that no track occurs more often
than among the candidates; when `n ≤ L` it is a rearrangement of all candidates. -/
theorem C8_no_padding (toUpperCase : String → String) (find : List String → List CatalogTrack)
    (shuffleSort : List CatalogTrack → List CatalogTrack) (now : Nat) (mood : String)
    (q : RadioQuery) (cfg : MoodConfig) (hperm : ∀ l, (shuffleSort l).Perm l)
    (hm : lookupMood (toUpperCase mood) = some cfg) :
    ∃ pl, (radio toUpperCase find shuffleSort now mood q).1 = RadioResponse.success pl ∧
      pl.tracks.length = min (find cfg.tags).length q.limitValue ∧
      pl.tracks.Subperm (find cfg.tags) ∧
      (∀ t, pl.tracks.count t ≤ (find cfg.tags).count t) ∧
      ((find cfg.tags).length ≤ q.limitValue → pl.tracks.Perm (find cfg.tags)) := by
  rw [radio_of_lookup toUpperCase find shuffleSort now mood q cfg hm]
  have hsub := radioTracks_subperm shuffleSort hperm (find cfg.tags) q
  have hlen := radioTracks_length shuffleSort hperm (find cfg.tags) q
  refine ⟨_, rfl, hlen, hsub, fun t => hsub.count_le t, ?_⟩
  intro hle
  apply hsub.perm_of_length_le
  simp only [hlen]
  omega

/-- C8 at the request `energy`, `limit=3`, `shuffle=true` with ten candidates and the
reversal as shuffle. -/
theorem C8_no_padding_witness :
    (∀ l : List CatalogTrack, (List.reverse l).Perm l) ∧
      lookupMood (asciiUpperCase "energy") = some energyConfig ∧
      ∃ pl, (radio asciiUpperCase (fun _ => sampleCandidates) List.reverse 0 "energy"
          { limit := some 3, shuffle := some "true" }).1 = RadioResponse.success pl ∧
        pl.tracks.length = min ((fun _ => sampleCandidates) energyConfig.tags).length
          (RadioQuery.limitValue { limit := some 3, shuffle := some "true" }) ∧
        pl.tracks.Subperm ((fun _ => sampleCandidates) energyConfig.tags) ∧
        (∀ t, pl.tracks.count t ≤ ((fun _ => sampleCandidates) energyConfig.tags).count t) ∧
        (((fun _ => sampleCandidates) energyConfig.tags).length
            ≤ RadioQuery.limitValue { limit := some 3, shuffle := some "true" } →
          pl.tracks.Perm ((fun _ => sampleCandidates) energyConfig.tags)) :=
  ⟨fun l => List.reverse_perm l, by decide,
    C8_no_padding asciiUpperCase (fun _ => sampleCandidates) List.reverse 0 "energy"
      { limit := some 3, shuffle := some "true" } energyConfig
      (fun l => List.reverse_perm l) (by decide)⟩

/-- C9: for a known mood, when the returned track list is non-empty and each of its
intensities is an integer from 1 to 10, `stats.averageIntensity` is the number
`round(10 * sum / n) / 10` (rounding halves upwards), `sum` being the sum of the returned
intensities and `n` their number, and it lies between 1 and 10. -/
theorem C9_average_intensity (toUpperCase : String → String)
    (find : List String → List CatalogTrack)
    (shuffleSort : List CatalogTrack → List CatalogTrack) (now : Nat) (mood : String)
    (q : RadioQuery) (cfg : MoodConfig) (hm : lookupMood (toUpperCase mood) = some cfg)
    (hne : radioTracks shuffleSort (find cfg.tags) q ≠ [])
    (hint : ∀ t ∈ radioTracks shuffleSort (find cfg.tags) q,
      ∃ k : Nat, 1 ≤ k ∧ k ≤ 10 ∧ t.intensity = some (k : ℚ)) :
    ∃ pl v, (radio toUpperCase find shuffleSort now mood q).1 = RadioResponse.success pl ∧
      pl.tracks = radioTracks shuffleSort (find cfg.tags) q ∧
      pl.stats.averageIntensity = JsNum.num v ∧
      v = ((Int.floor (10 * (pl.tracks.map fun t => t.intensity.getD 0).sum
            / (pl.tracks.length : ℚ) + 1 / 2) : Int) : ℚ) / 10 ∧
      1 ≤ v ∧ v ≤ 10 := by
  rw [radio_of_lookup toUpperCase find shuffleSort now mood q cfg hm]
  have hlen : (0 : ℚ) < ((radioTracks shuffleSort (find cfg.tags) q).length : ℚ) := by
    have : 0 < (radioTracks shuffleSort (find cfg.tags) q).length := List.length_pos.mpr hne
    exact_mod_cast this
  have hb := sum_intensity_bounds _ hint
  have hr := round_mean_bounds _ _ hlen hb.1 hb.2
  refine ⟨_, _, rfl, rfl, ?_, ?_, hr.1, hr.2⟩
  · simp only [averageIntensity_of_valid _ hne hint, roundToTenth]
  · simp only [mathRound]
    congr 3
    ring

/-- C9 at the request `energy` with two candidates of intensity 7 and 4: the average
intensity is the rounded mean of the two. -/
theorem C9_average_intensity_witness :
    lookupMood (asciiUpperCase "energy") = some energyConfig ∧
      ∃ pl v, (radio asciiUpperCase (fun _ => sampleIntensityPair) List.reverse 0 "energy"
          { limit := Option.none, shuffle := Option.none }).1 = RadioResponse.success pl ∧
        pl.tracks = radioTracks List.reverse ((fun _ => sampleIntensityPair) energyConfig.tags)
          { limit := Option.none, shuffle := Option.none } ∧
        pl.stats.averageIntensity = JsNum.num v ∧
        v = ((Int.floor (10 * (pl.tracks.map fun t => t.intensity.getD 0).sum
              / (pl.tracks.length : ℚ) + 1 / 2) : Int) : ℚ) / 10 ∧
        1 ≤ v ∧ v ≤ 10 :=
  ⟨by decide,
    C9_average_intensity asciiUpperCase (fun _ => sampleIntensityPair) List.reverse 0 "energy"
      { limit := Option.none, shuffle := Option.none } energyConfig (by decide)
      (by
        intro h
        have hl := radioTracks_length List.reverse (fun l => List.reverse_perm l)
          sampleIntensityPair { limit := Option.none, shuffle := Option.none }
        rw [h] at hl
        simp [sampleIntensityPair, RadioQuery.limitValue] at hl)
      (by
        intro t ht
        have hs := (radioTracks_subperm List.reverse (fun l => List.reverse_perm l)
          sampleIntensityPair { limit := Option.none, shuffle := Option.none }).subset ht
        simp only [sampleIntensityPair, List.mem_cons, List.mem_singleton, List.not_mem_nil,
          or_false] at hs
        rcases hs with rfl | rfl
        · exact ⟨7, by decide, by decide, by simp⟩
        · exact ⟨4, by decide, by decide, by simp⟩)⟩

/-- C10: for a known mood, the returned tracks are the first `limit` entries of the ordered
candidates, `stats.totalDuration` is the sum of `audioFile.duration` over exactly the
returned tracks, a missing duration counting as 0, and `stats.totalTracks` is the number of
returned tracks. -/
theorem C10_stats_over_returned (toUpperCase : String → String)
    (find : List String → List CatalogTrack)
    (shuffleSort : List CatalogTrack → List CatalogTrack) (now : Nat) (mood : String)
    (q : RadioQuery) (cfg : MoodConfig) (hm : lookupMood (toUpperCase mood) = some cfg) :
    ∃ pl, (radio toUpperCase find shuffleSort now mood q).1 = RadioResponse.success pl ∧
      (∃ ordered, (ordered = shuffleSort (find cfg.tags) ∨
          ordered = (find cfg.tags).mergeSort scoreGe) ∧
        pl.tracks = ordered.take q.limitValue) ∧
      pl.stats.totalDuration = (pl.tracks.map fun t => t.duration.getD 0).sum ∧
      pl.stats.totalTracks = pl.tracks.length := by
  rw [radio_of_lookup toUpperCase find shuffleSort now mood q cfg hm]
  refine ⟨_, rfl, ?_, totalDuration_eq_sum _, rfl⟩
  simp only [radioTracks]
  split
  · exact ⟨_, Or.inl rfl, rfl⟩
  · exact ⟨_, Or.inr rfl, rfl⟩

/-- C10 at the request `energy`, `limit=3` with ten candidates. -/
theorem C10_stats_over_returned_witness :
    lookupMood (asciiUpperCase "energy") = some energyConfig ∧
      ∃ pl, (radio asciiUpperCase (fun _ => sampleCandidates) List.reverse 0 "energy"
          { limit := some 3, shuffle := Option.none }).1 = RadioResponse.success pl ∧
        (∃ ordered, (ordered = List.reverse ((fun _ => sampleCandidates) energyConfig.tags) ∨
            ordered = ((fun _ => sampleCandidates) energyConfig.tags).mergeSort scoreGe) ∧
          pl.tracks = ordered.take
            (RadioQuery.limitValue { limit := some 3, shuffle := Option.none })) ∧
        pl.stats.totalDuration = (pl.tracks.map fun t => t.duration.getD 0).sum ∧
        pl.stats.totalTracks = pl.tracks.length :=
  ⟨by decide,
    C10_stats_over_returned asciiUpperCase (fun _ => sampleCandidates) List.reverse 0 "energy"
      { limit := some 3, shuffle := Option.none } energyConfig (by decide)⟩

end RadioClaims

/-! ## The default of the shuffle flag -/

section RadioDefaultClaims

/-- C11, the code at a request without shuffle flag: for `energy`, `limit=3` and ten
candidates, omitting the flag returns the three top-ranked tracks, while `shuffle=true`
returns the first three of the shuffled candidates (here the shuffle is the identity), and
the two differ; whatever the candidates, the limit and the shuffle, omitting the flag takes
the ranking branch. -/
theorem C11_omitted_shuffle_ranks :
    (∃ pl, (radio asciiUpperCase (fun _ => sampleCandidates) id 0 "energy"
          { limit := some 3, shuffle := Option.none }).1 = RadioResponse.success pl ∧
        pl.tracks = (sampleCandidates.mergeSort scoreGe).take 3) ∧
      (∃ pl, (radio asciiUpperCase (fun _ => sampleCandidates) id 0 "energy"
          { limit := some 3, shuffle := some "true" }).1 = RadioResponse.success pl ∧
        pl.tracks = (id sampleCandidates).take 3) ∧
      (sampleCandidates.mergeSort scoreGe).take 3 ≠ (id sampleCandidates).take 3 ∧
      (∀ (shuffleSort : List CatalogTrack → List CatalogTrack) (tracks : List CatalogTrack)
          (limit : Option Nat),
        radioTracks shuffleSort tracks { limit := limit, shuffle := Option.none }
          = (tracks.mergeSort scoreGe).take (limit.getD 50)) := by
  refine ⟨?_, ?_, ?_, ?_⟩
  · rw [radio_of_lookup asciiUpperCase (fun _ => sampleCandidates) id 0 "energy" _ energyConfig
      (by decide)]
    exact ⟨_, rfl, radioTracks_ranked id _ _ rfl⟩
  · rw [radio_of_lookup asciiUpperCase (fun _ => sampleCandidates) id 0 "energy" _ energyConfig
      (by decide)]
    refine ⟨_, rfl, ?_⟩
    simp [radioTracks, RadioQuery.shuffleIsTrue, RadioQuery.limitValue, sampleCandidates]
  · intro h
    have hs := (mergeSort_scoreGe_sorted sampleCandidates).sublist (List.take_sublist 3 _)
    rw [h] at hs
    simp [sampleCandidates, List.range, List.range.loop, score, sampleCatalogTrack] at hs
    norm_num at hs
  · intro shuffleSort tracks limit
    exact radioTracks_ranked shuffleSort tracks _ rfl

end RadioDefaultClaims

/-! ## The playback queue controller: end of track and next track -/

section TransportClaims

/-- C12, the code after `play(t1, [t1, t2], 0)`, `playNext()` with `t2` loaded and 200 seconds
elapsed: the repeat mode is `none` and the cursor `1` is the last position, but the `onend`
callback of the audio resource of `t2` runs the handler of the render in which `playNext` was
called, which holds the cursor `0` and the current track `t1`. The handler therefore calls
`playNext`, which sets the cursor to `1` and loads and plays `t2` again: `isPlaying` stays
true, the elapsed time stays 200, `isLoading` is set, `t2` is added to the history a second
time and a play-count request and a playback start are issued. -/
theorem C12_end_of_queue_reloads :
    secondOfTwo.repeatMode = RepeatMode.none ∧
      secondOfTwo.playlist = [sampleTrack 1, sampleTrack 2] ∧
      secondOfTwo.currentIndex = (secondOfTwo.playlist.length : Int) - 1 ∧
      secondOfTwo.currentTrack = some (sampleTrack 2) ∧
      secondOfTwo.isPlaying = true ∧ secondOfTwo.isLoading = false ∧
      secondOfTwo.currentTime = 200 ∧
      secondOfTwo.history = [sampleTrack 2, sampleTrack 1] ∧
      secondOfTwo.onendRender.currentIndex = 0 ∧
      secondOfTwo.onendRender.currentTrack = some (sampleTrack 1) ∧
      (step secondOfTwo (Op.trackEnd 0 true)).isPlaying = true ∧
      (step secondOfTwo (Op.trackEnd 0 true)).currentTime = 200 ∧
      (step secondOfTwo (Op.trackEnd 0 true)).isLoading = true ∧
      (step secondOfTwo (Op.trackEnd 0 true)).currentIndex = 1 ∧
      (step secondOfTwo (Op.trackEnd 0 true)).currentTrack = some (sampleTrack 2) ∧
      (step secondOfTwo (Op.trackEnd 0 true)).history
        = [sampleTrack 2, sampleTrack 2, sampleTrack 1] ∧
      (step secondOfTwo (Op.trackEnd 0 true)).effects
        = secondOfTwo.effects ++ [Effect.apiPlayTrack 2 true, Effect.howlPlay (sampleTrack 2),
            Effect.haptic "light"] ∧
      step secondOfTwo (Op.trackEnd 0 true)
        ≠ { secondOfTwo with isPlaying := false, currentTime := 0 } := by
  refine ⟨rfl, rfl, rfl, rfl, rfl, rfl, rfl, rfl, rfl, rfl, rfl, rfl, rfl, rfl, rfl, rfl, rfl,
    ?_⟩
  intro h
  have h1 := congrArg PlayerState.isPlaying h
  have h2 : (step secondOfTwo (Op.trackEnd 0 true)).isPlaying = true := rfl
  rw [h2] at h1
  cases h1

/-- C13, the code after `play(t2, [t1, t2], 1)` and two `cycleRepeat()` calls: the repeat mode
is `all`, shuffle is off, the playlist has two entries and the cursor `1` is the last
position, but the `onend` callback of the audio resource of `t2` runs the handler of the
render in which `play` was called, which holds repeat mode `none`, an empty playlist and the
cursor `-1`. For every draw the handler only clears `isPlaying` and the elapsed time: the
cursor stays `1`, the current track stays `t2` and no playback start is issued. -/
theorem C13_repeat_all_no_wrap :
    lastOfTwoRepeatAll.repeatMode = RepeatMode.all ∧
      lastOfTwoRepeatAll.isShuffling = false ∧
      lastOfTwoRepeatAll.playlist = [sampleTrack 1, sampleTrack 2] ∧
      lastOfTwoRepeatAll.currentIndex = (lastOfTwoRepeatAll.playlist.length : Int) - 1 ∧
      lastOfTwoRepeatAll.currentTrack = some (sampleTrack 2) ∧
      lastOfTwoRepeatAll.onendRender.repeatMode = RepeatMode.none ∧
      lastOfTwoRepeatAll.onendRender.playlist = [] ∧
      lastOfTwoRepeatAll.onendRender.currentIndex = -1 ∧
      ∀ (r : ℚ) (ok : Bool),
        step lastOfTwoRepeatAll (Op.trackEnd r ok)
          = { lastOfTwoRepeatAll with isPlaying := false, currentTime := 0 } ∧
        (step lastOfTwoRepeatAll (Op.trackEnd r ok)).currentIndex = 1 ∧
        (step lastOfTwoRepeatAll (Op.trackEnd r ok)).currentIndex ≠ 0 ∧
        (step lastOfTwoRepeatAll (Op.trackEnd r ok)).currentTrack = some (sampleTrack 2) ∧
        (step lastOfTwoRepeatAll (Op.trackEnd r ok)).isPlaying = false ∧
        (step lastOfTwoRepeatAll (Op.trackEnd r ok)).effects = lastOfTwoRepeatAll.effects := by
  refine ⟨rfl, rfl, rfl, rfl, rfl, rfl, rfl, rfl, ?_⟩
  intro r ok
  have e : step lastOfTwoRepeatAll (Op.trackEnd r ok)
      = { lastOfTwoRepeatAll with isPlaying := false, currentTime := 0 } :=
    handleTrackEnd_none_last lastOfTwoRepeatAll.onendRender r ok lastOfTwoRepeatAll rfl
      (by decide)
  rw [e]
  exact ⟨rfl, rfl, by decide, rfl, rfl, rfl⟩

/-- C14, the code after `play(t1, [t1], 0)` and two `cycleRepeat()` calls: the playlist is the
one track `t1` with the cursor `0` and repeat mode `all`, but the `onend` callback of the audio
resource runs the handler of the render in which `play` was called, which holds repeat mode
`none`, an empty playlist and the cursor `-1`. For every draw the handler only clears
`isPlaying` and the elapsed time: the cursor stays `0` and no playback start is issued, so the
track is not replayed. -/
theorem C14_single_track_not_replayed :
    singleTrackRepeatAll.playlist = [sampleTrack 1] ∧
      singleTrackRepeatAll.currentIndex = 0 ∧
      singleTrackRepeatAll.repeatMode = RepeatMode.all ∧
      singleTrackRepeatAll.currentTrack = some (sampleTrack 1) ∧
      singleTrackRepeatAll.isPlaying = true ∧
      singleTrackRepeatAll.onendRender.repeatMode = RepeatMode.none ∧
      singleTrackRepeatAll.onendRender.playlist = [] ∧
      singleTrackRepeatAll.onendRender.currentIndex = -1 ∧
      ∀ (r : ℚ) (ok : Bool),
        step singleTrackRepeatAll (Op.trackEnd r ok)
          = { singleTrackRepeatAll with isPlaying := false, currentTime := 0 } ∧
        (step singleTrackRepeatAll (Op.trackEnd r ok)).isPlaying = false ∧
        (step singleTrackRepeatAll (Op.trackEnd r ok)).currentIndex = 0 ∧
        (step singleTrackRepeatAll (Op.trackEnd r ok)).effects
          = singleTrackRepeatAll.effects := by
  refine ⟨rfl, rfl, rfl, rfl, rfl, rfl, rfl, rfl, ?_⟩
  intro r ok
  have e : step singleTrackRepeatAll (Op.trackEnd r ok)
      = { singleTrackRepeatAll with isPlaying := false, currentTime := 0 } :=
    handleTrackEnd_none_last singleTrackRepeatAll.onendRender r ok singleTrackRepeatAll rfl
      (by decide)
  rw [e]
  exact ⟨rfl, rfl, rfl, rfl⟩

/-- C15: in every reachable state with shuffle on, a playlist of more than one entry and a
cursor `c` (in particular a valid one), for every draw `r` in `[0, 1)` `playNext` sets the cursor to a valid index
other than `c`, keeps the playlist and starts playing the entry at that index; and every
valid index other than `c` is chosen for some draw in `[0, 1)`. -/
theorem C15_shuffled_playNext (s : PlayerState) (ok : Bool) (c : Nat) (hreach : Reachable s)
    (hsh : s.isShuffling = true) (hlen : 1 < s.playlist.length)
    (hc : s.currentIndex = (c : Int)) :
    (∀ r : ℚ, 0 ≤ r → r < 1 →
        ∃ (j : Nat) (t : Track), j < s.playlist.length ∧ j ≠ c ∧ s.playlist[j]? = some t ∧
          (playNext r ok s).currentIndex = (j : Int) ∧
          (playNext r ok s).playlist = s.playlist ∧ StartsPlaying s (playNext r ok s) t) ∧
      (∀ j : Nat, j < s.playlist.length → j ≠ c →
        ∃ r : ℚ, 0 ≤ r ∧ r < 1 ∧ (playNext r ok s).currentIndex = (j : Int)) := by
  have hinv := reachable_howlInv s hreach
  have hn : s.playlist.length ≠ 0 := by omega
  constructor
  · intro r h0 h1
    have hex : ∃ j : Nat, j < s.playlist.length ∧ (j : Int) ≠ s.currentIndex := by
      by_cases hz : c = 0
      · exact ⟨1, hlen, by rw [hc, hz]; decide⟩
      · exact ⟨0, by omega, by rw [hc]; omega⟩
    obtain ⟨j, hj, hne, hnext⟩ := nextIndexOf_shuffle r s hsh h0 h1 hex
    have hp := playNext_of_next r ok s _ hn hnext (by exact_mod_cast hj) hne
    have hspec := playAt_spec s ok j _ hinv (List.getElem?_eq_getElem hj)
    rw [← hp] at hspec
    refine ⟨j, _, hj, ?_, List.getElem?_eq_getElem hj, hspec.1, hspec.2.1, hspec.2.2⟩
    intro hjc
    apply hne
    rw [hc, hjc]
  · intro j hj hjc
    have hne : (j : Int) ≠ s.currentIndex := by rw [hc]; omega
    obtain ⟨r, h0, h1, hnext⟩ := nextIndexOf_shuffle_onto s hsh j hj hne
    refine ⟨r, h0, h1, ?_⟩
    rw [playNext_of_next r ok s _ hn hnext (by exact_mod_cast hj) hne]
    exact (playIn_nil_queue _ _ 0 ok _).2

/-- C15 on three tracks with the cursor on the last one, with the draw `1/2`. -/
theorem C15_shuffled_playNext_witness :
    Reachable lastOfThreeShuffled ∧ lastOfThreeShuffled.isShuffling = true ∧
      lastOfThreeShuffled.currentIndex = ((2 : Nat) : Int) ∧
      ∃ (j : Nat) (t : Track), j < lastOfThreeShuffled.playlist.length ∧ j ≠ 2 ∧
        lastOfThreeShuffled.playlist[j]? = some t ∧
        (playNext (1 / 2) true lastOfThreeShuffled).currentIndex = (j : Int) ∧
        (playNext (1 / 2) true lastOfThreeShuffled).playlist = lastOfThreeShuffled.playlist ∧
        StartsPlaying lastOfThreeShuffled (playNext (1 / 2) true lastOfThreeShuffled) t :=
  ⟨⟨lastOfThreeRun, rfl⟩, rfl, rfl,
    (C15_shuffled_playNext lastOfThreeShuffled true 2 ⟨lastOfThreeRun, rfl⟩ rfl (by decide)
      rfl).1 (1 / 2) (by norm_num) (by norm_num)⟩

/-- C16: in every state with a playlist of one entry, the cursor `0` and shuffle on, for
every draw the lookup of `playNext` into the empty list of other indices yields `undefined`
and `playNext` leaves the whole state unchanged: the cursor stays `0` and the current track
stays what it was. -/
theorem C16_shuffled_playNext_single (s : PlayerState) (r : ℚ) (ok : Bool)
    (hlen : s.playlist.length = 1) (hc : s.currentIndex = 0) (hsh : s.isShuffling = true) :
    nextIndexOf r s = Option.none ∧ playNext r ok s = s ∧
      (playNext r ok s).currentIndex = 0 ∧
      (playNext r ok s).currentTrack = s.currentTrack := by
  have h := playNext_single r ok s hlen hc
  refine ⟨h.2 hsh, h.1, ?_, ?_⟩
  · rw [h.1]; exact hc
  · rw [h.1]

/-- C16 on the one-track queue whose track is current, after `toggleShuffle()`. -/
theorem C16_shuffled_playNext_single_witness :
    (toggleShuffle singleTrackState).playlist.length = 1 ∧
      (toggleShuffle singleTrackState).currentIndex = 0 ∧
      (toggleShuffle singleTrackState).isShuffling = true ∧
      (toggleShuffle singleTrackState).currentTrack = some (sampleTrack 1) ∧
      (playNext (1 / 2) true (toggleShuffle singleTrackState)).currentTrack
        = (toggleShuffle singleTrackState).currentTrack :=
  ⟨rfl, rfl, rfl, rfl,
    (C16_shuffled_playNext_single (toggleShuffle singleTrackState) (1 / 2) true rfl rfl
      rfl).2.2.2⟩

/-- C17: in every reachable state with shuffle off and a valid cursor `c` on a playlist of
length `n`, `playNext` sets the cursor to `c + 1` and starts playing `playlist[c + 1]` when
`c < n - 1`; when `c = n - 1` it sets the cursor to `0` and starts playing `playlist[0]` if
the repeat mode is `all` and `n ≥ 2`, and leaves the whole state unchanged if the repeat
mode is not `all`; on an empty playlist it leaves the state unchanged. -/
theorem C17_sequential_playNext (s : PlayerState) (r : ℚ) (ok : Bool)
    (hreach : Reachable s) (hsh : s.isShuffling = false) :
    (∀ c : Nat, s.currentIndex = (c : Int) → c + 1 < s.playlist.length →
        ∃ t, s.playlist[c + 1]? = some t ∧ (playNext r ok s).currentIndex = (c : Int) + 1 ∧
          (playNext r ok s).playlist = s.playlist ∧ StartsPlaying s (playNext r ok s) t) ∧
      (s.currentIndex = (s.playlist.length : Int) - 1 → 2 ≤ s.playlist.length →
        s.repeatMode = RepeatMode.all →
        ∃ t, s.playlist[0]? = some t ∧ (playNext r ok s).currentIndex = 0 ∧
          (playNext r ok s).playlist = s.playlist ∧ StartsPlaying s (playNext r ok s) t) ∧
      (s.currentIndex = (s.playlist.length : Int) - 1 → 1 ≤ s.playlist.length →
        s.repeatMode ≠ RepeatMode.all → playNext r ok s = s) ∧
      (s.playlist = [] → playNext r ok s = s) := by
  have hinv := reachable_howlInv s hreach
  refine ⟨?_, ?_, ?_, ?_⟩
  · intro c hc hlt
    exact playNext_advance r ok s c hinv hsh hc hlt
  · intro hc hlen hall
    exact playNext_wrap r ok s hinv hsh hall hc hlen
  · intro hc _ hall
    apply playNext_of_same
    rw [nextIndexOf_sequential r s hsh]
    have : s.currentIndex + 1 ≥ (s.playlist.length : Int) := by omega
    rw [if_pos this, if_neg hall]
  · intro hnil
    unfold playNext playNextIn
    simp [PlayerState.render, hnil]

/-- C17 on the queue `[t1, t2, t3]` with the cursor on `t1`: `playNext` moves to `t2`. -/
theorem C17_sequential_playNext_witness :
    Reachable firstOfThree ∧ firstOfThree.isShuffling = false ∧
      firstOfThree.currentIndex = ((0 : Nat) : Int) ∧ 0 + 1 < firstOfThree.playlist.length ∧
      ∃ t, firstOfThree.playlist[0 + 1]? = some t ∧
        (playNext 0 true firstOfThree).currentIndex = ((0 : Nat) : Int) + 1 ∧
        (playNext 0 true firstOfThree).playlist = firstOfThree.playlist ∧
        StartsPlaying firstOfThree (playNext 0 true firstOfThree) t :=
  ⟨⟨firstOfThreeRun, rfl⟩, rfl, rfl, by decide,
    (C17_sequential_playNext firstOfThree 0 true ⟨firstOfThreeRun, rfl⟩ rfl).1 0 rfl
      (by decide)⟩

/-! ## The playback queue controller: previous track -/

/-- C18, as stated, fails on an empty queue: after `play(t1)` without a playlist and 4
seconds of playback a track is loaded and the elapsed time exceeds 3 seconds, but
`playPrevious` returns at once because the playlist is empty and the elapsed time stays 4. -/
theorem C18_empty_queue_counterexample :
    noQueueFourSeconds.currentTrack = some (sampleTrack 1) ∧
      noQueueFourSeconds.howl.map Howl.src = some (sampleTrack 1) ∧
      noQueueFourSeconds.currentTime = 4 ∧ (3 : ℚ) < noQueueFourSeconds.currentTime ∧
      noQueueFourSeconds.playlist = [] ∧
      (playPrevious 0 true noQueueFourSeconds).currentTime = 4 ∧
      (playPrevious 0 true noQueueFourSeconds).currentTime ≠ 0 := by
  have h4 : noQueueFourSeconds.currentTime = 4 := rfl
  have hp : playPrevious 0 true noQueueFourSeconds = noQueueFourSeconds := rfl
  refine ⟨rfl, rfl, h4, ?_, rfl, ?_, ?_⟩
  · rw [h4]; norm_num
  · rw [hp, h4]
  · rw [hp, h4]; norm_num

/-- C18, amended: in every reachable state with a non-empty playlist in which a track is
loaded and the elapsed time is greater than 3 seconds, for every shuffle and repeat setting
and every draw, `playPrevious` seeks the loaded track to 0 (the elapsed time becomes 0) and
leaves the cursor, the current track and the playlist unchanged. -/
theorem C18_playPrevious_restarts (s : PlayerState) (r : ℚ) (ok : Bool)
    (hreach : Reachable s) (hne : s.playlist ≠ []) (hct : s.currentTrack ≠ Option.none)
    (ht : 3 < s.currentTime) :
    playPrevious r ok s = seek 0 s ∧
      (playPrevious r ok s).currentTime = 0 ∧
      (∃ h, (playPrevious r ok s).howl = some h ∧ h.seekPos = 0) ∧
      (playPrevious r ok s).currentIndex = s.currentIndex ∧
      (playPrevious r ok s).currentTrack = s.currentTrack ∧
      (playPrevious r ok s).playlist = s.playlist := by
  have hn : s.playlist.length ≠ 0 := fun h => hne (List.length_eq_zero.mp h)
  have e : playPrevious r ok s = seek 0 s := by
    unfold playPrevious
    rw [if_neg hn, if_pos ht]
  obtain ⟨t, htr⟩ := Option.ne_none_iff_exists'.mp hct
  obtain ⟨hw, hhw, _⟩ := Option.map_eq_some'.mp (reachable_howlInv s hreach t htr)
  rw [e]
  simp [seek, hhw]

/-- C18, amended, on three tracks with the first one playing for 4 seconds. -/
theorem C18_playPrevious_restarts_witness :
    Reachable firstOfThreeFourSeconds ∧ firstOfThreeFourSeconds.playlist ≠ [] ∧
      firstOfThreeFourSeconds.currentTrack ≠ Option.none ∧
      3 < firstOfThreeFourSeconds.currentTime ∧
      (playPrevious 0 true firstOfThreeFourSeconds).currentTime = 0 :=
  ⟨⟨firstOfThreeFourSecondsRun, rfl⟩, by decide, by decide,
    by rw [show firstOfThreeFourSeconds.currentTime = 4 from rfl]; norm_num,
    (C18_playPrevious_restarts firstOfThreeFourSeconds 0 true ⟨firstOfThreeFourSecondsRun, rfl⟩
      (by decide) (by decide)
      (by rw [show firstOfThreeFourSeconds.currentTime = 4 from rfl]; norm_num)).2.1⟩

/-- C19: in every reachable state with shuffle off, an elapsed time of at most 3 seconds and
a valid cursor `c` on a playlist of length `n`, `playPrevious` sets the cursor to `c - 1`
when `c > 0`; when `c = 0` it sets the cursor to `n - 1` if the repeat mode is `all` and
keeps it at `0` otherwise; in each case it keeps the playlist and starts playing the entry
at the new cursor. -/
theorem C19_sequential_playPrevious (s : PlayerState) (r : ℚ) (ok : Bool) (c : Nat)
    (hreach : Reachable s) (hsh : s.isShuffling = false) (ht : s.currentTime ≤ 3)
    (hc : s.currentIndex = (c : Int)) (hcv : c < s.playlist.length) :
    (0 < c → ∃ t, s.playlist[c - 1]? = some t ∧
        (playPrevious r ok s).currentIndex = (c : Int) - 1 ∧
        (playPrevious r ok s).playlist = s.playlist ∧
        StartsPlaying s (playPrevious r ok s) t) ∧
      (c = 0 → s.repeatMode = RepeatMode.all →
        ∃ t, s.playlist[s.playlist.length - 1]? = some t ∧
          (playPrevious r ok s).currentIndex = (s.playlist.length : Int) - 1 ∧
          (playPrevious r ok s).playlist = s.playlist ∧
          StartsPlaying s (playPrevious r ok s) t) ∧
      (c = 0 → s.repeatMode ≠ RepeatMode.all →
        ∃ t, s.playlist[0]? = some t ∧ (playPrevious r ok s).currentIndex = 0 ∧
          (playPrevious r ok s).playlist = s.playlist ∧
          StartsPlaying s (playPrevious r ok s) t) := by
  have hinv := reachable_howlInv s hreach
  have hseq := prevIndexOf_sequential r s hsh
  refine ⟨?_, ?_, ?_⟩
  · intro hpos
    have hprev : prevIndexOf r s = ((c - 1 : Nat) : Int) := by
      rw [hseq, if_neg (by omega), hc]
      omega
    obtain ⟨t, h1, h2, h3, h4⟩ := playPrevious_to r ok s (c - 1) hinv ht hprev (by omega)
    exact ⟨t, h1, by rw [h2]; omega, h3, h4⟩
  · intro hz hall
    have hprev : prevIndexOf r s = ((s.playlist.length - 1 : Nat) : Int) := by
      rw [hseq, if_pos (by omega), if_pos hall]
      omega
    obtain ⟨t, h1, h2, h3, h4⟩ :=
      playPrevious_to r ok s (s.playlist.length - 1) hinv ht hprev (by omega)
    exact ⟨t, h1, by rw [h2]; omega, h3, h4⟩
  · intro hz hall
    have hprev : prevIndexOf r s = ((0 : Nat) : Int) := by
      rw [hseq, if_pos (by omega), if_neg hall]
      rfl
    obtain ⟨t, h1, h2, h3, h4⟩ := playPrevious_to r ok s 0 hinv ht hprev (by omega)
    exact ⟨t, h1, by rw [h2]; rfl, h3, h4⟩

/-- C19 on the queue `[t1, t2]` with the cursor on `t2`: `playPrevious` moves to `t1`. -/
theorem C19_sequential_playPrevious_witness :
    Reachable lastOfTwoRepeatAll ∧ lastOfTwoRepeatAll.isShuffling = false ∧
      lastOfTwoRepeatAll.currentTime ≤ 3 ∧
      lastOfTwoRepeatAll.currentIndex = ((1 : Nat) : Int) ∧
      1 < lastOfTwoRepeatAll.playlist.length ∧
      ∃ t, lastOfTwoRepeatAll.playlist[1 - 1]? = some t ∧
        (playPrevious 0 true lastOfTwoRepeatAll).currentIndex = ((1 : Nat) : Int) - 1 ∧
        (playPrevious 0 true lastOfTwoRepeatAll).playlist = lastOfTwoRepeatAll.playlist ∧
        StartsPlaying lastOfTwoRepeatAll (playPrevious 0 true lastOfTwoRepeatAll) t :=
  ⟨⟨lastOfTwoRepeatAllRun, rfl⟩, rfl,
    by rw [show lastOfTwoRepeatAll.currentTime = 0 from rfl]; norm_num, rfl, by decide,
    (C19_sequential_playPrevious lastOfTwoRepeatAll 0 true 1 ⟨lastOfTwoRepeatAllRun, rfl⟩ rfl
      (by rw [show lastOfTwoRepeatAll.currentTime = 0 from rfl]; norm_num) rfl
      (by decide)).1 (by decide)⟩

/-- C20: with shuffle on, an elapsed time of at most 3 seconds and a non-empty playlist of
length `n`: if the history has a second entry `history[1]` and some playlist entry has its
identifier, `playPrevious` sets the cursor to the first such position for every draw;
otherwise (no second history entry, or no playlist entry with its identifier) it sets the
cursor to `floor(r * n)` for the draw `r` in `[0, 1)`, which is a valid index. -/
theorem C20_shuffled_playPrevious (s : PlayerState) (ok : Bool)
    (hsh : s.isShuffling = true) (ht : s.currentTime ≤ 3) (hne : s.playlist ≠ []) :
    (∀ (h1 p : Track) (i : Nat), s.history[1]? = some h1 → s.playlist[i]? = some p →
        p.id = h1.id → (∀ j, j < i → ∀ q, s.playlist[j]? = some q → q.id ≠ h1.id) →
        ∀ r : ℚ, (playPrevious r ok s).currentIndex = (i : Int)) ∧
      ((s.history[1]? = Option.none ∨
          ∃ h1, s.history[1]? = some h1 ∧ ∀ p ∈ s.playlist, p.id ≠ h1.id) →
        ∀ r : ℚ, 0 ≤ r → r < 1 →
          (playPrevious r ok s).currentIndex = Int.floor (r * (s.playlist.length : ℚ)) ∧
          0 ≤ Int.floor (r * (s.playlist.length : ℚ)) ∧
          Int.floor (r * (s.playlist.length : ℚ)) < (s.playlist.length : Int)) := by
  have hn : s.playlist.length ≠ 0 := fun h => hne (List.length_eq_zero.mp h)
  constructor
  · intro h1 p i hh hget hp hfirst r
    obtain ⟨hi, _⟩ := List.getElem?_eq_some.mp hget
    have hprev := prevIndexOf_history r s hsh h1 hh i p hget hp hfirst
    rw [playPrevious_of_prev r ok s i hn ht hprev hi]
    exact (playIn_nil_queue _ _ 0 ok _).2
  · intro hno r h0 h1
    have hprev := prevIndexOf_random r s hsh hno
    have hge := randomIndex_nonneg r s.playlist.length h0
    have hlt := randomIndex_lt r s.playlist.length h1 (by omega)
    obtain ⟨k, hk⟩ := Int.eq_ofNat_of_zero_le hge
    have hklt : k < s.playlist.length := by rw [hk] at hlt; exact_mod_cast hlt
    rw [hk] at hprev
    have hfl : Int.floor (r * (s.playlist.length : ℚ)) = (k : Int) := hk
    rw [playPrevious_of_prev r ok s k hn ht hprev hklt, hfl]
    exact ⟨(playIn_nil_queue _ _ 0 ok _).2, by omega, by exact_mod_cast hklt⟩

/-- C20 on three tracks after playing `t1` then `t2`, shuffle on: the second history entry
is `t1`, which is at position `0`, and `playPrevious` goes there for the draw `1/2`. -/
theorem C20_shuffled_playPrevious_witness :
    shuffledAfterNext.isShuffling = true ∧ shuffledAfterNext.currentTime ≤ 3 ∧
      shuffledAfterNext.playlist ≠ [] ∧
      shuffledAfterNext.history[1]? = some (sampleTrack 1) ∧
      shuffledAfterNext.playlist[0]? = some (sampleTrack 1) ∧
      (playPrevious (1 / 2) true shuffledAfterNext).currentIndex = ((0 : Nat) : Int) :=
  ⟨rfl, by rw [show shuffledAfterNext.currentTime = 0 from rfl]; norm_num, by decide, rfl, rfl,
    (C20_shuffled_playPrevious shuffledAfterNext true rfl
      (by rw [show shuffledAfterNext.currentTime = 0 from rfl]; norm_num) (by decide)).1
      (sampleTrack 1) (sampleTrack 1) 0 rfl rfl rfl (fun j hj => absurd hj (Nat.not_lt_zero j))
      (1 / 2)⟩

end TransportClaims

/-! ## The playback queue controller: seek, load errors, queue and flags -/

section FrameClaims

/-- C21, as stated, fails: `seek` does not clamp. On a loaded track of duration 180,
`seek(-5)` leaves the elapsed time at `-5` and `seek(200)` leaves it at `200`, outside
`[0, 180]`. -/
theorem C21_seek_counterexample :
    loadedState.howl.map Howl.src = some (sampleTrack 1) ∧ loadedState.duration = 180 ∧
      (seek (-5) loadedState).currentTime = -5 ∧
      (seek (-5) loadedState).currentTime ≠ min (max (-5) 0) loadedState.duration ∧
      (seek (-5) loadedState).currentTime < 0 ∧
      (seek 200 loadedState).currentTime = 200 ∧
      (seek 200 loadedState).currentTime ≠ min (max 200 0) loadedState.duration ∧
      (seek 200 loadedState).duration < (seek 200 loadedState).currentTime := by
  have hd : loadedState.duration = 180 := rfl
  have h1 : (seek (-5) loadedState).currentTime = -5 := rfl
  have h2 : (seek 200 loadedState).currentTime = 200 := rfl
  have h3 : (seek 200 loadedState).duration = 180 := rfl
  refine ⟨rfl, hd, h1, ?_, ?_, h2, ?_, ?_⟩
  · rw [h1, hd]; norm_num
  · rw [h1]; norm_num
  · rw [h2, hd]; norm_num
  · rw [h2, h3]; norm_num

/-- C21, amended: for every state with an audio resource loaded and every time value `t`,
after `seek(t)` the elapsed time is `t` itself and the resource is positioned at `t`, the
duration being unchanged; so the elapsed time lies in `[0, duration]` exactly when `t`
does. -/
theorem C21_seek_sets_time (s : PlayerState) (t : ℚ) (hw : Howl) (hl : s.howl = some hw) :
    (seek t s).currentTime = t ∧
      (seek t s).howl = some { hw with seekPos := t } ∧
      (seek t s).duration = s.duration ∧
      ((0 ≤ (seek t s).currentTime ∧ (seek t s).currentTime ≤ (seek t s).duration) ↔
        (0 ≤ t ∧ t ≤ s.duration)) := by
  have e : seek t s = { s with howl := some { hw with seekPos := t }, currentTime := t } := by
    simp [seek, hl]
  rw [e]
  exact ⟨rfl, rfl, rfl, Iff.rfl⟩

/-- C21, amended, on the loaded track of duration 180 with `seek(30)`. -/
theorem C21_seek_sets_time_witness :
    loadedState.howl
        = some { src := sampleTrack 1, volume := 7 / 10, seekPos := 0, playing := true } ∧
      (seek 30 loadedState).currentTime = 30 :=
  ⟨rfl,
    (C21_seek_sets_time loadedState 30
      { src := sampleTrack 1, volume := 7 / 10, seekPos := 0, playing := true } rfl).1⟩

/-- C22, as stated, fails: after `play(t1)` and a load error reported by the audio backend
the loading flag is cleared but the failed track is still the current track. -/
theorem C22_load_error_counterexample :
    failedLoadState.isLoading = false ∧
      failedLoadState.currentTrack = some (sampleTrack 1) ∧
      failedLoadState.currentTrack ≠ Option.none := by
  refine ⟨rfl, rfl, ?_⟩
  rw [show failedLoadState.currentTrack = some (sampleTrack 1) from rfl]
  exact Option.some_ne_none _

/-- C22, amended: the load-error event sets `isLoading` to false, signals the error with a
toast and changes nothing else; in particular, after a `play(track)` that loads `track` and a
load error, `isLoading` is false and `track` is still the current track and the first history
entry. -/
theorem C22_load_error_keeps_track :
    (∀ s : PlayerState,
        step s Op.onloaderror =
          { s with
            isLoading := false
            effects := s.effects ++ [Effect.toastError "Ошибка загрузки трека"] }) ∧
      (∀ (s : PlayerState) (t : Track) (pl : List Track) (i : Int) (ok : Bool),
        some t.id ≠ s.currentTrack.map Track.id →
        (step (play (some t) pl i ok s) Op.onloaderror).isLoading = false ∧
          (step (play (some t) pl i ok s) Op.onloaderror).currentTrack = some t ∧
          (step (play (some t) pl i ok s) Op.onloaderror).history = t :: s.history.take 49 ∧
          (step (play (some t) pl i ok s) Op.onloaderror).isPlaying
            = (play (some t) pl i ok s).isPlaying ∧
          (step (play (some t) pl i ok s) Op.onloaderror).playlist
            = (play (some t) pl i ok s).playlist ∧
          (step (play (some t) pl i ok s) Op.onloaderror).currentIndex
            = (play (some t) pl i ok s).currentIndex) := by
  refine ⟨fun s => rfl, ?_⟩
  intro s t pl i ok hload
  have hload2 : some t.id ≠ s.render.currentTrack.map Track.id := hload
  have e : play (some t) pl i ok s = howlPlay (loadTrack t pl i ok s) := by
    simp only [play, playIn, loadTrack, hload2, ne_eq, not_false_eq_true, if_true]
  refine ⟨rfl, ?_, ?_, rfl, rfl, rfl⟩
  · simp [step, e, loadTrack, loadTrackIn]
  · simp [step, e, loadTrack, loadTrackIn]

/-- C22, amended, at `play(t1)` on the initial state followed by a load error. -/
theorem C22_load_error_keeps_track_witness :
    some (sampleTrack 1).id ≠ initialState.currentTrack.map Track.id ∧
      (step (play (some (sampleTrack 1)) [] 0 true initialState) Op.onloaderror).currentTrack
        = some (sampleTrack 1) :=
  ⟨by decide,
    (C22_load_error_keeps_track.2 initialState (sampleTrack 1) [] 0 true (by decide)).2.1⟩

/-- C24: `addToQueue(t)` appends `t` to the playlist (the length grows by one and every
earlier position keeps its entry), shows a toast and changes nothing else: the cursor, the
current track, the history, the audio resource and every playback flag are unchanged. -/
theorem C24_addToQueue_frame (s : PlayerState) (t : Track) :
    addToQueue t s =
        { s with
          playlist := s.playlist ++ [t]
          effects := s.effects ++ [Effect.toastSuccess (t.title ++ " добавлен в очередь")] } ∧
      (addToQueue t s).playlist.length = s.playlist.length + 1 ∧
      (∀ i, i < s.playlist.length → (addToQueue t s).playlist[i]? = s.playlist[i]?) ∧
      (addToQueue t s).playlist[s.playlist.length]? = some t ∧
      (addToQueue t s).currentIndex = s.currentIndex ∧
      (addToQueue t s).currentTrack = s.currentTrack ∧
      (addToQueue t s).history = s.history ∧
      (addToQueue t s).howl = s.howl ∧
      (addToQueue t s).isPlaying = s.isPlaying ∧ (addToQueue t s).isLoading = s.isLoading ∧
      (addToQueue t s).isMuted = s.isMuted ∧ (addToQueue t s).isShuffling = s.isShuffling ∧
      (addToQueue t s).repeatMode = s.repeatMode ∧ (addToQueue t s).volume = s.volume ∧
      (addToQueue t s).currentTime = s.currentTime ∧ (addToQueue t s).duration = s.duration := by
  refine ⟨rfl, by simp [addToQueue], ?_, by simp [addToQueue], rfl, rfl, rfl, rfl, rfl, rfl,
    rfl, rfl, rfl, rfl, rfl, rfl⟩
  intro i hi
  simp [addToQueue, List.getElem?_append_left hi]

/-- C26: `cycleRepeat` replaces the repeat mode by the entry after it in
`['none', 'one', 'all']`, wrapping around: `none` becomes `one`, `one` becomes `all`, `all`
becomes `none`; besides the haptic feedback it changes no other field; three applications
restore the repeat mode; and a repeat mode is always one of the three. -/
theorem C26_cycleRepeat_cycle :
    (∀ s : PlayerState,
        cycleRepeat s =
          { s with
            repeatMode := nextRepeatMode s.repeatMode
            effects := s.effects ++ [Effect.haptic "selection"] }) ∧
      nextRepeatMode RepeatMode.none = RepeatMode.one ∧
      nextRepeatMode RepeatMode.one = RepeatMode.all ∧
      nextRepeatMode RepeatMode.all = RepeatMode.none ∧
      (∀ s : PlayerState,
        (cycleRepeat (cycleRepeat (cycleRepeat s))).repeatMode = s.repeatMode) ∧
      (∀ m : RepeatMode, m = RepeatMode.none ∨ m = RepeatMode.one ∨ m = RepeatMode.all) := by
  refine ⟨?_, by decide, by decide, by decide, ?_, ?_⟩
  · intro s
    have h : ∀ m : RepeatMode, nextRepeatMode m =
        (match m with
          | RepeatMode.none => RepeatMode.one
          | RepeatMode.one => RepeatMode.all
          | RepeatMode.all => RepeatMode.none) := by
      intro m; cases m <;> decide
    simp only [cycleRepeat, h]
  · intro s
    cases hm : s.repeatMode <;> simp [cycleRepeat, hm]
  · intro m
    cases m <;> simp

/-- C27: for every `play(track)` that triggers a load, the state reached when the play-count
request fails is the state reached when it succeeds, except for the recorded outcome of that
request: the current track, the playlist, the cursor, the history, the loading flag and the
audio resource are the same, and in both cases the playback start of `track` is issued after
the request. -/
theorem C27_play_count_swallowed (s : PlayerState) (t : Track) (pl : List Track) (i : Int)
    (hload : some t.id ≠ s.currentTrack.map Track.id) :
    play (some t) pl i false s =
        { play (some t) pl i true s with
          effects := s.effects ++
            [Effect.apiPlayTrack t.id false, Effect.howlPlay t, Effect.haptic "light"] } ∧
      (play (some t) pl i true s).effects = s.effects ++
        [Effect.apiPlayTrack t.id true, Effect.howlPlay t, Effect.haptic "light"] ∧
      (play (some t) pl i false s).currentTrack = (play (some t) pl i true s).currentTrack ∧
      (play (some t) pl i false s).currentTrack = some t ∧
      (play (some t) pl i false s).playlist = (play (some t) pl i true s).playlist ∧
      (play (some t) pl i false s).currentIndex = (play (some t) pl i true s).currentIndex ∧
      (play (some t) pl i false s).history = (play (some t) pl i true s).history ∧
      (play (some t) pl i false s).isLoading = (play (some t) pl i true s).isLoading ∧
      (play (some t) pl i false s).isPlaying = (play (some t) pl i true s).isPlaying ∧
      (play (some t) pl i false s).howl = (play (some t) pl i true s).howl := by
  have hload2 : some t.id ≠ s.render.currentTrack.map Track.id := hload
  have e : ∀ ok, play (some t) pl i ok s = howlPlay (loadTrack t pl i ok s) := by
    intro ok
    simp only [play, playIn, loadTrack, hload2, ne_eq, not_false_eq_true, if_true]
  rw [e true, e false]
  refine ⟨?_, ?_, ?_, ?_, ?_, ?_, ?_, ?_, ?_, ?_⟩ <;> simp [howlPlay, loadTrack, loadTrackIn]

/-- C27 at `play(t1, [t1], 0)` on the initial state. -/
theorem C27_play_count_swallowed_witness :
    some (sampleTrack 1).id ≠ initialState.currentTrack.map Track.id ∧
      (play (some (sampleTrack 1)) [sampleTrack 1] 0 false initialState).currentTrack
        = (play (some (sampleTrack 1)) [sampleTrack 1] 0 true initialState).currentTrack :=
  ⟨by decide,
    (C27_play_count_swallowed initialState (sampleTrack 1) [sampleTrack 1] 0
      (by decide)).2.2.1⟩

/-- C25, the code after `play(t1, [t1, t2, t3], 0)`, `playNext()`, `setPlayerVolume(0.3)` and
the end of the track: before the track ends the output gain is the stored volume `0.3`, but
the handler run by `onend` belongs to the render in which `playNext` was called and loads `t2`
again with the volume `0.7` of that render. An audio resource is then loaded, the player is
not muted and the stored volume is `0.3`, while the output gain is `0.7`; two `toggleMute`
calls leave the output gain at `0.3`, so they are not the identity on the output gain. -/
theorem C25_stale_gain_round_trip :
    (run initialState
        [Op.play (some (sampleTrack 1)) [sampleTrack 1, sampleTrack 2, sampleTrack 3] 0 true,
          Op.playNext 0 true, Op.setPlayerVolume (3 / 10)]).howl.map Howl.volume
        = some (3 / 10) ∧
      volumeThenEnd.howl.map Howl.src = some (sampleTrack 2) ∧
      volumeThenEnd.isMuted = false ∧
      volumeThenEnd.volume = 3 / 10 ∧
      volumeThenEnd.howl.map Howl.volume = some (7 / 10) ∧
      (toggleMute volumeThenEnd).howl.map Howl.volume = some 0 ∧
      (toggleMute (toggleMute volumeThenEnd)).isMuted = false ∧
      (toggleMute (toggleMute volumeThenEnd)).volume = 3 / 10 ∧
      (toggleMute (toggleMute volumeThenEnd)).howl.map Howl.volume = some (3 / 10) ∧
      (toggleMute (toggleMute volumeThenEnd)).howl.map Howl.volume
        ≠ volumeThenEnd.howl.map Howl.volume ∧
      toggleMute (toggleMute volumeThenEnd) ≠ volumeThenEnd := by
  have e1 : volumeThenEnd.howl.map Howl.volume = some (7 / 10) := rfl
  have e2 : (toggleMute (toggleMute volumeThenEnd)).howl.map Howl.volume = some (3 / 10) := rfl
  have hne : (toggleMute (toggleMute volumeThenEnd)).howl.map Howl.volume
      ≠ volumeThenEnd.howl.map Howl.volume := by
    rw [e1, e2]
    norm_num
  refine ⟨rfl, rfl, rfl, rfl, e1, rfl, rfl, rfl, e2, hne, ?_⟩
  intro h
  exact hne (by rw [h])

/-- C23, as stated, fails: after `play(t1, [t1, t2], 0)` and `play(t3)` without a playlist
the cursor is `0` and the current track is `t3`, while the entry at the cursor is `t1`; after
`play(t3, [t1, t2], 1)` the cursor is `1` and the current track is `t3`, while the entry at
the cursor is `t2`; and after `play(t1, [t1, t2, t3], 0)`, `playNext()`, `removeFromQueue(0)`
and the end of the track the cursor is `1` and the current track is `t2`, while the entry at
the cursor is `t3`. -/
theorem C23_cursor_track_counterexample :
    ((run initialState playOutsideQueueRun).currentIndex = 0 ∧
        (run initialState playOutsideQueueRun).currentTrack = some (sampleTrack 3) ∧
        jsIndex (run initialState playOutsideQueueRun).playlist
          (run initialState playOutsideQueueRun).currentIndex = some (sampleTrack 1) ∧
        (sampleTrack 1).id ≠ (sampleTrack 3).id ∧
        ¬ CursorTrackInv (run initialState playOutsideQueueRun)) ∧
      ((run initialState playOtherIndexRun).currentIndex = 1 ∧
        (run initialState playOtherIndexRun).currentTrack = some (sampleTrack 3) ∧
        jsIndex (run initialState playOtherIndexRun).playlist
          (run initialState playOtherIndexRun).currentIndex = some (sampleTrack 2) ∧
        (sampleTrack 2).id ≠ (sampleTrack 3).id ∧
        ¬ CursorTrackInv (run initialState playOtherIndexRun)) ∧
      ((run initialState removalThenEndOfThreeRun).currentIndex = 1 ∧
        (run initialState removalThenEndOfThreeRun).playlist = [sampleTrack 2, sampleTrack 3] ∧
        (run initialState removalThenEndOfThreeRun).currentTrack = some (sampleTrack 2) ∧
        jsIndex (run initialState removalThenEndOfThreeRun).playlist
          (run initialState removalThenEndOfThreeRun).currentIndex = some (sampleTrack 3) ∧
        (sampleTrack 3).id ≠ (sampleTrack 2).id ∧
        ¬ CursorTrackInv (run initialState removalThenEndOfThreeRun)) := by
  refine ⟨⟨rfl, rfl, rfl, by decide, ?_⟩, ⟨rfl, rfl, rfl, by decide, ?_⟩,
    ⟨rfl, rfl, rfl, rfl, by decide, ?_⟩⟩
  · intro h
    obtain ⟨p, hp, hid⟩ := h (by decide) (sampleTrack 3) rfl
    have e : jsIndex (run initialState playOutsideQueueRun).playlist
        (run initialState playOutsideQueueRun).currentIndex = some (sampleTrack 1) := rfl
    rw [e] at hp
    cases hp
    exact absurd hid (by decide)
  · intro h
    obtain ⟨p, hp, hid⟩ := h (by decide) (sampleTrack 3) rfl
    have e : jsIndex (run initialState playOtherIndexRun).playlist
        (run initialState playOtherIndexRun).currentIndex = some (sampleTrack 2) := rfl
    rw [e] at hp
    cases hp
    exact absurd hid (by decide)
  · intro h
    obtain ⟨p, hp, hid⟩ := h (by decide) (sampleTrack 2) rfl
    have e : jsIndex (run initialState removalThenEndOfThreeRun).playlist
        (run initialState removalThenEndOfThreeRun).currentIndex = some (sampleTrack 3) := rfl
    rw [e] at hp
    cases hp
    exact absurd hid (by decide)

/-- C23, amended: in every state reached from the initial state by operations other than the
track-end event, each of which keeps the cursor on the current track (a `play` that loads a
track passes a playlist whose entry at the start index has the identifier of the track, or
passes no playlist while the cursor is `-1` or the entry at the cursor has that identifier; a
`removeFromQueue` gets a non-negative index and does not remove the current entry of a
one-entry queue), whenever the
cursor is not `-1` and a current track is set, the playlist has an entry at the cursor with
the identifier of the current track. -/
theorem C23_cursor_identifies_track (ops : List Op) (h : runKeepsCursor initialState ops) :
    (run initialState ops).currentIndex ≠ -1 →
      ∀ t, (run initialState ops).currentTrack = some t →
        ∃ p, jsIndex (run initialState ops).playlist (run initialState ops).currentIndex
            = some p ∧ p.id = t.id :=
  (run_cursorTrack ops initialState
    ⟨by simp [initialState], fun hne => absurd rfl hne⟩ h).2

/-- C23, amended, at the run `play(t2, [t1, t2, t3], 1)`, `removeFromQueue(0)`, `playNext()`,
`addToQueue(t4)`, `playPrevious()`. -/
theorem C23_cursor_identifies_track_witness :
    runKeepsCursor initialState consistentRun ∧
      ((run initialState consistentRun).currentIndex ≠ -1 →
        ∀ t, (run initialState consistentRun).currentTrack = some t →
          ∃ p, jsIndex (run initialState consistentRun).playlist
              (run initialState consistentRun).currentIndex = some p ∧ p.id = t.id) :=
  ⟨⟨Or.inr (Or.inl ⟨by decide, sampleTrack 2, rfl, rfl⟩), ⟨by decide, by decide⟩, trivial,
      trivial, trivial, trivial⟩,
    C23_cursor_identifies_track consistentRun
      ⟨Or.inr (Or.inl ⟨by decide, sampleTrack 2, rfl, rfl⟩), ⟨by decide, by decide⟩, trivial,
        trivial, trivial, trivial⟩⟩

end FrameClaims

/-! ## Server helpers: Telegram data, album counter, duration formatters -/

section ServerLemmas

/-- The result of `verifyTelegramWebAppData` once the hash matches and the `user` parameter
is present, not empty and parseable: only the age test on `auth_date` remains, and it lets a
`NaN` through. -/
theorem verifyTelegramWebAppData_checked {α : Type}
    (calculatedHash : List (String × String) → String) (jsonParse : String → Option α)
    (parseInt : Option String → Option Int) (currentTime : Int)
    (initData : List (String × String)) (userParam : String) (userData : α)
    (hh : initData.lookup "hash"
      = some (calculatedHash (initData.filter fun p => p.1 != "hash")))
    (hu : (initData.filter fun p => p.1 != "hash").lookup "user" = some userParam)
    (hne : userParam ≠ "") (hp : jsonParse userParam = some userData) :
    verifyTelegramWebAppData calculatedHash jsonParse parseInt currentTime initData =
      match parseInt ((initData.filter fun p => p.1 != "hash").lookup "auth_date") with
      | some authDate => if currentTime - authDate > 3600 then Option.none else some userData
      | Option.none => some userData := by
  simp only [verifyTelegramWebAppData, hh, hu, hne, hp, ne_eq, not_true_eq_false, if_false]

theorem Album.addTrack_consistent (a : Album) (trackId : Nat)
    (h : a.totalTracks = (a.tracks.length : Int)) :
    (a.addTrack trackId).totalTracks = ((a.addTrack trackId).tracks.length : Int) := by
  unfold Album.addTrack
  split
  · simp [h]
  · exact h

theorem log2Fuel_bounds (fuel n : Nat) (h1 : 1 ≤ n) (hf : n ≤ fuel) :
    2 ^ log2Fuel fuel n ≤ n ∧ n < 2 ^ (log2Fuel fuel n + 1) := by
  induction fuel generalizing n with
  | zero => omega
  | succ fuel ih =>
    unfold log2Fuel
    split
    · constructor
      · simpa using h1
      · simpa using (by omega : n < 2)
    · rename_i hn
      obtain ⟨ha, hb⟩ := ih (n / 2) (by omega) (by omega)
      constructor
      · rw [pow_succ]; omega
      · rw [pow_succ]; omega

theorem floorLog2_bounds (n : Nat) (h1 : 1 ≤ n) :
    2 ^ floorLog2 n ≤ n ∧ n < 2 ^ (floorLog2 n + 1) :=
  log2Fuel_bounds n n h1 (Nat.le_refl n)

theorem floorLog2_one : floorLog2 1 = 0 := by decide

theorem divRoundHalfEven_one (a : Nat) : divRoundHalfEven a 1 = a := by
  simp [divRoundHalfEven, Nat.mod_one]

theorem divRoundHalfEven_ge (a b : Nat) : a / b ≤ divRoundHalfEven a b := by
  unfold divRoundHalfEven
  split
  · exact Nat.le_refl _
  · split
    · omega
    · split <;> omega

/-- Twice the rounded quotient times the divisor exceeds twice the dividend by at most the
divisor. -/
theorem divRoundHalfEven_le (a b : Nat) (hb : 0 < b) :
    2 * (divRoundHalfEven a b * b) ≤ 2 * a + b := by
  have hdm := Nat.div_add_mod a b
  have hml := Nat.mod_lt a hb
  have e : a / b * b = b * (a / b) := Nat.mul_comm _ _
  unfold divRoundHalfEven
  split
  · omega
  · rename_i h1
    split
    · rw [Nat.add_mul]; omega
    · rename_i h2
      split
      · omega
      · rw [Nat.add_mul]; omega

theorem floorLog2_lt (n k : Nat) (h1 : 1 ≤ n) (h : n < 2 ^ k) : floorLog2 n < k := by
  have hb := (floorLog2_bounds n h1).1
  by_contra hc
  have : 2 ^ k ≤ 2 ^ floorLog2 n := Nat.pow_le_pow_right (by decide) (by omega)
  omega

/-- An integer from `1` to `2^53 - 1` is a double. -/
theorem roundToDouble_natCast (w : Nat) (h1 : 1 ≤ w) (h2 : w < 2 ^ 53) :
    roundToDouble (w : ℚ) = (w : ℚ) := by
  have hnum : ((w : ℚ)).num = (w : Int) := Rat.num_natCast w
  have hden : ((w : ℚ)).den = 1 := Rat.den_natCast w
  have hpos : (0 : Int) < (w : Int) := by omega
  have hne : ¬ ((w : Int) = 0) := by omega
  unfold roundToDouble
  rw [hnum, hden, if_neg hne, if_pos hpos, Int.natAbs_ofNat]
  have hlp := floorLog2_lt w 53 h1 h2
  have hb := (floorLog2_bounds w h1).1
  have hL : floorLog2Quot w 1 = (floorLog2 w : Int) := by
    unfold floorLog2Quot
    simp only [floorLog2_one, Nat.cast_zero, sub_zero, Int.toNat_ofNat, one_mul]
    have hz : (-(floorLog2 w : Int)).toNat = 0 := by omega
    rw [hz, pow_zero, mul_one, if_pos hb]
  unfold roundPosToDouble
  simp only [hL]
  have he : max ((floorLog2 w : Int) - 52) (-1074) = (floorLog2 w : Int) - 52 := by omega
  rw [he]
  have h3 : (-((floorLog2 w : Int) - 52)).toNat = 52 - floorLog2 w := by omega
  have h4 : ((floorLog2 w : Int) - 52).toNat = 0 := by omega
  rw [h3, h4, pow_zero, mul_one, divRoundHalfEven_one]
  have h5 : ((floorLog2 w : Int) - 52) = -((52 - floorLog2 w : Nat) : Int) := by omega
  rw [h5, zpow_neg, zpow_natCast]
  push_cast
  field_simp


/-- The binary exponent of the double nearest to a quotient below `2^48` is at most `-5`. -/
theorem floorLog2Quot_le (p q : Nat) (hp : 1 ≤ p) (hq : 1 ≤ q) (h : p < 2 ^ 48 * q) :
    floorLog2Quot p q ≤ 47 := by
  obtain ⟨hp1, hp2⟩ := floorLog2_bounds p hp
  obtain ⟨hq1, hq2⟩ := floorLog2_bounds q hq
  unfold floorLog2Quot
  simp only
  split
  · rename_i hc
    by_contra hgt
    have hl : (48 : Int) ≤ (floorLog2 p : Int) - (floorLog2 q : Int) := by omega
    have e1 : ((floorLog2 p : Int) - (floorLog2 q : Int)).toNat = floorLog2 p - floorLog2 q := by
      omega
    have e2 : (-((floorLog2 p : Int) - (floorLog2 q : Int))).toNat = 0 := by omega
    rw [e1, e2, pow_zero, mul_one] at hc
    have h48 : 2 ^ 48 ≤ 2 ^ (floorLog2 p - floorLog2 q) :=
      Nat.pow_le_pow_right (by decide) (by omega)
    have : q * 2 ^ 48 ≤ q * 2 ^ (floorLog2 p - floorLog2 q) := Nat.mul_le_mul_left q h48
    omega
  · by_contra hgt
    have hl : floorLog2 q + 49 ≤ floorLog2 p := by omega
    have h1 : 2 ^ (floorLog2 q + 49) ≤ 2 ^ floorLog2 p := Nat.pow_le_pow_right (by decide) hl
    have h2 : 2 ^ (floorLog2 q + 49) = 2 ^ (floorLog2 q + 1) * 2 ^ 48 := by
      rw [← pow_add]
    have h3 : q * 2 ^ 48 ≤ 2 ^ (floorLog2 q + 1) * 2 ^ 48 :=
      Nat.mul_le_mul_right _ (Nat.le_of_lt hq2)
    omega

/-- The double nearest to a quotient `p / q` below `2^48` whose fractional part is at most
`59/60` has the floor of the quotient as its floor. -/
theorem floor_roundPosToDouble (p q k r : Nat) (hp : 1 ≤ p) (hq : 1 ≤ q)
    (h : p < 2 ^ 48 * q) (hr : r < 60) (hpq : 60 * p = (60 * k + r) * q) :
    Int.floor (roundPosToDouble p q) = (k : Int) := by
  have hL := floorLog2Quot_le p q hp hq h
  unfold roundPosToDouble
  simp only
  obtain ⟨e, he⟩ : ∃ e : Int, e = max (floorLog2Quot p q - 52) (-1074) := ⟨_, rfl⟩
  rw [← he]
  have he5 : e ≤ -5 := by omega
  obtain ⟨n, hn⟩ : ∃ n : Nat, e = -(n : Int) := ⟨(-e).toNat, by omega⟩
  have hn5 : 5 ≤ n := by omega
  have e1 : (-e).toNat = n := by omega
  have e2 : e.toNat = 0 := by omega
  rw [e1, e2, pow_zero, mul_one]
  have hN : 32 ≤ 2 ^ n := by
    have : 2 ^ 5 ≤ 2 ^ n := Nat.pow_le_pow_right (by decide) hn5
    simpa using this
  obtain ⟨N, hNdef⟩ : ∃ N : Nat, N = 2 ^ n := ⟨_, rfl⟩
  rw [← hNdef] at hN ⊢
  have hz : (2 : ℚ) ^ e = ((N : ℚ))⁻¹ := by
    rw [hn, zpow_neg, zpow_natCast, hNdef]
    push_cast
    rfl
  rw [hz]
  obtain ⟨m, hm⟩ : ∃ m : Nat, m = divRoundHalfEven (p * N) q := ⟨_, rfl⟩
  rw [← hm]
  have hge : p * N / q ≤ m := by rw [hm]; exact divRoundHalfEven_ge _ _
  have hle : 2 * (m * q) ≤ 2 * (p * N) + q := by rw [hm]; exact divRoundHalfEven_le _ _ hq
  have hkq : k * q ≤ p := by nlinarith
  have hlow : k * N ≤ m := by
    have : k * N ≤ p * N / q := by
      rw [Nat.le_div_iff_mul_le hq]
      nlinarith
    omega
  have hup : m < (k + 1) * N := by
    by_contra hc
    have hc2 : (k + 1) * N ≤ m := by omega
    have h1 : 2 * ((k + 1) * N * q) ≤ 2 * (m * q) := by
      have := Nat.mul_le_mul_right q hc2
      omega
    have h2 : 60 * (p * N) = (60 * k + r) * (N * q) := by
      calc 60 * (p * N) = (60 * p) * N := by ring
        _ = ((60 * k + r) * q) * N := by rw [hpq]
        _ = (60 * k + r) * (N * q) := by ring
    have h3 : r * (N * q) ≤ 59 * (N * q) := Nat.mul_le_mul_right _ (by omega)
    have h4 : 32 * q ≤ N * q := Nat.mul_le_mul_right _ hN
    nlinarith
  have hNpos : (0 : ℚ) < (N : ℚ) := by
    have : 0 < N := by omega
    exact_mod_cast this
  rw [Int.floor_eq_iff]
  constructor
  · rw [← div_eq_mul_inv, le_div_iff₀ hNpos]
    exact_mod_cast hlow
  · rw [← div_eq_mul_inv, div_lt_iff₀ hNpos]
    exact_mod_cast hup

/-- For a whole number of seconds below `2^53` the computed quotient by 60 has the exact
floor. -/
theorem floor_jsDivide_sixty (s : Nat) (h1 : 1 ≤ s) (h2 : s < 2 ^ 53) :
    Int.floor (jsDivide (s : ℚ) 60) = ((s / 60 : Nat) : Int) := by
  obtain ⟨x, hx⟩ : ∃ x : ℚ, x = (s : ℚ) / 60 := ⟨_, rfl⟩
  have hxpos : 0 < x := by
    rw [hx]
    have : (0 : ℚ) < (s : ℚ) := by exact_mod_cast h1
    positivity
  have hnum : 0 < x.num := Rat.num_pos.mpr hxpos
  have hne : ¬ (x.num = 0) := by omega
  have hden : 0 < x.den := x.den_pos
  have hnat : ((x.num.natAbs : Nat) : Int) = x.num := Int.natAbs_of_nonneg (le_of_lt hnum)
  have hfrac : ((x.num.natAbs : Nat) : ℚ) / (x.den : ℚ) = (s : ℚ) / 60 := by
    rw [← hx]
    have : ((x.num.natAbs : Nat) : ℚ) = (x.num : ℚ) := by
      have h0 : ((x.num.natAbs : Nat) : ℚ) = (((x.num.natAbs : Nat) : Int) : ℚ) :=
        (Int.cast_natCast _).symm
      rw [h0, hnat]
    rw [this]
    exact Rat.num_div_den x
  have hdq : (0 : ℚ) < (x.den : ℚ) := by exact_mod_cast hden
  have hcross : 60 * x.num.natAbs = s * x.den := by
    have h3 : (60 : ℚ) * (x.num.natAbs : ℚ) = (s : ℚ) * (x.den : ℚ) := by
      field_simp at hfrac
      linarith
    exact_mod_cast h3
  have hs : s = 60 * (s / 60) + s % 60 := (Nat.div_add_mod s 60).symm
  have hpq : 60 * x.num.natAbs = (60 * (s / 60) + s % 60) * x.den := by
    rw [← hs]; exact hcross
  have hp1 : 1 ≤ x.num.natAbs := by omega
  have hlt : x.num.natAbs < 2 ^ 48 * x.den := by
    have h4 : s * x.den < 2 ^ 53 * x.den := Nat.mul_lt_mul_of_pos_right h2 hden
    have h5 : (2 : Nat) ^ 53 * x.den ≤ 60 * (2 ^ 48 * x.den) := by
      have : (2 : Nat) ^ 53 ≤ 60 * 2 ^ 48 := by norm_num
      nlinarith
    omega
  unfold jsDivide roundToDouble
  rw [← hx, if_neg hne, if_pos hnum]
  exact floor_roundPosToDouble _ _ _ _ hp1 hden hlt (Nat.mod_lt s (by decide)) hpq

/-- An integer below `2^52` is printed with all its digits. -/
theorem shortestFrom_exact (v : Nat) (hv : v < 2 ^ 52) (j : Nat) : shortestFrom v j = v := by
  induction j with
  | zero => rfl
  | succ j ih =>
    unfold shortestFrom
    split
    · exact ih
    · rename_i hge
      have hp : 0 < 10 ^ (j + 1) := Nat.pow_pos (by decide)
      have hdm := Nat.div_add_mod v (10 ^ (j + 1))
      have hml := Nat.mod_lt v hp
      have hq1 : 1 ≤ v / 10 ^ (j + 1) := by
        rw [Nat.le_div_iff_mul_le hp]; omega
      have hcomm : v / 10 ^ (j + 1) * 10 ^ (j + 1) = 10 ^ (j + 1) * (v / 10 ^ (j + 1)) :=
        Nat.mul_comm _ _
      have hlo1 : 10 ^ (j + 1) ≤ v / 10 ^ (j + 1) * 10 ^ (j + 1) :=
        Nat.le_mul_of_pos_left _ hq1
      have hlo2 : v / 10 ^ (j + 1) * 10 ^ (j + 1) ≤ v := by omega
      have h52 : (2 : Nat) ^ 53 = 2 * 2 ^ 52 := by norm_num
      have flo := roundToDouble_natCast (v / 10 ^ (j + 1) * 10 ^ (j + 1)) (by omega) (by omega)
      have fhi := roundToDouble_natCast (v / 10 ^ (j + 1) * 10 ^ (j + 1) + 10 ^ (j + 1))
        (by omega) (by omega)
      have hhi : ¬ (((v / 10 ^ (j + 1) * 10 ^ (j + 1) + 10 ^ (j + 1) : Nat) : ℚ) = (v : ℚ)) := by
        intro h
        have : v / 10 ^ (j + 1) * 10 ^ (j + 1) + 10 ^ (j + 1) = v := by exact_mod_cast h
        omega
      simp only [flo, fhi, hhi, decide_False, Bool.and_false, Bool.false_eq_true, if_false]
      split
      · rename_i hlo
        have : ((v / 10 ^ (j + 1) * 10 ^ (j + 1) : Nat) : ℚ) = (v : ℚ) := by simpa using hlo
        exact_mod_cast this
      · exact ih

theorem numberToString_natCast (n : Nat) (hn : n < 2 ^ 52) :
    numberToString (n : Int) = toString n := by
  have h0 : ¬ ((n : Int) < 0) := by omega
  have h21 : n < 10 ^ 21 := by
    have : (2 : Nat) ^ 52 < 10 ^ 21 := by norm_num
    omega
  unfold numberToString naturalToString shortestRoundTrip
  rw [if_neg h0, Int.natAbs_ofNat, shortestFrom_exact n hn, if_pos h21]

theorem floor_div_sixty (s : Nat) : Int.floor ((s : ℚ) / 60) = ((s / 60 : Nat) : Int) := by
  have := Rat.floor_intCast_div_natCast (s : Int) 60
  simpa using this

theorem jsRemainder_sixty (s : Nat) : jsRemainder (s : ℚ) 60 = ((s % 60 : Nat) : ℚ) := by
  have h0 : (0 : ℚ) ≤ (s : ℚ) / 60 := by positivity
  have hdiv : (s : ℚ) = 60 * ((s / 60 : Nat) : ℚ) + ((s % 60 : Nat) : ℚ) := by
    exact_mod_cast (Nat.div_add_mod s 60).symm
  unfold jsRemainder
  rw [if_pos h0, floor_div_sixty, Int.cast_natCast]
  linarith

theorem padStart2_lt_sixty (k : Nat) (hk : k < 60) :
    padStart2 (toString k) = (if k < 10 then "0" ++ toString k else toString k) ∧
      (padStart2 (toString k)).length = 2 := by
  interval_cases k <;> exact ⟨rfl, rfl⟩

end ServerLemmas

section ServerClaims

/-- C28, the code at requests whose hash check passes and whose `user` parameter parses: a
request without `auth_date` and a request with `auth_date=abc` are answered with the user
data, not with `null`; a request whose `auth_date` is more than 3600 seconds old is answered
with `null` and a fresh one with the user data; and whenever `parseInt` yields `NaN` the
user data is returned. -/
theorem C28_auth_date_nan_accepted :
    verifyTelegramWebAppData (fun _ => "h") (fun u => some u) decimalParseInt 1700000000
        [("user", sampleUserParam), ("hash", "h")] = some sampleUserParam ∧
      verifyTelegramWebAppData (fun _ => "h") (fun u => some u) decimalParseInt 1700000000
        [("auth_date", "abc"), ("user", sampleUserParam), ("hash", "h")]
        = some sampleUserParam ∧
      verifyTelegramWebAppData (fun _ => "h") (fun u => some u) decimalParseInt 1700000000
        [("auth_date", "1699990000"), ("user", sampleUserParam), ("hash", "h")]
        = Option.none ∧
      verifyTelegramWebAppData (fun _ => "h") (fun u => some u) decimalParseInt 1700000000
        [("auth_date", "1699999000"), ("user", sampleUserParam), ("hash", "h")]
        = some sampleUserParam ∧
      (∀ (jsonParse : String → Option String) (currentTime : Int) (user : String),
        verifyTelegramWebAppData (fun _ => "h") jsonParse (fun _ => Option.none) currentTime
            [("user", user), ("hash", "h")]
          = if user = "" then Option.none else jsonParse user) := by
  refine ⟨by decide, by decide, by decide, by decide, ?_⟩
  intro jsonParse currentTime user
  by_cases hu : user = ""
  · simp [verifyTelegramWebAppData, List.lookup, List.filter, hu]
  · cases hp : jsonParse user <;>
      simp [verifyTelegramWebAppData, List.lookup, List.filter, hu, hp]

/-- C29, the code on an album with the single track `1` and `totalTracks = 1`: removing the
track `2`, which is not in the album, leaves the track list unchanged but lowers
`totalTracks` to `0`, so the counter no longer equals the number of tracks. -/
theorem C29_removeTrack_absent_breaks_counter :
    sampleAlbum.totalTracks = (sampleAlbum.tracks.length : Int) ∧
      sampleAlbum.tracks.Nodup ∧
      (sampleAlbum.removeTrack 2).tracks = [1] ∧
      (sampleAlbum.removeTrack 2).totalTracks = 0 ∧
      (sampleAlbum.removeTrack 2).totalTracks
        ≠ ((sampleAlbum.removeTrack 2).tracks.length : Int) := by
  decide

/-- C30, as stated, fails for large whole numbers of seconds: at `s = 10^21`, which is a
double, the quotient `s / 60` is rounded to the double `16666666666666665984`, which is
printed with 17 significant digits, so the three formatters return
`16666666666666666000:40`, while the decimal floor of `s / 60` is `16666666666666666666`. -/
theorem C30_large_seconds_counterexample :
    formatTime (some (JsNum.num ((10 ^ 21 : Nat) : ℚ))) = "16666666666666666000:40" ∧
      formatDuration (some (JsNum.num ((10 ^ 21 : Nat) : ℚ))) = "16666666666666666000:40" ∧
      formattedDuration (some (JsNum.num ((10 ^ 21 : Nat) : ℚ))) = "16666666666666666000:40" ∧
      toString (10 ^ 21 / 60) ++ ":" ++ padStart2 (toString (10 ^ 21 % 60))
        = "16666666666666666666:40" ∧
      formatTime (some (JsNum.num ((10 ^ 21 : Nat) : ℚ)))
        ≠ toString (10 ^ 21 / 60) ++ ":" ++ padStart2 (toString (10 ^ 21 % 60)) := by
  decide!

/-- C30, amended: the three duration formatters return the same string on every argument; for
a whole number of seconds `s` below `2^53` that string is `0:00` when `s = 0` and otherwise
the decimal `s / 60`, a colon and `s % 60` padded with `0` to two characters, the seconds
being below 60 and their field having exactly two characters. -/
theorem C30_formatters_agree (s : Nat) (hs : s < 2 ^ 53) :
    (∀ x : Option JsNum, formatTime x = formatDuration x ∧
        formatDuration x = formattedDuration x) ∧
      formatTime (some (JsNum.num (s : ℚ)))
          = (if s = 0 then "0:00"
            else toString (s / 60) ++ ":" ++ padStart2 (toString (s % 60))) ∧
      padStart2 (toString (s % 60))
          = (if s % 60 < 10 then "0" ++ toString (s % 60) else toString (s % 60)) ∧
      (padStart2 (toString (s % 60))).length = 2 ∧ s % 60 < 60 := by
  have hmod : s % 60 < 60 := Nat.mod_lt s (by decide)
  have hpad := padStart2_lt_sixty (s % 60) hmod
  refine ⟨?_, ?_, hpad.1, hpad.2, hmod⟩
  · intro x
    cases x with
    | none => exact ⟨rfl, rfl⟩
    | some v =>
      cases v with
      | nan => exact ⟨rfl, rfl⟩
      | num q => exact ⟨by simp [formatTime, formatDuration, jsIsNaN], rfl⟩
  · by_cases h0 : s = 0
    · subst h0
      simp [formatTime, jsFalsy]
    · have hq : ¬ ((s : ℚ) = 0) := by exact_mod_cast h0
      have hfl : Int.floor (((s % 60 : Nat) : ℚ)) = ((s % 60 : Nat) : Int) :=
        Int.floor_natCast _
      have h52 : (2 : Nat) ^ 53 = 2 * 2 ^ 52 := by norm_num
      have hdiv : s / 60 < 2 ^ 52 := by omega
      have hsec : s % 60 < 2 ^ 52 := by
        have : (60 : Nat) < 2 ^ 52 := by norm_num
        omega
      have e1 := numberToString_natCast (s / 60) hdiv
      have e2 := numberToString_natCast (s % 60) hsec
      simp only [formatTime, jsFalsy, jsIsNaN, hq, decide_False, Bool.or_self, if_neg h0,
        floor_jsDivide_sixty s (by omega) hs, jsRemainder_sixty, hfl, e1, e2,
        Bool.false_eq_true, if_false]

/-- C30, amended, at 125 seconds. -/
theorem C30_formatters_agree_witness :
    (125 : Nat) < 2 ^ 53 ∧
      formatTime (some (JsNum.num ((125 : Nat) : ℚ)))
        = (if (125 : Nat) = 0 then "0:00"
          else toString (125 / 60) ++ ":" ++ padStart2 (toString (125 % 60))) :=
  ⟨by norm_num, (C30_formatters_agree 125 (by norm_num)).2.1⟩

end ServerClaims

end CriminalMusic
